import Mathlib

/-! # Mercury: protocol identification and the QUIC Initial packet

A shallow embedding of `match.h`, `proto_identify.h` and `quic.h` (header
parsing, salt table, key schedule, header protection, decryption), followed by
theorems about them.

Conventions of the embedding

* a byte (`uint8_t`) is a `Fin 256`; wider machine integers are `Nat`/`Int`;
* a packet buffer is a `List uint8_t`; pointers into it are offsets;
* an out-of-bounds read of a raw pointer is `none` (`Option`), an access outside
  an array a `fault` (`Except`);
* the OpenSSL calls (HMAC, AES, the EVP decryption calls) are parameters; for the
  published test vector HMAC-SHA256 is given by its standard definition.
-/

namespace Mercury

/-! ## Bytes and words -/

/-- A byte, the C type `uint8_t`. -/
abbrev uint8_t := Fin 256

/-- The `uint32_t` that a host reads from four consecutive bytes `b0 b1 b2 b3`
(lowest address first).  `big_endian` is the byte order of the host. -/
def load_u32 (big_endian : Bool) (b0 b1 b2 b3 : uint8_t) : Nat :=
  if big_endian then
    2 ^ 8 * (2 ^ 8 * (2 ^ 8 * b0.val + b1.val) + b2.val) + b3.val
  else
    2 ^ 8 * (2 ^ 8 * (2 ^ 8 * b3.val + b2.val) + b1.val) + b0.val

/-! ## match.h -/

/-- The class `mask_and_value<8>`: two arrays of eight bytes. -/
structure mask_and_value where
  mask : Fin 8 → uint8_t
  value : Fin 8 → uint8_t

/-- The static member `u32_compare_masked_data_to_value`: the three pointers are
cast to `const uint32_t *` and two words are compared;
`((d[0] & m[0]) == v[0]) && ((d[1] & m[1]) == v[1])` as an `unsigned int`. -/
def u32_compare_masked_data_to_value (big_endian : Bool)
    (data_in mask_in value_in : Fin 8 → uint8_t) : Nat :=
  let d0 := load_u32 big_endian (data_in 0) (data_in 1) (data_in 2) (data_in 3)
  let d1 := load_u32 big_endian (data_in 4) (data_in 5) (data_in 6) (data_in 7)
  let m0 := load_u32 big_endian (mask_in 0) (mask_in 1) (mask_in 2) (mask_in 3)
  let m1 := load_u32 big_endian (mask_in 4) (mask_in 5) (mask_in 6) (mask_in 7)
  let v0 := load_u32 big_endian (value_in 0) (value_in 1) (value_in 2) (value_in 3)
  let v1 := load_u32 big_endian (value_in 4) (value_in 5) (value_in 6) (value_in 7)
  if (d0 &&& m0) = v0 ∧ (d1 &&& m1) = v1 then 1 else 0

/-- The first eight bytes behind a raw pointer `tcp_data`, when the buffer
holds that many; `none` stands for a read outside the buffer. -/
def first8 (tcp_data : List uint8_t) : Option (Fin 8 → uint8_t) :=
  if 8 ≤ tcp_data.length then some (fun i => tcp_data.getD i.val 0) else none

/-- The member `mask_and_value<8>::matches(tcp_data)`; the `unsigned int` of the
comparison is converted to `bool`. -/
def mask_and_value.matches (big_endian : Bool) (mv : mask_and_value)
    (tcp_data : List uint8_t) : Option Bool :=
  match first8 tcp_data with
  | none => none
  | some d => some (u32_compare_masked_data_to_value big_endian d mv.mask mv.value != 0)

/-! ## proto_identify.h -/

/-- The struct `matcher_and_type<8>`. -/
structure matcher_and_type where
  mv : mask_and_value
  type : Nat

/-- The class `protocol_identifier<8>`: the vector `short_matchers`. -/
structure protocol_identifier where
  short_matchers : List matcher_and_type

/-- The constructor `protocol_identifier()`: no matcher. -/
def protocol_identifier.new : protocol_identifier := ⟨[]⟩

/-- The member `add_protocol(mv, type)`: `push_back` of a new entry. -/
def protocol_identifier.add_protocol (I : protocol_identifier) (mv : mask_and_value)
    (type : Nat) : protocol_identifier :=
  ⟨I.short_matchers ++ [⟨mv, type⟩]⟩

/-- The range-for loop of `get_msg_type` over `short_matchers`, followed by the
final `return 0`.  The second component counts the calls of `matches`. -/
def protocol_identifier.loop (big_endian : Bool) (data : List uint8_t) :
    List matcher_and_type → Option Nat × Nat
  | [] => (some 0, 0)
  | p :: ps =>
    match p.mv.matches big_endian data with
    | none => (none, 1)
    | some true => (some p.type, 1)
    | some false =>
      let r := protocol_identifier.loop big_endian data ps
      (r.1, r.2 + 1)

/-- The member `get_msg_type(data, len)` together with the number of matcher
evaluations it performed. -/
def protocol_identifier.get_msg_type_traced (big_endian : Bool) (I : protocol_identifier)
    (data : List uint8_t) (len : Nat) : Option Nat × Nat :=
  if len < 8 then (some 0, 0)
  else protocol_identifier.loop big_endian data I.short_matchers

/-- The member `get_msg_type(data, len)`. -/
def protocol_identifier.get_msg_type (big_endian : Bool) (I : protocol_identifier)
    (data : List uint8_t) (len : Nat) : Option Nat :=
  (I.get_msg_type_traced big_endian data len).1

/-- The identifier obtained from the empty one by a sequence of `add_protocol`
calls, given as the list of their arguments. -/
def protocol_identifier.build (calls : List (mask_and_value × Nat)) : protocol_identifier :=
  calls.foldl (fun I c => I.add_protocol c.1 c.2) protocol_identifier.new

/-! ## The byte cursor `datum` -/

/-- Modelled from the spec: the binary cursor `datum` (declared in `datum.h`,
which is not among the sources).  A view is a byte range `[data, data_end)` of
the packet buffer, held as a pair of offsets; `none` is the null state
`{NULL, NULL}`, the "empty/invalid" view of a failed read. -/
abbrev datum := Option (Nat × Nat)

/-- Modelled from the spec: `datum::is_null()`, the cursor is in the null state. -/
def datum.is_null (d : datum) : Bool := d.isNone

/-- Modelled from the spec: `datum::length()`, the number of bytes in the view
(`data_end - data`; zero for the null state). -/
def datum.length : datum → Nat
  | none => 0
  | some (s, e) => e - s

/-- Modelled from the spec: `datum::is_not_empty()`, the view is not null and
holds at least one byte. -/
def datum.is_not_empty : datum → Bool
  | none => false
  | some (s, e) => decide (s < e)

/-- Modelled from the spec: `datum::read_uint8(&output)`.  With a byte left in
the view, that byte is the output and the cursor advances by one; a read that
would run past the end puts the cursor in the null state (the output is then
zero).  The result is the output and the cursor afterwards. -/
def datum.read_uint8 (mem : List uint8_t) : datum → uint8_t × datum
  | none => (0, none)
  | some (s, e) => if s < e then (mem.getD s 0, some (s + 1, e)) else (0, none)

/-- Modelled from the spec: `datum::read_uint16(&output)`, a two-byte field in
network byte order.  With two bytes left the cursor advances by two; otherwise
the cursor goes to the null state and the output is zero. -/
def datum.read_uint16 (mem : List uint8_t) : datum → Nat × datum
  | none => (0, none)
  | some (s, e) =>
    if 2 ≤ e - s then
      (2 ^ 8 * (mem.getD s 0).val + (mem.getD (s + 1) 0).val, some (s + 2, e))
    else (0, none)

/-- Modelled from the spec: `view.parse(r, num_bytes)`.  When `r` holds at least
`num_bytes` bytes, the view becomes the next `num_bytes` bytes of `r` and `r`
advances past them; otherwise both the view and `r` go to the null state.  The
result is the view and `r` afterwards. -/
def datum.parse (r : datum) (num_bytes : Nat) : datum × datum :=
  if r.length < num_bytes then (none, none)
  else
    match r with
    | none => (none, none)
    | some (s, e) => (some (s, s + num_bytes), some (s + num_bytes, e))

/-- The cursor over a whole packet buffer: `datum{buf, buf + len}`. -/
def datum.of_buffer (pkt : List uint8_t) : datum := some (0, pkt.length)

/-! ## quic.h: the variable-length integer -/

/-- The `switch (b & 0xc0)` of `parse_variable_length_integer`, with the initial
`int len = 0`. -/
def varint_len (b : uint8_t) : Nat :=
  if b.val &&& 0xc0 = 0xc0 then 8
  else if b.val &&& 0xc0 = 0x80 then 4
  else if b.val &&& 0xc0 = 0x40 then 2
  else if b.val &&& 0xc0 = 0x00 then 1
  else 0

/-- The body of `for (int i=1; i<len; i++)` in `parse_variable_length_integer`,
run `n` times: `value *= 256; d.read_uint8(&b); value += (b & 0x3f);`. -/
def varint_loop (mem : List uint8_t) : Nat → Int → datum → Int × datum
  | 0, value, d => (value, d)
  | n + 1, value, d =>
    varint_loop mem n
      (value * 256 + (((datum.read_uint8 mem d).1.val &&& 0x3f : Nat) : Int))
      (datum.read_uint8 mem d).2

/-- The function `parse_variable_length_integer(d)`: the returned `ssize_t` and
the cursor afterwards.  The loop runs for `i = 1 .. len-1`. -/
def parse_variable_length_integer (mem : List uint8_t) (d : datum) : Int × datum :=
  let r := datum.read_uint8 mem d
  let l := varint_loop mem (varint_len r.1 - 1) (((r.1.val &&& 0x3f : Nat) : Int)) r.2
  if l.2.is_null then (-1, l.2) else l

/-! ## quic.h: the Initial packet -/

/-- The struct `quic_initial_packet`. -/
structure quic_initial_packet where
  connection_info : uint8_t
  version : datum
  dcid : datum
  scid : datum
  token : datum
  data : datum
  valid : Bool
deriving DecidableEq

/-- The conversion of an `ssize_t` argument to the `size_t` parameter
`num_bytes` of `datum::parse` on a 64-bit host. -/
def size_t_of_ssize_t (x : Int) : Nat := (x % 2 ^ 64).toNat

/-- The constructor `quic_initial_packet(d)`, that is the member initialisers
(`connection_info{0}`, null views, `valid{false}`) followed by `parse(d)`.
The result is the packet and the cursor `d` afterwards. -/
def quic_initial_packet.parse (mem : List uint8_t) (d : datum) :
    quic_initial_packet × datum :=
  let ci := datum.read_uint8 mem d
  if ci.1.val &&& 0x30 ≠ 0 then
    (⟨ci.1, none, none, none, none, none, false⟩, ci.2)
  else
    let version := datum.parse ci.2 4
    let dcid_length := datum.read_uint8 mem version.2
    let dcid := datum.parse dcid_length.2 dcid_length.1.val
    let scid_length := datum.read_uint8 mem dcid.2
    let scid := datum.parse scid_length.2 scid_length.1.val
    let var_int := parse_variable_length_integer mem scid.2
    let token := datum.parse var_int.2 (size_t_of_ssize_t var_int.1)
    let data_length := datum.read_uint16 mem token.2
    let data := datum.parse data_length.2 (data_length.1 &&& 0x3FFF)
    if data.1.is_not_empty = false ∨ (data_length.1 &&& 0x3FFF) < 32 ∨
        dcid.1.is_not_empty = false then
      (⟨ci.1, version.1, dcid.1, scid.1, token.1, data.1, false⟩, data.2)
    else
      (⟨ci.1, version.1, dcid.1, scid.1, token.1, data.1, true⟩, data.2)

/-! ## Example inputs -/

/-- Three `add_protocol` calls: a TLS-like pattern (type 3), the pattern of
`GET ` (type 1) and an all-zero mask that matches everything (type 9). -/
def example_calls : List (mask_and_value × Nat) :=
  [(⟨![0xff, 0xff, 0xfc, 0x00, 0x00, 0xff, 0x00, 0x00],
      ![0x16, 0x03, 0x00, 0x00, 0x00, 0x01, 0x00, 0x00]⟩, 3),
   (⟨![0xff, 0xff, 0xff, 0xff, 0x00, 0x00, 0x00, 0x00],
      ![0x47, 0x45, 0x54, 0x20, 0x00, 0x00, 0x00, 0x00]⟩, 1),
   (⟨![0x00, 0x00, 0x00, 0x00, 0x00, 0x00, 0x00, 0x00],
      ![0x00, 0x00, 0x00, 0x00, 0x00, 0x00, 0x00, 0x00]⟩, 9)]

/-- The eight bytes `GET / HT`. -/
def example_get_request : List uint8_t := [0x47, 0x45, 0x54, 0x20, 0x2f, 0x20, 0x48, 0x54]

/-- The RFC 9000 sample encoding `c2 19 7c 5e ff 14 e8 8c`. -/
def example_varint8 : List uint8_t := [0xc2, 0x19, 0x7c, 0x5e, 0xff, 0x14, 0xe8, 0x8c]

/-- An Initial packet: first byte `c3`, version `ff00001d`, an 8-byte destination
connection ID, an empty source connection ID, an empty token, the length field
`40 20` (32) and a payload of 32 bytes. -/
def example_initial_32 : List uint8_t :=
  [0xc3, 0xff, 0x00, 0x00, 0x1d, 0x08, 0x83, 0x94, 0xc8, 0xf0, 0x3e, 0x51, 0x57, 0x08,
    0x00, 0x00, 0x40, 0x20] ++ List.replicate 32 0xaa

/-- The same packet with the length field `40 1f` (31) and a payload of 31 bytes. -/
def example_initial_31 : List uint8_t :=
  [0xc3, 0xff, 0x00, 0x00, 0x1d, 0x08, 0x83, 0x94, 0xc8, 0xf0, 0x3e, 0x51, 0x57, 0x08,
    0x00, 0x00, 0x40, 0x1f] ++ List.replicate 31 0xaa

/-! ## Reference definitions used in the statements -/

/-- The bytewise definition of a match: `(b[i] & mask[i]) == value[i]` for
every index `i` in `0..7`. -/
def bytewise_match (mask value b : Fin 8 → uint8_t) : Prop :=
  ∀ i : Fin 8, (b i).val &&& (mask i).val = (value i).val

instance (mask value b : Fin 8 → uint8_t) : Decidable (bytewise_match mask value b) := by
  unfold bytewise_match; infer_instance

/-- The integer that RFC 9000, section 16 assigns to an encoding (the argument is
the whole encoding): the low six bits of the first byte followed by all eight
bits of each further byte, read big-endian. -/
def rfc9000_varint_value : List uint8_t → Nat
  | [] => 0
  | b :: rest => rest.foldl (fun acc x => acc * 256 + x.val) (b.val &&& 0x3f)

/-- A view covers no byte outside the input `[lo, hi)`: it is null, or
`lo ≤ data ≤ data_end ≤ hi`. -/
def datum.within (lo hi : Nat) : datum → Prop
  | none => True
  | some (a, b) => lo ≤ a ∧ a ≤ b ∧ b ≤ hi

instance (lo hi : Nat) (d : datum) : Decidable (d.within lo hi) := by
  match d with
  | none => exact isTrue trivial
  | some (a, b) => unfold datum.within; infer_instance

/-! ### Wire layout of an Initial packet

The offsets below are read off the packet bytes, for a packet that starts at
offset `s` of `mem`; they follow the layout comment of `quic.h` and the
specification (first byte, 4-byte version, length-prefixed connection IDs, the
token length as a QUIC variable-length integer, the token, the 2-byte length
field, the payload).  They do not use the parser. -/

/-- The destination connection ID length byte, at offset 5 of the packet. -/
def wire_dcid_length (mem : List uint8_t) (s : Nat) : Nat := (mem.getD (s + 5) 0).val

/-- The source connection ID length byte, which follows the destination
connection ID. -/
def wire_scid_length (mem : List uint8_t) (s : Nat) : Nat :=
  (mem.getD (s + 6 + wire_dcid_length mem s) 0).val

/-- The offset of the token-length field. -/
def wire_token_length_offset (mem : List uint8_t) (s : Nat) : Nat :=
  s + 7 + wire_dcid_length mem s + wire_scid_length mem s

/-- The number of bytes of a variable-length integer whose first byte is `b`
(RFC 9000, section 16): 1, 2, 4 or 8, selected by the two most significant
bits. -/
def rfc9000_varint_length (b : uint8_t) : Nat := 2 ^ (b.val / 64)

/-- The token length that the header declares: the RFC 9000 value of the
variable-length integer at the token-length field. -/
def declared_token_length (mem : List uint8_t) (s : Nat) : Nat :=
  rfc9000_varint_value
    ((List.range (rfc9000_varint_length (mem.getD (wire_token_length_offset mem s) 0))).map
      (fun i => mem.getD (wire_token_length_offset mem s + i) 0))

/-- The offset of the token, which follows the token-length field. -/
def declared_token_offset (mem : List uint8_t) (s : Nat) : Nat :=
  wire_token_length_offset mem s +
    rfc9000_varint_length (mem.getD (wire_token_length_offset mem s) 0)

/-- The offset of the 2-byte length field, which follows the token. -/
def declared_length_offset (mem : List uint8_t) (s : Nat) : Nat :=
  declared_token_offset mem s + declared_token_length mem s

/-- The payload length that the header declares: the 2-byte length field,
big-endian, `& 0x3FFF`. -/
def declared_payload_length (mem : List uint8_t) (s : Nat) : Nat :=
  (2 ^ 8 * (mem.getD (declared_length_offset mem s) 0).val +
    (mem.getD (declared_length_offset mem s + 1) 0).val) &&& 0x3FFF

/-- The offset at which the packet ends: the end of the declared payload. -/
def declared_packet_end (mem : List uint8_t) (s : Nat) : Nat :=
  declared_length_offset mem s + 2 + declared_payload_length mem s

/-! ### The layout as the parser decodes it

The offsets at which `quic_initial_packet::parse` finds the token, the length
field and the payload, for an input `[s, e)`.  They are built on the value that
the parser's own `parse_variable_length_integer` returns for the token length,
so they describe the code: when the token-length field has more than one byte
that value need not be the declared one, and these offsets then differ from the
wire layout above. -/

/-- The token length that the parser uses: what `parse_variable_length_integer`
returns for the token-length field, as `datum::parse` receives it. -/
def parsed_token_length (mem : List uint8_t) (s e : Nat) : Nat :=
  size_t_of_ssize_t (parse_variable_length_integer mem
    (some (wire_token_length_offset mem s, e))).1

/-- The offset at which the parser starts the token: the cursor after
`parse_variable_length_integer` has read as many bytes as the first byte
selects. -/
def parsed_token_offset (mem : List uint8_t) (s : Nat) : Nat :=
  wire_token_length_offset mem s + varint_len (mem.getD (wire_token_length_offset mem s) 0)

/-- The offset at which the parser reads the 2-byte length field: the end of the
token view. -/
def parsed_length_offset (mem : List uint8_t) (s e : Nat) : Nat :=
  parsed_token_offset mem s + parsed_token_length mem s e

/-- The payload length that the parser uses: the two bytes at
`parsed_length_offset`, big-endian, `& 0x3FFF`. -/
def parsed_payload_length (mem : List uint8_t) (s e : Nat) : Nat :=
  (2 ^ 8 * (mem.getD (parsed_length_offset mem s e) 0).val +
    (mem.getD (parsed_length_offset mem s e + 1) 0).val) &&& 0x3FFF

/-! ## Definitions for the layout claims -/

/-- An Initial packet whose token-length field is the two-byte encoding `40 40`
(RFC 9000 value 64): first byte `c3`, version `ff00001d`, an 8-byte destination
connection ID, an empty source connection ID, the token-length field `40 40`, a
token of 64 bytes that starts with `40 20`, the length field `40 20` (32) and a
payload of 32 bytes; 115 bytes in all. -/
def example_initial_token64 : List uint8_t :=
  [0xc3, 0xff, 0x00, 0x00, 0x1d, 0x08, 0x83, 0x94, 0xc8, 0xf0, 0x3e, 0x51, 0x57, 0x08,
    0x00, 0x40, 0x40] ++ ([0x40, 0x20] ++ List.replicate 62 0xaa) ++ [0x40, 0x20] ++
    List.replicate 32 0xbb

/-- The packet `example_initial_token64` with a token that starts with `00 05`
instead of `40 20`: the header declares a token of 64 bytes, the length field
`40 20` at offsets 81..82 and a payload of 32 bytes at offsets 83..114. -/
def example_initial_token64_len5 : List uint8_t :=
  [0xc3, 0xff, 0x00, 0x00, 0x1d, 0x08, 0x83, 0x94, 0xc8, 0xf0, 0x3e, 0x51, 0x57, 0x08,
    0x00, 0x40, 0x40] ++ ([0x00, 0x05] ++ List.replicate 62 0xaa) ++ [0x40, 0x20] ++
    List.replicate 32 0xbb

/-- The packet `example_initial_token64` with a token that starts with `00 28`
(40) instead of `40 20`: the header declares a token of 64 bytes, the length
field `40 20` at offsets 81..82 and a payload of 32 bytes at offsets 83..114. -/
def example_initial_token64_len40 : List uint8_t :=
  [0xc3, 0xff, 0x00, 0x00, 0x1d, 0x08, 0x83, 0x94, 0xc8, 0xf0, 0x3e, 0x51, 0x57, 0x08,
    0x00, 0x40, 0x40] ++ ([0x00, 0x28] ++ List.replicate 62 0xaa) ++ [0x40, 0x20] ++
    List.replicate 32 0xbb

/-- The local variable `data_length` of `quic_initial_packet::parse` after
`data_length = data_length & 0x3FFF`, on the path on which the first byte passed
the reserved-bits check (the statements of `parse` up to that line). -/
def quic_initial_packet.parse_data_length (mem : List uint8_t) (d : datum) : Nat :=
  let ci := datum.read_uint8 mem d
  let version := datum.parse ci.2 4
  let dcid_length := datum.read_uint8 mem version.2
  let dcid := datum.parse dcid_length.2 dcid_length.1.val
  let scid_length := datum.read_uint8 mem dcid.2
  let scid := datum.parse scid_length.2 scid_length.1.val
  let var_int := parse_variable_length_integer mem scid.2
  let token := datum.parse var_int.2 (size_t_of_ssize_t var_int.1)
  let data_length := datum.read_uint16 mem token.2
  data_length.1 &&& 0x3FFF

/-- A cursor over an input that ends at offset `e`: it is null or its `data_end`
is `e`. -/
def datum.ends_at (e : Nat) : datum → Prop
  | none => True
  | some (_, b) => b = e

/-! ## quic.h: `quic_parameters` -/

/-- The member `salt_d22` of `quic_parameters`. -/
def salt_d22 : List uint8_t :=
  [0x7f, 0xbc, 0xdb, 0x0e, 0x7c, 0x66, 0xbb, 0xe9, 0x19, 0x3a, 0x96, 0xcd, 0x21, 0x51, 0x9e,
    0xbd, 0x7a, 0x02, 0x64, 0x4a]

/-- The member `salt_d23_d28` of `quic_parameters`. -/
def salt_d23_d28 : List uint8_t :=
  [0xc3, 0xee, 0xf7, 0x12, 0xc7, 0x2e, 0xbb, 0x5a, 0x11, 0xa7, 0xd2, 0x43, 0x2b, 0xb4, 0x63,
    0x65, 0xbe, 0xf9, 0xf5, 0x02]

/-- The member `salt_d29_d32` of `quic_parameters`. -/
def salt_d29_d32 : List uint8_t :=
  [0xaf, 0xbf, 0xec, 0x28, 0x99, 0x93, 0xd2, 0x4c, 0x9e, 0x97, 0x86, 0xf1, 0x9c, 0x61, 0x11,
    0xe0, 0x43, 0x90, 0xa8, 0x99]

/-- The member `salt_d33_v1` of `quic_parameters`. -/
def salt_d33_v1 : List uint8_t :=
  [0x38, 0x76, 0x2c, 0xf7, 0xf5, 0x59, 0x34, 0xb3, 0x4d, 0x17, 0x9a, 0xe6, 0xa4, 0xc8, 0x0c,
    0xad, 0xcc, 0xbb, 0x7f, 0x0a]

/-- The map `quic_initial_salt` as the constructor `quic_parameters()` fills it:
the initialiser list of (version, salt) pairs, whose keys are distinct. -/
def quic_initial_salt : List (Nat × List uint8_t) :=
  [(4278190102, salt_d22),
   (4278190103, salt_d23_d28),
   (4278190104, salt_d23_d28),
   (4278190105, salt_d23_d28),
   (4278190106, salt_d23_d28),
   (4278190107, salt_d23_d28),
   (4278190108, salt_d23_d28),
   (4278190109, salt_d29_d32),
   (4278190110, salt_d29_d32),
   (4278190111, salt_d29_d32),
   (4278190112, salt_d29_d32),
   (4278190113, salt_d33_v1),
   (4278190114, salt_d33_v1),
   (1, salt_d33_v1)]

/-- The member `get_initial_salt(version)`: `find` in the map; `none` is the
returned `nullptr`, otherwise the salt the returned pointer refers to. -/
def get_initial_salt (version : Nat) : Option (List uint8_t) :=
  quic_initial_salt.lookup version

/-! ## quic.h: `kdf_tls13` -/

/-- The ways in which a run of the embedded code can fail to produce a result:
an access outside an array or through a null pointer (undefined behaviour in
C++), or a loop of the embedding that ran out of its iteration budget. -/
inductive fault where
  | out_of_bounds
  | out_of_fuel
deriving DecidableEq

instance {ε α : Type} [DecidableEq ε] [DecidableEq α] : DecidableEq (Except ε α) :=
  fun x y =>
    match x, y with
    | .ok a, .ok b =>
      if h : a = b then isTrue (congrArg Except.ok h)
      else isFalse (fun h2 => h (Except.ok.inj h2))
    | .error a, .error b =>
      if h : a = b then isTrue (congrArg Except.error h)
      else isFalse (fun h2 => h (Except.error.inj h2))
    | .ok _, .error _ => isFalse (fun h => Except.noConfusion h)
    | .error _, .ok _ => isFalse (fun h => Except.noConfusion h)

/-- The library call `HMAC(EVP_sha256(), key, key_len, data, data_len, md, &md_len)`
as a parameter: `HMAC key data` is the digest written to `md`, and `md_len` is
its length, 32 for SHA-256. -/
structure hmac_api where
  HMAC : List uint8_t → List uint8_t → List uint8_t
  md_len : ∀ key data, (HMAC key data).length = 32

/-- The array `new_label` of `kdf_tls13` after its initialisation: `4 + label_len`
zero bytes with `[1] = length`, `[2] = label_len` and `[3 + i] = label[i]`. -/
def kdf_new_label (label : List uint8_t) (length : uint8_t) : List uint8_t :=
  [0, length, Fin.ofNat label.length] ++ label ++ [0]

/-- The elements `a[i], ..., a[i + n - 1]` of an array, `none` when one of the
indices is outside the array. -/
def read_range (a : List uint8_t) : Nat → Nat → Option (List uint8_t)
  | _, 0 => some []
  | i, n + 1 =>
    match a.get? i, read_range a (i + 1) n with
    | some x, some xs => some (x :: xs)
    | _, _ => none

/-- The last `for` loop of `kdf_tls13` over the bytes of `block`:
`out_[*out_len] = block[i]; (*out_len)++; if (*out_len >= length) return;`.
The result is the array `out_`, `*out_len`, and whether the function returned
from inside the loop. -/
def kdf_copy (length : Nat) : List uint8_t → List uint8_t → Nat →
    Except fault (List uint8_t × Nat × Bool)
  | [], out_, out_len => .ok (out_, out_len, false)
  | b :: bs, out_, out_len =>
    if out_len < out_.length then
      if length ≤ out_len + 1 then .ok (out_.set out_len b, out_len + 1, true)
      else kdf_copy length bs (out_.set out_len b) (out_len + 1)
    else .error .out_of_bounds

/-- The `while (*out_len < length)` loop of `kdf_tls13`, for at most `fuel`
iterations.  `block` holds `block[0 .. block_len)`; the 512-byte array
`new_block` receives `block`, then `new_label[i]` for
`i = block_len .. block_len + label_len + 3`, then `ind`, and its first
`block_len + label_len + 5` bytes are the HMAC input. -/
def kdf_tls13_loop (H : hmac_api) (secret new_label : List uint8_t) (label_len length : Nat) :
    Nat → Nat → List uint8_t → List uint8_t → Nat → Except fault (List uint8_t × Nat)
  | 0, _, _, out_, out_len =>
    if out_len < length then .error .out_of_fuel else .ok (out_, out_len)
  | fuel + 1, ind, block, out_, out_len =>
    if out_len < length then
      if 512 < block.length + label_len + 5 then .error .out_of_bounds
      else
        match read_range new_label block.length (label_len + 4) with
        | none => .error .out_of_bounds
        | some part =>
          match kdf_copy length
              (H.HMAC secret (block ++ part ++ [Fin.ofNat ((ind + 1) % 256)])) out_ out_len with
          | .error f => .error f
          | .ok (out2, out_len2, true) => .ok (out2, out_len2)
          | .ok (out2, out_len2, false) =>
            kdf_tls13_loop H secret new_label label_len length fuel ((ind + 1) % 256)
              (H.HMAC secret (block ++ part ++ [Fin.ofNat ((ind + 1) % 256)])) out2 out_len2
    else .ok (out_, out_len)

/-- The member `kdf_tls13(secret, secret_length, label, label_len, length, out_,
out_len)`: `secret` and `label` are the bytes behind the pointers, `out_` is the
output array and `out_len` the value of `*out_len` on entry; the result is the
array and `*out_len` on return.  Every iteration of the loop appends 32 bytes
or returns, so `length + 1` iterations are enough. -/
def kdf_tls13 (H : hmac_api) (secret label : List uint8_t) (length : uint8_t)
    (out_ : List uint8_t) (out_len : Nat) : Except fault (List uint8_t × Nat) :=
  kdf_tls13_loop H secret (kdf_new_label label length) label.length length.val
    (length.val + 1) 0 [] out_ out_len

/-! ### HKDF-Expand-Label as the specification words it -/

/-- The `label_struct` of HKDF-Expand-Label: `0x00, L, label_len, label bytes,
0x00` (the requested length, the length-prefixed label, an empty context). -/
def hkdf_label_struct (label : List uint8_t) (L : Nat) : List uint8_t :=
  [0x00, Fin.ofNat L, Fin.ofNat label.length] ++ label ++ [0x00]

/-- The blocks of the expansion: `T(0)` is empty and
`T(i) = HMAC(secret, T(i-1) || label_struct || i)`. -/
def hkdf_T (H : hmac_api) (secret info : List uint8_t) : Nat → List uint8_t
  | 0 => []
  | i + 1 => H.HMAC secret (hkdf_T H secret info i ++ info ++ [Fin.ofNat (i + 1)])

/-- HKDF-Expand-Label: the first `L` bytes of `T(1) || T(2) || ...`. -/
def hkdf_expand_label (H : hmac_api) (secret label : List uint8_t) (L : Nat) :
    List uint8_t :=
  ((List.range ((L + 31) / 32)).flatMap
    (fun i => hkdf_T H secret (hkdf_label_struct label L) (i + 1))).take L

/-! ## The library primitive HMAC-SHA256 -/

/-- Modelled from the spec: a 32-bit right rotation, as SHA-256 (FIPS 180-4) uses
it; part of the HMAC-SHA256 primitive that the specification assumes available
as a library call. -/
def sha256_rotr (x n : Nat) : Nat := (x >>> n) ||| ((x <<< (32 - n)) % 2 ^ 32)

/-- Modelled from the spec: addition modulo `2^32` (FIPS 180-4). -/
def sha256_add (x y : Nat) : Nat := (x + y) % 2 ^ 32

/-- Modelled from the spec: the prime numbers below 312, which are the first 64
primes (FIPS 180-4 defines the constants of SHA-256 from them). -/
def sha256_primes : List Nat :=
  (List.range 312).filter
    (fun n => decide (2 ≤ n) && (List.range n).all (fun d => decide (d < 2) || n % d != 0))

/-- Modelled from the spec: the integer `k`-th root of `n` found bit by bit: the
largest `x` below `2 ^ bits` (above the accumulator `acc`) with `x ^ k ≤ n`. -/
def sha256_root (k n : Nat) : Nat → Nat → Nat
  | 0, acc => acc
  | bits + 1, acc =>
    if (acc + 2 ^ bits) ^ k ≤ n then sha256_root k n bits (acc + 2 ^ bits)
    else sha256_root k n bits acc

/-- Modelled from the spec: the 64 round constants of SHA-256 (FIPS 180-4,
section 4.2.2): the first 32 bits of the fractional parts of the cube roots of
the first 64 primes. -/
def sha256_K : List Nat :=
  sha256_primes.map (fun p => sha256_root 3 (p * 2 ^ 96) 40 0 % 2 ^ 32)

/-- Modelled from the spec: the eight working variables of SHA-256. -/
structure sha256_state where
  a : Nat
  b : Nat
  c : Nat
  d : Nat
  e : Nat
  f : Nat
  g : Nat
  h : Nat

/-- Modelled from the spec: the first 32 bits of the fractional part of the
square root of `p`. -/
def sha256_sqrt_frac (p : Nat) : Nat := sha256_root 2 (p * 2 ^ 64) 40 0 % 2 ^ 32

/-- Modelled from the spec: the initial hash value of SHA-256 (FIPS 180-4,
section 5.3.3): the first 32 bits of the fractional parts of the square roots
of the first 8 primes. -/
def sha256_H0 : sha256_state :=
  ⟨sha256_sqrt_frac 2, sha256_sqrt_frac 3, sha256_sqrt_frac 5, sha256_sqrt_frac 7,
    sha256_sqrt_frac 11, sha256_sqrt_frac 13, sha256_sqrt_frac 17, sha256_sqrt_frac 19⟩

/-- Modelled from the spec: one round of the SHA-256 compression function with
round constant `k` and schedule word `w`. -/
def sha256_round (k w : Nat) (s : sha256_state) : sha256_state :=
  let t1 := sha256_add (sha256_add (sha256_add (sha256_add s.h
    (sha256_rotr s.e 6 ^^^ sha256_rotr s.e 11 ^^^ sha256_rotr s.e 25))
    ((s.e &&& s.f) ^^^ ((s.e ^^^ 0xffffffff) &&& s.g))) k) w
  let t2 := sha256_add (sha256_rotr s.a 2 ^^^ sha256_rotr s.a 13 ^^^ sha256_rotr s.a 22)
    ((s.a &&& s.b) ^^^ (s.a &&& s.c) ^^^ (s.b &&& s.c))
  ⟨sha256_add t1 t2, s.a, s.b, s.c, sha256_add s.d t1, s.e, s.f, s.g⟩

/-- Modelled from the spec: the next word of the message schedule from the 16
most recent ones, `W[t] = s1(W[t-2]) + W[t-7] + s0(W[t-15]) + W[t-16]`. -/
def sha256_next_w : List Nat → Nat
  | [w0, w1, _, _, _, _, _, _, _, w9, _, _, _, _, w14, _] =>
    sha256_add (sha256_add (sha256_add
      (sha256_rotr w14 17 ^^^ sha256_rotr w14 19 ^^^ (w14 >>> 10)) w9)
      (sha256_rotr w1 7 ^^^ sha256_rotr w1 18 ^^^ (w1 >>> 3))) w0
  | _ => 0

/-- Modelled from the spec: the rounds of the compression function, one for each
remaining round constant; `win` holds the 16 most recent schedule words, the
current one first. -/
def sha256_rounds : List Nat → List Nat → sha256_state → sha256_state
  | [], _, s => s
  | k :: ks, win, s =>
    sha256_rounds ks (win.tail ++ [sha256_next_w win]) (sha256_round k (win.headD 0) s)

/-- Modelled from the spec: the big-endian 32-bit words of a byte string. -/
def sha256_words : List uint8_t → List Nat
  | b0 :: b1 :: b2 :: b3 :: rest =>
    (((b0.val * 256 + b1.val) * 256 + b2.val) * 256 + b3.val) :: sha256_words rest
  | _ => []

/-- Modelled from the spec: the compression of one 64-byte block into the hash
value. -/
def sha256_compress (s : sha256_state) (block : List uint8_t) : sha256_state :=
  let r := sha256_rounds sha256_K (sha256_words block) s
  ⟨sha256_add s.a r.a, sha256_add s.b r.b, sha256_add s.c r.c, sha256_add s.d r.d,
    sha256_add s.e r.e, sha256_add s.f r.f, sha256_add s.g r.g, sha256_add s.h r.h⟩

/-- Modelled from the spec: the compression of the first `n` blocks of a padded
message. -/
def sha256_blocks : Nat → List uint8_t → sha256_state → sha256_state
  | 0, _, s => s
  | n + 1, m, s => sha256_blocks n (m.drop 64) (sha256_compress s (m.take 64))

/-- Modelled from the spec: the SHA-256 padding, a `0x80` byte, zero bytes up to
56 modulo 64, and the bit length as a 64-bit big-endian integer. -/
def sha256_pad (m : List uint8_t) : List uint8_t :=
  m ++ [0x80] ++ List.replicate ((64 - (m.length + 9) % 64) % 64) 0 ++
    [Fin.ofNat (8 * m.length / 2 ^ 56), Fin.ofNat (8 * m.length / 2 ^ 48),
     Fin.ofNat (8 * m.length / 2 ^ 40), Fin.ofNat (8 * m.length / 2 ^ 32),
     Fin.ofNat (8 * m.length / 2 ^ 24), Fin.ofNat (8 * m.length / 2 ^ 16),
     Fin.ofNat (8 * m.length / 2 ^ 8), Fin.ofNat (8 * m.length)]

/-- Modelled from the spec: the four bytes of a 32-bit word, big-endian. -/
def sha256_word_bytes (w : Nat) : List uint8_t :=
  [Fin.ofNat (w / 2 ^ 24), Fin.ofNat (w / 2 ^ 16), Fin.ofNat (w / 2 ^ 8), Fin.ofNat w]

/-- Modelled from the spec: SHA-256 (FIPS 180-4) of a byte string, 32 bytes. -/
def sha256 (m : List uint8_t) : List uint8_t :=
  let r := sha256_blocks ((sha256_pad m).length / 64) (sha256_pad m) sha256_H0
  sha256_word_bytes r.a ++ sha256_word_bytes r.b ++ sha256_word_bytes r.c ++
    sha256_word_bytes r.d ++ sha256_word_bytes r.e ++ sha256_word_bytes r.f ++
    sha256_word_bytes r.g ++ sha256_word_bytes r.h

/-- Modelled from the spec: HMAC (RFC 2104) over SHA-256, the digest that the
library call `HMAC(EVP_sha256(), key, key_len, data, data_len, md, &md_len)`
writes to `md`; the specification assumes this primitive available. -/
def hmac_sha256_digest (key data : List uint8_t) : List uint8_t :=
  let k0 := if 64 < key.length then sha256 key else key
  let k := k0 ++ List.replicate (64 - k0.length) 0
  sha256 (k.map (fun b => b ^^^ 0x5c) ++ sha256 (k.map (fun b => b ^^^ 0x36) ++ data))

/-- Modelled from the spec: the library call `HMAC` with `EVP_sha256()`. -/
def hmac_sha256 : hmac_api :=
  ⟨hmac_sha256_digest, fun _ _ => by simp [hmac_sha256_digest, sha256, sha256_word_bytes]⟩

/-! ## quic.h: `quic_initial_packet_crypto` -/

/-- The bytes `mem[off], ..., mem[off + len - 1]` behind a pointer and a length. -/
def read_bytes (mem : List uint8_t) (off len : Nat) : List uint8_t :=
  (List.range len).map (fun i => mem.getD (off + i) 0)

/-- The bytes of the buffer that a view covers (none for the null state). -/
def datum.bytes (mem : List uint8_t) : datum → List uint8_t
  | none => []
  | some (a, b) => read_bytes mem a (b - a)

/-- The OpenSSL constant `EVP_MAX_MD_SIZE`. -/
def EVP_MAX_MD_SIZE : Nat := 64

/-- The static member `client_in_label`, without the string terminator:
`tls13 client in` (the callers pass `sizeof(label) - 1` as its length). -/
def client_in_label : List uint8_t :=
  [0x74, 0x6c, 0x73, 0x31, 0x33, 0x20, 0x63, 0x6c, 0x69, 0x65, 0x6e, 0x74, 0x20, 0x69, 0x6e]

/-- The static member `quic_key_label`, without the string terminator:
`tls13 quic key`. -/
def quic_key_label : List uint8_t :=
  [0x74, 0x6c, 0x73, 0x31, 0x33, 0x20, 0x71, 0x75, 0x69, 0x63, 0x20, 0x6b, 0x65, 0x79]

/-- The static member `quic_iv_label`, without the string terminator:
`tls13 quic iv`. -/
def quic_iv_label : List uint8_t :=
  [0x74, 0x6c, 0x73, 0x31, 0x33, 0x20, 0x71, 0x75, 0x69, 0x63, 0x20, 0x69, 0x76]

/-- The static member `quic_hp_label`, without the string terminator:
`tls13 quic hp`. -/
def quic_hp_label : List uint8_t :=
  [0x74, 0x6c, 0x73, 0x31, 0x33, 0x20, 0x71, 0x75, 0x69, 0x63, 0x20, 0x68, 0x70]

/-- The struct `quic_initial_packet_crypto`: its data members (`salt_length` is
the constant 20). -/
structure quic_initial_packet_crypto where
  valid : Bool
  quic_key : List uint8_t
  quic_key_len : Nat
  quic_iv : List uint8_t
  quic_iv_len : Nat
  quic_hp : List uint8_t
  quic_hp_len : Nat
  pn_length : Nat
  plaintext : List uint8_t
  plaintext_len : Int
deriving DecidableEq

/-- The members after the initialisers: `valid{false}`, zeroed arrays of
`EVP_MAX_MD_SIZE` bytes with length 0, `pn_length = 0`, a zeroed `plaintext` of
1024 bytes and `plaintext_len = 0`. -/
def quic_initial_packet_crypto.init : quic_initial_packet_crypto :=
  ⟨false, List.replicate EVP_MAX_MD_SIZE 0, 0, List.replicate EVP_MAX_MD_SIZE 0, 0,
    List.replicate EVP_MAX_MD_SIZE 0, 0, 0, List.replicate 1024 0, 0⟩

/-- The derived values: an array and its used length for each of `quic_key`,
`quic_iv` and `quic_hp`. -/
structure key_material where
  quic_key : List uint8_t × Nat
  quic_iv : List uint8_t × Nat
  quic_hp : List uint8_t × Nat
deriving DecidableEq

/-- The key derivation of the constructor (the `HMAC` call and the four
`kdf_tls13` calls): `initial_salt` is the salt the pointer refers to, of which
`salt_length = 20` bytes are the HMAC key, and `dcid` the `dcid_len` bytes of the
connection ID.  The output arrays are zeroed and their lengths are 0 on entry. -/
def key_schedule (H : hmac_api) (initial_salt dcid : List uint8_t) :
    Except fault key_material :=
  match kdf_tls13 H (H.HMAC (initial_salt.take 20) dcid) client_in_label 32
      (List.replicate EVP_MAX_MD_SIZE 0) 0 with
  | .error f => .error f
  | .ok c_initial_secret =>
    match kdf_tls13 H (c_initial_secret.1.take c_initial_secret.2) quic_key_label 16
        (List.replicate EVP_MAX_MD_SIZE 0) 0,
      kdf_tls13 H (c_initial_secret.1.take c_initial_secret.2) quic_iv_label 12
        (List.replicate EVP_MAX_MD_SIZE 0) 0,
      kdf_tls13 H (c_initial_secret.1.take c_initial_secret.2) quic_hp_label 16
        (List.replicate EVP_MAX_MD_SIZE 0) 0 with
    | .ok k, .ok iv, .ok hp => .ok ⟨k, iv, hp⟩
    | .error f, _, _ => .error f
    | .ok _, .error f, _ => .error f
    | .ok _, .ok _, .error f => .error f

/-- The array `buf` after `AES_set_encrypt_key(quic_hp, 128, &enc_key)` and
`AES_encrypt(quic_pkt.data.data+4, buf, &enc_key)`: `buf[32] = {0}` with the 16
bytes of the cipher block written at its start.  `AES_encrypt key block` is the
library primitive, taken as a parameter; the key is the first 16 bytes of
`quic_hp` and the block the 16 bytes at offset 4 of the payload, which starts at
offset `data` of `mem`. -/
def header_protection_mask (AES_encrypt : List uint8_t → List uint8_t → List uint8_t)
    (quic_hp mem : List uint8_t) (data : Nat) : List uint8_t :=
  (((AES_encrypt (quic_hp.take 16) (read_bytes mem (data + 4) 16)).take 16) ++
    List.replicate 32 0).take 32

/-- The two assignments to `pn_length` in the constructor:
`pn_length = connection_info ^ (buf[0] & 0x0f); pn_length = (pn_length & 0x03) + 1`. -/
def pn_length_of (connection_info : uint8_t) (buf : List uint8_t) : Nat :=
  ((connection_info.val ^^^ ((buf.getD 0 0).val &&& 0x0f)) &&& 0x03) + 1

/-- The body of the last loop of the constructor, run `n` times from index `i`:
`quic_iv[i] ^= (buf[(i - base) + 1] ^ data[i - base])`, where `base` is
`quic_iv_len - pn_length` and the payload starts at offset `data` of `mem`. -/
def unmask_iv_loop (base : Nat) (buf mem : List uint8_t) (data : Nat) :
    Nat → Nat → List uint8_t → List uint8_t
  | 0, _, quic_iv => quic_iv
  | n + 1, i, quic_iv =>
    unmask_iv_loop base buf mem data n (i + 1)
      (quic_iv.set i
        (quic_iv.getD i 0 ^^^ (buf.getD (i - base + 1) 0 ^^^ mem.getD (data + (i - base)) 0)))

/-- The last loop of the constructor,
`for (uint8_t i = quic_iv_len-pn_length; i < quic_iv_len; i++)`.  At this point of
the constructor `pn_length` is at most 4 and `quic_iv_len` is 12, so none of the
unsigned subtractions wraps and the loop runs `pn_length` times. -/
def unmask_iv (quic_iv : List uint8_t) (quic_iv_len pn_length : Nat) (buf mem : List uint8_t)
    (data : Nat) : List uint8_t :=
  unmask_iv_loop (quic_iv_len - pn_length) buf mem data
    (quic_iv_len - (quic_iv_len - pn_length)) (quic_iv_len - pn_length) quic_iv

/-- The constructor `quic_initial_packet_crypto(quic_pkt)`.  The version is
`ntohl` of the word at `quic_pkt.version.data`, that is the big-endian value of
its four bytes on either host; a dereference of a null view is a fault. -/
def quic_initial_packet_crypto.new (H : hmac_api)
    (AES_encrypt : List uint8_t → List uint8_t → List uint8_t) (mem : List uint8_t)
    (quic_pkt : quic_initial_packet) : Except fault quic_initial_packet_crypto :=
  if quic_pkt.valid = false then .ok quic_initial_packet_crypto.init
  else
    match quic_pkt.version with
    | none => .error .out_of_bounds
    | some (v, _) =>
      match get_initial_salt (load_u32 true (mem.getD v 0) (mem.getD (v + 1) 0)
          (mem.getD (v + 2) 0) (mem.getD (v + 3) 0)) with
      | none => .ok quic_initial_packet_crypto.init
      | some initial_salt =>
        match key_schedule H initial_salt (datum.bytes mem quic_pkt.dcid) with
        | .error f => .error f
        | .ok ks =>
          match quic_pkt.data with
          | none => .error .out_of_bounds
          | some (data, _) =>
            .ok ⟨true, ks.quic_key.1, ks.quic_key.2,
              unmask_iv ks.quic_iv.1 ks.quic_iv.2
                (pn_length_of quic_pkt.connection_info
                  (header_protection_mask AES_encrypt ks.quic_hp.1 mem data))
                (header_protection_mask AES_encrypt ks.quic_hp.1 mem data) mem data,
              ks.quic_iv.2, ks.quic_hp.1, ks.quic_hp.2,
              pn_length_of quic_pkt.connection_info
                (header_protection_mask AES_encrypt ks.quic_hp.1 mem data),
              List.replicate 1024 0, 0⟩

/-! ## quic.h: `gcm_decrypt`, `decrypt` and `quic_init` -/

/-- The OpenSSL calls of `gcm_decrypt`, taken as parameters.
`ctx_new`: `EVP_CIPHER_CTX_new()` returned a context;
`init_cipher`: the result of `EVP_DecryptInit_ex(ctx, EVP_aes_128_gcm(), ...)`;
`init_key_iv key iv`: the result of `EVP_DecryptInit_ex(ctx, NULL, NULL, key, iv)`;
`update key iv ciphertext`: `EVP_DecryptUpdate`, `none` when it fails, otherwise
the bytes it writes to `plaintext` (their number is stored in `len`);
`final key iv ciphertext len`: `EVP_DecryptFinal_ex`, its result and the value
of `len` after the call (the call writes no plaintext byte in GCM mode);
`update_len`: in GCM mode the update step writes as many bytes as it reads. -/
structure evp_api where
  ctx_new : Bool
  init_cipher : Bool
  init_key_iv : List uint8_t → List uint8_t → Bool
  update : List uint8_t → List uint8_t → List uint8_t → Option (List uint8_t)
  final : List uint8_t → List uint8_t → List uint8_t → Nat → Bool × Nat
  update_len : ∀ key iv ciphertext p, update key iv ciphertext = some p →
    p.length = ciphertext.length

/-- The member `gcm_decrypt(ciphertext, ciphertext_len, key, iv, plaintext)`:
`ciphertext` is the `ciphertext_len` bytes behind the pointer, `plaintext` the
output array on entry; the result is the returned `int` and the output array
on return. -/
def gcm_decrypt (E : evp_api) (ciphertext key iv plaintext : List uint8_t) :
    Except fault (Int × List uint8_t) :=
  if E.ctx_new = false then .ok (-1, plaintext)
  else if E.init_cipher = false then .ok (-1, plaintext)
  else if E.init_key_iv key iv = false then .ok (-1, plaintext)
  else
    match E.update key iv ciphertext with
    | none => .ok (-1, plaintext)
    | some p =>
      if plaintext.length < p.length then .error .out_of_bounds
      else
        .ok ((p.length : Int) + ((E.final key iv ciphertext p.length).2 : Int),
          p ++ plaintext.drop p.length)

/-- The local `cipher_len` of `decrypt`:
`(length-pn_length < 1024) ? length-pn_length : 1024` in `unsigned int`
arithmetic, converted to `uint16_t`. -/
def quic_initial_packet_crypto.cipher_len (c : quic_initial_packet_crypto) (length : Nat) :
    Nat :=
  (if (length + 2 ^ 32 - c.pn_length) % 2 ^ 32 < 1024 then
    (length + 2 ^ 32 - c.pn_length) % 2 ^ 32 else 1024) % 2 ^ 16

/-- The arguments that `decrypt(data, length)` hands to `gcm_decrypt`: the
offset of the ciphertext in `mem` (`data+pn_length`), `cipher_len`, the key and
the iv. -/
def quic_initial_packet_crypto.gcm_arguments (c : quic_initial_packet_crypto)
    (data length : Nat) : Nat × Nat × List uint8_t × List uint8_t :=
  (data + c.pn_length, c.cipher_len length, c.quic_key, c.quic_iv)

/-- The conversion of an `int` to `int16_t`. -/
def int16_of_int (x : Int) : Int := (x + 2 ^ 15) % 2 ^ 16 - 2 ^ 15

/-- The member `decrypt(data, length)`; `data` is the offset in `mem` that the
pointer refers to. -/
def quic_initial_packet_crypto.decrypt (E : evp_api) (mem : List uint8_t)
    (c : quic_initial_packet_crypto) (data length : Nat) :
    Except fault quic_initial_packet_crypto :=
  match gcm_decrypt E
      (read_bytes mem (c.gcm_arguments data length).1 (c.gcm_arguments data length).2.1)
      (c.gcm_arguments data length).2.2.1 (c.gcm_arguments data length).2.2.2
      c.plaintext with
  | .error f => .error f
  | .ok r =>
    if int16_of_int r.1 = -1 then
      .ok { c with plaintext := r.2, plaintext_len := int16_of_int r.1, valid := false }
    else if r.2.getD 4 0 ≠ 0x01 ∨ r.2.getD 8 0 ≠ 0x03 ∨ r.2.getD 9 0 ≠ 0x03 then
      .ok { c with plaintext := r.2, plaintext_len := int16_of_int r.1, valid := false }
    else
      .ok { c with plaintext := r.2, plaintext_len := int16_of_int r.1 }

/-- The member `get_plaintext()`: the view `{plaintext+8, plaintext+plaintext_len}`
as a pair of offsets into the array `plaintext`. -/
def quic_initial_packet_crypto.get_plaintext (c : quic_initial_packet_crypto) : Int × Int :=
  (8, c.plaintext_len)

/-- The class `quic_init` after its constructor.  `decrypt_call` records the
arguments of the call of `decrypt`, and `hello` the view that `hello.parse`
received; each is `none` when the call was not made (`hello` is then the empty
`hello{}`). -/
structure quic_init where
  initial_packet : quic_initial_packet
  quic_pkt_crypto : quic_initial_packet_crypto
  decrypt_call : Option (Nat × Nat)
  hello : Option (Int × Int)
deriving DecidableEq

/-- The constructor `quic_init(d)`. -/
def quic_init.new (H : hmac_api) (AES_encrypt : List uint8_t → List uint8_t → List uint8_t)
    (E : evp_api) (mem : List uint8_t) (d : datum) : Except fault quic_init :=
  match quic_initial_packet_crypto.new H AES_encrypt mem (quic_initial_packet.parse mem d).1 with
  | .error f => .error f
  | .ok c =>
    if c.valid = true then
      match (quic_initial_packet.parse mem d).1.data with
      | none => .error .out_of_bounds
      | some (p, q) =>
        match c.decrypt E mem p ((q - p) % 2 ^ 32) with
        | .error f => .error f
        | .ok c2 =>
          .ok ⟨(quic_initial_packet.parse mem d).1, c2, some (p, (q - p) % 2 ^ 32),
            some c2.get_plaintext⟩
    else .ok ⟨(quic_initial_packet.parse mem d).1, c, none, none⟩

/-! ### The key schedule as the specification words it -/

/-- The key material that the specification derives from a salt and a
destination connection ID: `initial_secret = HMAC-SHA256(key = salt, data = dcid)`,
`client_initial_secret = HKDF-Expand-Label(initial_secret, "tls13 client in", 32)`,
and `key`, `iv`, `hp` as HKDF-Expand-Label of `client_initial_secret` with the
labels `tls13 quic key`, `tls13 quic iv`, `tls13 quic hp` and the lengths 16, 12,
16; each value is held at the start of a zeroed array of `EVP_MAX_MD_SIZE`
bytes, together with its length. -/
def hkdf_key_material (H : hmac_api) (salt dcid : List uint8_t) : key_material :=
  let client_initial_secret :=
    hkdf_expand_label H (H.HMAC salt dcid) client_in_label 32
  ⟨(hkdf_expand_label H client_initial_secret quic_key_label 16 ++ List.replicate 48 0, 16),
   (hkdf_expand_label H client_initial_secret quic_iv_label 12 ++ List.replicate 52 0, 12),
   (hkdf_expand_label H client_initial_secret quic_hp_label 16 ++ List.replicate 48 0, 16)⟩

/-- A stand-in for the AES block encryption in the examples: the block with every
byte XORed with the first byte of the key. -/
def example_block_cipher (key block : List uint8_t) : List uint8_t :=
  block.map (fun b => b ^^^ key.getD 0 0)

/-- An Initial packet with a version that has no salt (`00000002`), otherwise as
`example_initial_32`. -/
def example_initial_unsupported : List uint8_t :=
  [0xc3, 0x00, 0x00, 0x00, 0x02, 0x08, 0x83, 0x94, 0xc8, 0xf0, 0x3e, 0x51, 0x57, 0x08,
    0x00, 0x00, 0x40, 0x20] ++ List.replicate 32 0xaa

/-- A stand-in for the OpenSSL decryption calls in the examples: every call
succeeds, the update step copies its input and the final step reports no
further byte. -/
def example_evp : evp_api :=
  ⟨true, true, fun _ _ => true, fun _ _ c => some c, fun _ _ _ _ => (true, 0),
    fun _ _ _ _ h => by cases h; rfl⟩

/-- A decryptor state with `pn_length = 2`, otherwise as initialised. -/
def example_crypto : quic_initial_packet_crypto :=
  { quic_initial_packet_crypto.init with pn_length := 2, valid := true }

/-- The destination connection ID `83 94 c8 f0 3e 51 57 08` of the sample client
Initial packet of draft-ietf-quic-tls-29, Appendix A. -/
def example_dcid : List uint8_t := [0x83, 0x94, 0xc8, 0xf0, 0x3e, 0x51, 0x57, 0x08]

/-! ## quic.h: `write_json` and `compute_fingerprint` -/

/-- What a `write_json` member emits to the JSON writer, which is an external
collaborator: `hello` is the call `hello.write_json(record, metadata_output)` of
the external ClientHello object, and `quic` the object `quic` that
`quic_initial_packet::write_json` writes, with its keys `connection_info` (a
bit field) and `version`, `dcid`, `scid`, `token`, `data` (the views in hex). -/
inductive json_event where
  | hello (metadata_output : Bool)
  | quic (connection_info : uint8_t) (version dcid scid token data : datum)
deriving DecidableEq

/-- The member `quic_initial_packet::write_json(o)`. -/
def quic_initial_packet.write_json (pkt : quic_initial_packet) : List json_event :=
  if pkt.valid = false then []
  else [.quic pkt.connection_info pkt.version pkt.dcid pkt.scid pkt.token pkt.data]

/-- The member `quic_init::write_json(record, metadata_output)`.
`hello_is_not_empty` is the result of the external call `hello.is_not_empty()`. -/
def quic_init.write_json (q : quic_init) (hello_is_not_empty : Bool)
    (metadata_output : Bool) : List json_event :=
  (if q.quic_pkt_crypto.valid = true then
    (if hello_is_not_empty = true then [.hello metadata_output] else [])
   else []) ++ q.initial_packet.write_json

/-- A stand-in for the OpenSSL decryption calls in which the update step fails
(the other calls succeed). -/
def example_evp_update_fails : evp_api :=
  ⟨true, true, fun _ _ => true, fun _ _ _ => none, fun _ _ _ _ => (true, 0),
    fun _ _ _ _ h => by cases h⟩

/-- A stand-in for the OpenSSL decryption calls in which every call but the last
succeeds: the update step copies its input, and the final step reports a
failure (result 0) and stores 0 in `len`. -/
def example_evp_final_fails : evp_api :=
  ⟨true, true, fun _ _ => true, fun _ _ c => some c, fun _ _ _ _ => (false, 0),
    fun _ _ _ _ h => by cases h; rfl⟩

/-- A ciphertext of 30 bytes whose bytes 4, 8 and 9 are `01`, `03`, `03`. -/
def example_ciphertext : List uint8_t :=
  [0x00, 0x00, 0x00, 0x00, 0x01, 0x00, 0x00, 0x00, 0x03, 0x03] ++ List.replicate 20 0x00

/-- The enumerators of `enum tcp_msg_type` that the constructor of
`traffic_selector` uses, with the values the enumeration gives them
(`tcp_msg_type_unknown = 0`, then counting upwards). -/
def tcp_msg_type_unknown : Nat := 0

/-- The enumerator `tcp_msg_type_http_request`. -/
def tcp_msg_type_http_request : Nat := 1

/-- The enumerator `tcp_msg_type_http_response`. -/
def tcp_msg_type_http_response : Nat := 2

/-- The enumerator `tcp_msg_type_tls_client_hello`. -/
def tcp_msg_type_tls_client_hello : Nat := 3

/-- The enumerator `tcp_msg_type_tls_server_hello`. -/
def tcp_msg_type_tls_server_hello : Nat := 4

/-- The enumerator `tcp_msg_type_tls_certificate`. -/
def tcp_msg_type_tls_certificate : Nat := 5

/-- The enumerator `tcp_msg_type_ssh`. -/
def tcp_msg_type_ssh : Nat := 6

/-- The enumerator `tcp_msg_type_ssh_kex`. -/
def tcp_msg_type_ssh_kex : Nat := 7

/-- The enumerator `tcp_msg_type_smtp_client`. -/
def tcp_msg_type_smtp_client : Nat := 8

/-- The enumerator `tcp_msg_type_smtp_server`. -/
def tcp_msg_type_smtp_server : Nat := 9

/-- The enumerator `udp_msg_type_unknown` of `enum udp_msg_type`. -/
def udp_msg_type_unknown : Nat := 0

/-- The enumerator `udp_msg_type_dns` of `enum udp_msg_type`. -/
def udp_msg_type_dns : Nat := 1

/-- The member `compile()`: a placeholder with an empty body. -/
def protocol_identifier.compile (I : protocol_identifier) : protocol_identifier := I

/-- The keys of the map `protocols` in the constructor of `traffic_selector`:
`all`, `none`, `dhcp`, `dns`, `dtls`, `http`, `ssh`, `tcp`, `tcp.message`, `tls`,
`wireguard`, `quic`, `smtp`. -/
inductive protocol_name where
  | all
  | none
  | dhcp
  | dns
  | dtls
  | http
  | ssh
  | tcp
  | tcp_message
  | tls
  | wireguard
  | quic
  | smtp
deriving DecidableEq

/-- The `std::map<std::string, bool>` of the constructor, as far as the
constructor reads it: the boolean at each of the thirteen keys. -/
abbrev protocol_map := protocol_name → Bool

/-- The static matchers that the constructor registers.  They are members of
classes declared in `tls.h`, `http.h`, `ssh.h`, `smtp.h` and `dns.h`, which are
not among the sources, so their values are a parameter here. -/
structure protocol_matchers where
  tls_client_hello : mask_and_value
  tls_server_hello : mask_and_value
  http_request_get : mask_and_value
  http_request_post : mask_and_value
  http_request_connect : mask_and_value
  http_request_put : mask_and_value
  http_request_head : mask_and_value
  http_response : mask_and_value
  ssh_init_packet : mask_and_value
  ssh_kex_init : mask_and_value
  smtp_client : mask_and_value
  smtp_server : mask_and_value
  dns_packet : mask_and_value

/-- The exception that the constructor throws, `std::runtime_error`. -/
inductive selector_error where
  | runtime_error
deriving DecidableEq

/-- The string literal `"all"` (without its terminating zero byte). -/
def all_string : List uint8_t := [0x61, 0x6c, 0x6c]

/-- The class `traffic_selector`: the two identifiers `tcp` and `udp`. -/
structure traffic_selector where
  tcp : protocol_identifier
  udp : protocol_identifier

/-- The constructor `traffic_selector(config_string)`.  `config_string` is `none`
for `nullptr`.  The function `set_config` is defined in `pkt_proc.cc`, which is
not among the sources; it is a parameter that receives the map and the string
and returns its `bool` together with the map as it leaves it. -/
def traffic_selector.new (M : protocol_matchers)
    (set_config : protocol_map → List uint8_t → Bool × protocol_map)
    (config_string : Option (List uint8_t)) : Except selector_error traffic_selector :=
  let all := all_string
  let config_string :=
    match config_string with
    | none => all
    | some s => s
  let r := set_config (fun _ => false) config_string
  if r.1 = false then .error .runtime_error
  else
    let protocols : protocol_map := if r.2 .none = true then fun _ => false else r.2
    let tcp := protocol_identifier.new
    let udp := protocol_identifier.new
    let tcp :=
      if protocols .tls = true ∨ protocols .all = true then
        (tcp.add_protocol M.tls_client_hello tcp_msg_type_tls_client_hello).add_protocol
          M.tls_server_hello tcp_msg_type_tls_server_hello
      else tcp
    let tcp :=
      if protocols .http = true ∨ protocols .all = true then
        (((((tcp.add_protocol M.http_request_get tcp_msg_type_http_request).add_protocol
          M.http_request_post tcp_msg_type_http_request).add_protocol
          M.http_request_connect tcp_msg_type_http_request).add_protocol
          M.http_request_put tcp_msg_type_http_request).add_protocol
          M.http_request_head tcp_msg_type_http_request).add_protocol
          M.http_response tcp_msg_type_http_response
      else tcp
    let tcp :=
      if protocols .ssh = true ∨ protocols .all = true then
        (tcp.add_protocol M.ssh_init_packet tcp_msg_type_ssh).add_protocol
          M.ssh_kex_init tcp_msg_type_ssh_kex
      else tcp
    let tcp :=
      if protocols .smtp = true ∨ protocols .all = true then
        (tcp.add_protocol M.smtp_client tcp_msg_type_smtp_client).add_protocol
          M.smtp_server tcp_msg_type_smtp_server
      else tcp
    let udp :=
      if protocols .dns = true then udp.add_protocol M.dns_packet udp_msg_type_dns
      else udp
    .ok ⟨tcp.compile, udp⟩

/-- The member `get_tcp_msg_type(data, len)`. -/
def traffic_selector.get_tcp_msg_type (big_endian : Bool) (sel : traffic_selector)
    (data : List uint8_t) (len : Nat) : Option Nat :=
  sel.tcp.get_msg_type big_endian data len

/-- The `bool` that the call `set_config(protocols, config_string)` of the
constructor returns: the map is all-false before the call, and the string is
`"all"` when the argument is `nullptr`. -/
def set_config_result (set_config : protocol_map → List uint8_t → Bool × protocol_map)
    (config_string : Option (List uint8_t)) : Bool :=
  (set_config (fun _ => false) (config_string.getD all_string)).1

/-- The map `protocols` as that call of `set_config` leaves it. -/
def set_config_protocols (set_config : protocol_map → List uint8_t → Bool × protocol_map)
    (config_string : Option (List uint8_t)) : protocol_map :=
  (set_config (fun _ => false) (config_string.getD all_string)).2

/-- The flags with which the constructor decides what to register: the map that
`set_config` leaves, with every flag cleared when `none` is set. -/
def effective_protocols (set_config : protocol_map → List uint8_t → Bool × protocol_map)
    (config_string : Option (List uint8_t)) : protocol_map :=
  if set_config_protocols set_config config_string .none = true then fun _ => false
  else set_config_protocols set_config config_string

/-- A matcher for the examples: the first byte of the buffer equals `b`. -/
def example_matcher (b : uint8_t) : mask_and_value :=
  ⟨![0xff, 0x00, 0x00, 0x00, 0x00, 0x00, 0x00, 0x00],
    ![b, 0x00, 0x00, 0x00, 0x00, 0x00, 0x00, 0x00]⟩

/-- Thirteen matchers for the examples, told apart by the first byte. -/
def example_matchers : protocol_matchers :=
  ⟨example_matcher 1, example_matcher 2, example_matcher 3, example_matcher 4,
    example_matcher 5, example_matcher 6, example_matcher 7, example_matcher 8,
    example_matcher 9, example_matcher 10, example_matcher 11, example_matcher 12,
    example_matcher 13⟩

/-- The string `none`. -/
def none_string : List uint8_t := [0x6e, 0x6f, 0x6e, 0x65]

/-- The string `dns`. -/
def dns_string : List uint8_t := [0x64, 0x6e, 0x73]

/-- The string `dns,quic`. -/
def dns_quic_string : List uint8_t := [0x64, 0x6e, 0x73, 0x2c, 0x71, 0x75, 0x69, 0x63]

/-- A stand-in for `set_config` in the examples: it accepts the four strings
`all`, `none`, `dns` and `dns,quic`, sets the flags they name, and rejects every
other string. -/
def example_set_config (config_map : protocol_map) (config_string : List uint8_t) :
    Bool × protocol_map :=
  if config_string = all_string then (true, Function.update config_map .all true)
  else if config_string = none_string then (true, Function.update config_map .none true)
  else if config_string = dns_string then (true, Function.update config_map .dns true)
  else if config_string = dns_quic_string then
    (true, Function.update (Function.update config_map .dns true) .quic true)
  else (false, config_map)

/-! ## quic.h: `uint8_bitfield` -/

/-- The loop of `uint8_bitfield::operator()`,
`for (uint8_t x = 0x80; x > 0; x = x >> 1)`, from the iteration with the given
`x` on: it writes `'1'` when `x & value` is non-zero and `'0'` otherwise.  The
result is the characters written to the stream. -/
def uint8_bitfield.loop (value : uint8_t) (x : Nat) : List Char :=
  if 0 < x then
    (if x &&& value.val ≠ 0 then '1' else '0') :: uint8_bitfield.loop value (x >>> 1)
  else []
termination_by x
decreasing_by
  rw [Nat.shiftRight_eq_div_pow]
  omega

/-- The call `uint8_bitfield{value}(b)`: the characters it writes to `b`. -/
def uint8_bitfield.operator (value : uint8_t) : List Char :=
  uint8_bitfield.loop value 0x80

/-- The number that a string of the characters `0` and `1` denotes in base two,
most significant digit first. -/
def binary_numeral (cs : List Char) : Nat :=
  cs.foldl (fun n c => 2 * n + (if c = '1' then 1 else 0)) 0

/-! ## quic.h: `quic_version_negotiation` -/

/-- Modelled from the spec: `datum::skip(length)` (declared in `datum.h`, which is
not among the sources).  With at least `length` bytes left the cursor advances
by `length`; a skip that would run past the end fails safely and leaves the
cursor in the null state. -/
def datum.skip (d : datum) (length : Nat) : datum :=
  match d with
  | none => none
  | some (s, e) => if length ≤ e - s then some (s + length, e) else none

/-- The struct `quic_version_negotiation`. -/
structure quic_version_negotiation where
  connection_info : uint8_t
  dcid : datum
  scid : datum
  version_list : datum
  valid : Bool
deriving DecidableEq

/-- The constructor `quic_version_negotiation(d)`: the members are initialised to
`connection_info{0}`, null views and `valid{false}`, then `parse(d)` runs.  The
result is the packet and the cursor `d` afterwards. -/
def quic_version_negotiation.parse (mem : List uint8_t) (d : datum) :
    quic_version_negotiation × datum :=
  let r0 := datum.read_uint8 mem d
  if r0.1.val &&& 0x80 ≠ 0x80 then (⟨r0.1, none, none, none, false⟩, r0.2)
  else
    let d1 := datum.skip r0.2 4
    let dcid_length := datum.read_uint8 mem d1
    let dcid := datum.parse dcid_length.2 dcid_length.1.val
    let scid_length := datum.read_uint8 mem dcid.2
    let scid := datum.parse scid_length.2 scid_length.1.val
    let version_list := scid.2
    if version_list.is_not_empty = false ∨ dcid.1.is_not_empty = false then
      (⟨r0.1, dcid.1, scid.1, version_list, false⟩, scid.2)
    else (⟨r0.1, dcid.1, scid.1, version_list, true⟩, scid.2)

/-- What `quic_version_negotiation::write_json` hands to the JSON writer, which is
an external collaborator: the key `connection_info` with the characters of the
bit field, the keys `dcid` and `scid` with a view printed in hex, one
`array.print_hex(version)` per entry of the array `versions`, and
`array.close()`. -/
inductive negotiation_event where
  | connection_info (bitfield : List Char)
  | dcid (d : datum)
  | scid (d : datum)
  | version (d : datum)
  | close
deriving DecidableEq

/-- The body of the `while` loop of `write_json`:
`datum version; version.parse(version, 4); array.print_hex(version);`.
The view `version` starts in the null state and is parsed from itself; `tmp` is
not an operand of any statement of the body.  The result is `tmp` and the
output after the body. -/
def quic_version_negotiation.write_json_body (tmp : datum) (out : List negotiation_event) :
    datum × List negotiation_event :=
  let version : datum := none
  let version := (datum.parse version 4).1
  (tmp, out ++ [.version version])

/-- The loop `while (tmp.is_not_empty()) { ... }` of `write_json`, for at most
`fuel` iterations: `out_of_fuel` when the condition still holds after them. -/
def quic_version_negotiation.write_json_loop :
    Nat → datum → List negotiation_event → Except fault (List negotiation_event)
  | 0, tmp, out => if tmp.is_not_empty = true then .error .out_of_fuel else .ok out
  | fuel + 1, tmp, out =>
    if tmp.is_not_empty = true then
      quic_version_negotiation.write_json_loop fuel
        (quic_version_negotiation.write_json_body tmp out).1
        (quic_version_negotiation.write_json_body tmp out).2
    else .ok out

/-- The member `quic_version_negotiation::write_json(o)`, its loop run for at most
`fuel` iterations. -/
def quic_version_negotiation.write_json (fuel : Nat) (pkt : quic_version_negotiation) :
    Except fault (List negotiation_event) :=
  if pkt.valid = false then .ok []
  else
    match quic_version_negotiation.write_json_loop fuel pkt.version_list
        [.connection_info (uint8_bitfield.operator pkt.connection_info), .dcid pkt.dcid,
          .scid pkt.scid] with
    | .error f => .error f
    | .ok out => .ok (out ++ [.close])

/-- A Version Negotiation packet: first byte `80`, version `00000000`, a one-byte
destination connection ID `aa`, an empty source connection ID and the two
supported versions `ff00001d` and `00000001`. -/
def example_version_negotiation : List uint8_t :=
  [0x80, 0x00, 0x00, 0x00, 0x00, 0x01, 0xaa, 0x00, 0xff, 0x00, 0x00, 0x1d,
    0x00, 0x00, 0x00, 0x01]

/-! ## quic.h: the HMAC calls of `kdf_tls13` and the accesses of header protection -/

/-- The number of `HMAC` calls that the `while` loop of `kdf_tls13` makes; the
recursion is that of `kdf_tls13_loop`, and a call is counted when the loop
reaches it. -/
def kdf_tls13_loop_hmac_calls (H : hmac_api) (secret new_label : List uint8_t)
    (label_len length : Nat) : Nat → Nat → List uint8_t → List uint8_t → Nat → Nat
  | 0, _, _, _, _ => 0
  | fuel + 1, ind, block, out_, out_len =>
    if out_len < length then
      if 512 < block.length + label_len + 5 then 0
      else
        match read_range new_label block.length (label_len + 4) with
        | none => 0
        | some part =>
          match kdf_copy length
              (H.HMAC secret (block ++ part ++ [Fin.ofNat ((ind + 1) % 256)])) out_ out_len with
          | .error _ => 1
          | .ok (_, _, true) => 1
          | .ok (out2, out_len2, false) =>
            1 + kdf_tls13_loop_hmac_calls H secret new_label label_len length fuel
              ((ind + 1) % 256)
              (H.HMAC secret (block ++ part ++ [Fin.ofNat ((ind + 1) % 256)])) out2 out_len2
    else 0

/-- The number of `HMAC` calls of one call of `kdf_tls13`. -/
def kdf_tls13_hmac_calls (H : hmac_api) (secret label : List uint8_t) (length : uint8_t)
    (out_ : List uint8_t) (out_len : Nat) : Nat :=
  kdf_tls13_loop_hmac_calls H secret (kdf_new_label label length) label.length length.val
    (length.val + 1) 0 [] out_ out_len

/-- The arrays that the header-protection step of the constructor
`quic_initial_packet_crypto` indexes: the payload (`quic_pkt.data.data`), the
array `buf` and the array `quic_iv`. -/
inductive hp_array where
  | payload
  | buf
  | quic_iv
deriving DecidableEq

/-- The elements that the last loop of the constructor touches, in the recursion
of `unmask_iv_loop`: in the iteration with index `i` it writes `quic_iv[i]` and
reads `buf[(i - base) + 1]` and the payload byte at offset `i - base`. -/
def unmask_iv_loop_accesses (base : Nat) : Nat → Nat → List (hp_array × Nat)
  | 0, _ => []
  | n + 1, i =>
    [(.quic_iv, i), (.buf, i - base + 1), (.payload, i - base)] ++
      unmask_iv_loop_accesses base n (i + 1)

/-- The elements that the header-protection step touches: `AES_encrypt` reads the
16 payload bytes from offset 4 and writes `buf[0..15]`, the computation of
`pn_length` reads `buf[0]`, and the last loop runs as in `unmask_iv`. -/
def header_protection_accesses (quic_iv_len pn_length : Nat) : List (hp_array × Nat) :=
  (List.range 16).map (fun k => (hp_array.payload, 4 + k)) ++
    (List.range 16).map (fun k => (hp_array.buf, k)) ++ [(hp_array.buf, 0)] ++
    unmask_iv_loop_accesses (quic_iv_len - pn_length)
      (quic_iv_len - (quic_iv_len - pn_length)) (quic_iv_len - pn_length)

/-- An access is in bounds: the index is below the length of the array. -/
def access_in_bounds (payload_length buf_length quic_iv_length : Nat)
    (a : hp_array × Nat) : Prop :=
  match a.1 with
  | .payload => a.2 < payload_length
  | .buf => a.2 < buf_length
  | .quic_iv => a.2 < quic_iv_length

instance (payload_length buf_length quic_iv_length : Nat) (a : hp_array × Nat) :
    Decidable (access_in_bounds payload_length buf_length quic_iv_length a) := by
  unfold access_in_bounds
  cases a.1 <;> infer_instance

/-! # Proofs -/

/-! ## Bit arithmetic used by the proofs -/

theorem land_mul_add (k a b c d : Nat) (hb : b < 2 ^ k) (hd : d < 2 ^ k) :
    (2 ^ k * a + b) &&& (2 ^ k * c + d) = 2 ^ k * (a &&& c) + (b &&& d) := by
  have hbd : b &&& d < 2 ^ k := Nat.and_lt_two_pow b hd
  apply Nat.eq_of_testBit_eq
  intro j
  rw [Nat.testBit_and, Nat.testBit_mul_pow_two_add a hb, Nat.testBit_mul_pow_two_add c hd,
    Nat.testBit_mul_pow_two_add _ hbd]
  split <;> simp

theorem byte_land_lt (a m : uint8_t) : a.val &&& m.val < 2 ^ 8 :=
  Nat.and_lt_two_pow a.val m.isLt

/-- One word of the comparison: the masked word equals the value word exactly
when the four masked bytes equal the four value bytes. -/
theorem load_u32_land_eq_iff (be : Bool) (a0 a1 a2 a3 m0 m1 m2 m3 v0 v1 v2 v3 : uint8_t) :
    (load_u32 be a0 a1 a2 a3 &&& load_u32 be m0 m1 m2 m3) = load_u32 be v0 v1 v2 v3 ↔
      (a0.val &&& m0.val = v0.val ∧ a1.val &&& m1.val = v1.val) ∧
      (a2.val &&& m2.val = v2.val ∧ a3.val &&& m3.val = v3.val) := by
  have h0 := byte_land_lt a0 m0
  have h1 := byte_land_lt a1 m1
  have h2 := byte_land_lt a2 m2
  have h3 := byte_land_lt a3 m3
  have b0 : a0.val < 2 ^ 8 := a0.isLt
  have b1 : a1.val < 2 ^ 8 := a1.isLt
  have b2 : a2.val < 2 ^ 8 := a2.isLt
  have b3 : a3.val < 2 ^ 8 := a3.isLt
  have c0 : m0.val < 2 ^ 8 := m0.isLt
  have c1 : m1.val < 2 ^ 8 := m1.isLt
  have c2 : m2.val < 2 ^ 8 := m2.isLt
  have c3 : m3.val < 2 ^ 8 := m3.isLt
  have d0 : v0.val < 2 ^ 8 := v0.isLt
  have d1 : v1.val < 2 ^ 8 := v1.isLt
  have d2 : v2.val < 2 ^ 8 := v2.isLt
  have d3 : v3.val < 2 ^ 8 := v3.isLt
  cases be
  · simp only [load_u32, Bool.false_eq_true, if_false]
    rw [land_mul_add 8 _ _ _ _ b0 c0, land_mul_add 8 _ _ _ _ b1 c1,
      land_mul_add 8 _ _ _ _ b2 c2]
    generalize a0.val &&& m0.val = x0 at *
    generalize a1.val &&& m1.val = x1 at *
    generalize a2.val &&& m2.val = x2 at *
    generalize a3.val &&& m3.val = x3 at *
    omega
  · simp only [load_u32, if_true]
    rw [land_mul_add 8 _ _ _ _ b3 c3, land_mul_add 8 _ _ _ _ b2 c2,
      land_mul_add 8 _ _ _ _ b1 c1]
    generalize a0.val &&& m0.val = x0 at *
    generalize a1.val &&& m1.val = x1 at *
    generalize a2.val &&& m2.val = x2 at *
    generalize a3.val &&& m3.val = x3 at *
    omega

theorem u32_compare_eq_one_iff (be : Bool) (d m v : Fin 8 → uint8_t) :
    u32_compare_masked_data_to_value be d m v ≠ 0 ↔ bytewise_match m v d := by
  unfold u32_compare_masked_data_to_value bytewise_match
  simp only [load_u32_land_eq_iff]
  constructor
  · intro h
    split at h
    · rename_i hc
      obtain ⟨⟨⟨e0, e1⟩, e2, e3⟩, ⟨e4, e5⟩, e6, e7⟩ := hc
      intro i
      fin_cases i <;> assumption
    · exact absurd rfl h
  · intro h
    rw [if_pos ⟨⟨⟨h 0, h 1⟩, h 2, h 3⟩, ⟨h 4, h 5⟩, h 6, h 7⟩]
    decide

/-! ## match.h and proto_identify.h -/

theorem first8_of_le (b : List uint8_t) (hb : 8 ≤ b.length) :
    first8 b = some (fun i => b.getD i.val 0) := by
  unfold first8
  rw [if_pos hb]

theorem matches_eq_decide (be : Bool) (mv : mask_and_value) (b : List uint8_t)
    (hb : 8 ≤ b.length) :
    mv.matches be b =
      some (decide (∀ i : Fin 8, (b.getD i.val 0).val &&& (mv.mask i).val = (mv.value i).val)) := by
  unfold mask_and_value.matches
  rw [first8_of_le b hb]
  have h := u32_compare_eq_one_iff be (fun i => b.getD i.val 0) mv.mask mv.value
  unfold bytewise_match at h
  simp only [Option.some.injEq]
  by_cases hc : ∀ i : Fin 8, (b.getD i.val 0).val &&& (mv.mask i).val = (mv.value i).val
  · rw [decide_eq_true hc]
    simpa using h.mpr hc
  · rw [decide_eq_false hc]
    have h2 : ¬ (u32_compare_masked_data_to_value be (fun i => b.getD i.val 0) mv.mask mv.value ≠ 0) :=
      fun hx => hc (h.mp hx)
    simpa using h2

/-- C1: for every mask, value and 8-byte buffer `b`, and for either byte order of
the host, `mask_and_value<8>(mask, value).matches(b)` is true exactly when
`(b[i] & mask[i]) == value[i]` for every byte index `i` in `0..7`. -/
theorem matches_iff_bytewise (big_endian : Bool) (mask value : Fin 8 → uint8_t)
    (b : List uint8_t) (hb : b.length = 8) :
    (mask_and_value.mk mask value).matches big_endian b =
      some (decide (∀ i : Fin 8, (b.getD i.val 0).val &&& (mask i).val = (value i).val)) :=
  matches_eq_decide big_endian ⟨mask, value⟩ b (by omega)

theorem matches_iff_bytewise_witness :
    ([0x16, 0x03, 0x01, 0x00, 0xc8, 0x01, 0x00, 0x00] : List uint8_t).length = 8 ∧
    (mask_and_value.mk ![0xff, 0xff, 0xfc, 0x00, 0x00, 0xff, 0x00, 0x00]
        ![0x16, 0x03, 0x00, 0x00, 0x00, 0x01, 0x00, 0x00]).matches true
        [0x16, 0x03, 0x01, 0x00, 0xc8, 0x01, 0x00, 0x00] =
      some (decide (∀ i : Fin 8,
        (([0x16, 0x03, 0x01, 0x00, 0xc8, 0x01, 0x00, 0x00] : List uint8_t).getD i.val 0).val &&&
          ((![0xff, 0xff, 0xfc, 0x00, 0x00, 0xff, 0x00, 0x00] : Fin 8 → uint8_t) i).val =
          ((![0x16, 0x03, 0x00, 0x00, 0x00, 0x01, 0x00, 0x00] : Fin 8 → uint8_t) i).val)) :=
  ⟨rfl, matches_iff_bytewise true _ _ _ rfl⟩

theorem build_aux (calls : List (mask_and_value × Nat)) (I : protocol_identifier) :
    (calls.foldl (fun I c => I.add_protocol c.1 c.2) I).short_matchers =
      I.short_matchers ++ calls.map (fun c => ⟨c.1, c.2⟩) := by
  induction calls generalizing I with
  | nil => simp
  | cons c cs ih =>
    rw [List.foldl_cons, ih]
    simp [protocol_identifier.add_protocol]

theorem build_short_matchers (calls : List (mask_and_value × Nat)) :
    (protocol_identifier.build calls).short_matchers = calls.map (fun c => ⟨c.1, c.2⟩) := by
  unfold protocol_identifier.build
  rw [build_aux]
  simp [protocol_identifier.new]

theorem loop_first_match (be : Bool) (data : List uint8_t) (calls : List (mask_and_value × Nat)) :
    ∀ (i : Nat) (hi : i < calls.length), (calls[i]).1.matches be data = some true →
      (∀ (j : Nat) (hj : j < i), (calls[j]).1.matches be data = some false) →
      (protocol_identifier.loop be data (calls.map (fun c => ⟨c.1, c.2⟩))).1 =
        some (calls[i]).2 := by
  induction calls with
  | nil => intro i hi; simp at hi
  | cons c cs ih =>
    intro i hi hm hprev
    cases i with
    | zero =>
      simp only [List.getElem_cons_zero] at hm
      simp [protocol_identifier.loop, hm]
    | succ k =>
      have h0 : c.1.matches be data = some false := hprev 0 (by omega)
      have hk : k < cs.length := by simpa using hi
      have hrec := ih k hk (by simpa using hm)
        (fun j hj => by simpa using hprev (j + 1) (by omega))
      simp [protocol_identifier.loop, h0, hrec]

theorem loop_no_match (be : Bool) (data : List uint8_t) (calls : List (mask_and_value × Nat))
    (h : ∀ c ∈ calls, c.1.matches be data = some false) :
    (protocol_identifier.loop be data (calls.map (fun c => ⟨c.1, c.2⟩))).1 = some 0 := by
  induction calls with
  | nil => simp [protocol_identifier.loop]
  | cons c cs ih =>
    have h0 : c.1.matches be data = some false := h c (by simp)
    have hrec := ih (fun x hx => h x (by simp [hx]))
    simp [protocol_identifier.loop, h0, hrec]

/-- C2: for every identifier built by a sequence of `add_protocol` calls and every
buffer of `len >= 8` bytes, `get_msg_type` returns the type of the earliest-added
entry whose matcher matches the first 8 bytes of the buffer, and 0 (unknown)
when no entry matches. -/
theorem get_msg_type_first_match (big_endian : Bool) (calls : List (mask_and_value × Nat))
    (data : List uint8_t) (len : Nat) (hlen : 8 ≤ len) (hbuf : len ≤ data.length) :
    (∀ (i : Nat) (hi : i < calls.length),
        (∀ k : Fin 8, (data.getD k.val 0).val &&& ((calls[i]).1.mask k).val =
          ((calls[i]).1.value k).val) →
        (∀ (j : Nat) (hj : j < i),
          ¬ ∀ k : Fin 8, (data.getD k.val 0).val &&& ((calls[j]).1.mask k).val =
            ((calls[j]).1.value k).val) →
        (protocol_identifier.build calls).get_msg_type big_endian data len =
          some (calls[i]).2) ∧
    ((∀ c ∈ calls,
        ¬ ∀ k : Fin 8, (data.getD k.val 0).val &&& (c.1.mask k).val = (c.1.value k).val) →
      (protocol_identifier.build calls).get_msg_type big_endian data len = some 0) := by
  have h8 : 8 ≤ data.length := by omega
  have hn : ¬ len < 8 := by omega
  constructor
  · intro i hi hm hprev
    unfold protocol_identifier.get_msg_type protocol_identifier.get_msg_type_traced
    rw [if_neg hn, build_short_matchers]
    apply loop_first_match big_endian data calls i hi
    · rw [matches_eq_decide big_endian _ data h8, decide_eq_true hm]
    · intro j hj
      rw [matches_eq_decide big_endian _ data h8, decide_eq_false (hprev j hj)]
  · intro hnone
    unfold protocol_identifier.get_msg_type protocol_identifier.get_msg_type_traced
    rw [if_neg hn, build_short_matchers]
    apply loop_no_match big_endian data calls
    intro c hc
    rw [matches_eq_decide big_endian _ data h8, decide_eq_false (hnone c hc)]

/-- C3: for every identifier, whatever matchers are registered, and every buffer
with `len < 8`, `get_msg_type` returns 0 (unknown) and evaluates no matcher. -/
theorem get_msg_type_short (big_endian : Bool) (I : protocol_identifier)
    (data : List uint8_t) (len : Nat) (hlen : len < 8) :
    I.get_msg_type big_endian data len = some 0 ∧
      (I.get_msg_type_traced big_endian data len).2 = 0 := by
  unfold protocol_identifier.get_msg_type protocol_identifier.get_msg_type_traced
  rw [if_pos hlen]
  exact ⟨rfl, rfl⟩

theorem get_msg_type_first_match_witness :
    (8 ≤ 8 ∧ 8 ≤ example_get_request.length) ∧
    (protocol_identifier.build example_calls).get_msg_type false example_get_request 8 =
      some 1 :=
  ⟨⟨by decide, by decide⟩,
    (get_msg_type_first_match false example_calls example_get_request 8
      (by decide) (by decide)).1 1 (by decide) (by decide)
      (fun j hj => by
        have hj0 : j = 0 := by omega
        subst hj0
        intro hall
        have h0 := hall 0
        simp only [example_calls, example_get_request, List.getElem_cons_zero, Fin.val_zero,
          List.getD_cons_zero, Matrix.cons_val_zero] at h0
        exact absurd h0 (by decide))⟩

theorem get_msg_type_short_witness :
    (7 < 8) ∧
    (protocol_identifier.build example_calls).get_msg_type true (example_get_request.take 7) 7 =
      some 0 :=
  ⟨by decide, (get_msg_type_short true (protocol_identifier.build example_calls)
    (example_get_request.take 7) 7 (by decide)).1⟩

/-! ## The cursor -/

set_option maxRecDepth 100000 in
theorem varint_len_cases : ∀ b : uint8_t,
    varint_len b = 1 ∨ varint_len b = 2 ∨ varint_len b = 4 ∨ varint_len b = 8 := by
  decide

set_option maxRecDepth 100000 in
theorem varint_len_eq_one : ∀ b : uint8_t, b.val &&& 0xc0 = 0 →
    varint_len b = 1 ∧ b.val &&& 0x3f = b.val ∧ b.val ≤ 63 := by
  decide

theorem varint_loop_null (mem : List uint8_t) (n : Nat) (v : Int) :
    (varint_loop mem n v none).2 = none := by
  induction n generalizing v with
  | zero => rfl
  | succ n ih => simp only [varint_loop, datum.read_uint8]; exact ih _

theorem read_uint8_of_lt (mem : List uint8_t) (s e : Nat) (h : s < e) :
    datum.read_uint8 mem (some (s, e)) = (mem.getD s 0, some (s + 1, e)) := by
  simp [datum.read_uint8, h]

theorem read_uint8_of_not_lt (mem : List uint8_t) (s e : Nat) (h : ¬ s < e) :
    datum.read_uint8 mem (some (s, e)) = (0, none) := by
  simp [datum.read_uint8, h]

theorem varint_loop_enough (mem : List uint8_t) (n : Nat) :
    ∀ (v : Int) (s e : Nat), n ≤ e - s → 0 ≤ v →
      (varint_loop mem n v (some (s, e))).2 = some (s + n, e) ∧
      0 ≤ (varint_loop mem n v (some (s, e))).1 := by
  induction n with
  | zero => intro v s e _ hv; exact ⟨rfl, hv⟩
  | succ n ih =>
    intro v s e hn hv
    have hlt : s < e := by omega
    simp only [varint_loop, read_uint8_of_lt mem s e hlt]
    have h := ih (v * 256 + (((mem.getD s 0).val &&& 0x3f : Nat) : Int)) (s + 1) e
      (by omega) (by omega)
    rw [show s + (n + 1) = s + 1 + n by omega]
    exact h

theorem varint_loop_short (mem : List uint8_t) (n : Nat) :
    ∀ (v : Int) (s e : Nat), e - s < n →
      (varint_loop mem n v (some (s, e))).2 = none := by
  induction n with
  | zero => intro v s e h; omega
  | succ n ih =>
    intro v s e hn
    by_cases hlt : s < e
    · simp only [varint_loop, read_uint8_of_lt mem s e hlt]
      exact ih _ (s + 1) e (by omega)
    · simp only [varint_loop, read_uint8_of_not_lt mem s e hlt]
      exact varint_loop_null mem n _

theorem varint_loop_congr (mem mem2 : List uint8_t) (n : Nat) :
    ∀ (v : Int) (s e : Nat), (∀ i, s ≤ i → i < e → mem2.getD i 0 = mem.getD i 0) →
      varint_loop mem2 n v (some (s, e)) = varint_loop mem n v (some (s, e)) := by
  induction n with
  | zero => intro v s e _; rfl
  | succ n ih =>
    intro v s e h
    by_cases hlt : s < e
    · simp only [varint_loop, read_uint8_of_lt _ s e hlt]
      rw [h s (Nat.le_refl s) hlt]
      exact ih _ (s + 1) e (fun i hi hie => h i (by omega) hie)
    · simp only [varint_loop, read_uint8_of_not_lt _ s e hlt]
      have hnull : ∀ (m : List uint8_t) (k : Nat) (w : Int),
          varint_loop m k w none = (w * 256 ^ k, none) := by
        intro m k
        induction k with
        | zero => intro w; simp [varint_loop]
        | succ k ihk =>
          intro w
          simp only [varint_loop, datum.read_uint8]
          rw [ihk]
          simp [pow_succ]
          ring
      rw [hnull, hnull]

/-- The result of `parse_variable_length_integer` on a view that holds the
whole encoding. -/
theorem parse_variable_length_integer_enough (mem : List uint8_t) (s e : Nat) (hlt : s < e)
    (hlen : varint_len (mem.getD s 0) ≤ e - s) :
    0 ≤ (parse_variable_length_integer mem (some (s, e))).1 ∧
      (parse_variable_length_integer mem (some (s, e))).2 =
        some (s + varint_len (mem.getD s 0), e) := by
  have hpos : 1 ≤ varint_len (mem.getD s 0) := by
    rcases varint_len_cases (mem.getD s 0) with h | h | h | h <;> omega
  have h := varint_loop_enough mem (varint_len (mem.getD s 0) - 1)
    ((((mem.getD s 0).val &&& 0x3f : Nat) : Int)) (s + 1) e (by omega) (by omega)
  unfold parse_variable_length_integer
  simp only [read_uint8_of_lt mem s e hlt]
  rw [show s + varint_len (mem.getD s 0) = s + 1 + (varint_len (mem.getD s 0) - 1) by omega]
  rw [h.1]
  simp only [datum.is_null, Option.isNone_some, Bool.false_eq_true, if_false]
  exact ⟨h.2, h.1⟩

/-- The result of `parse_variable_length_integer` on a view that is empty or
ends inside the encoding. -/
theorem parse_variable_length_integer_short (mem : List uint8_t) (s e : Nat)
    (h : e ≤ s ∨ e - s < varint_len (mem.getD s 0)) :
    parse_variable_length_integer mem (some (s, e)) = (-1, none) := by
  unfold parse_variable_length_integer
  by_cases hlt : s < e
  · have hs : e - s < varint_len (mem.getD s 0) := by
      rcases h with h | h
      · omega
      · exact h
    simp only [read_uint8_of_lt mem s e hlt]
    rw [varint_loop_short mem _ _ (s + 1) e (by omega)]
    rfl
  · simp only [read_uint8_of_not_lt mem s e hlt]
    rw [varint_loop_null]
    rfl

theorem parse_variable_length_integer_null (mem : List uint8_t) :
    parse_variable_length_integer mem none = (-1, none) := by
  unfold parse_variable_length_integer
  simp only [datum.read_uint8]
  rw [varint_loop_null]
  rfl

theorem parse_variable_length_integer_congr (mem mem2 : List uint8_t) (s e : Nat)
    (h : ∀ i, s ≤ i → i < e → mem2.getD i 0 = mem.getD i 0) :
    parse_variable_length_integer mem2 (some (s, e)) =
      parse_variable_length_integer mem (some (s, e)) := by
  unfold parse_variable_length_integer
  by_cases hlt : s < e
  · simp only [read_uint8_of_lt _ s e hlt]
    rw [h s (Nat.le_refl s) hlt,
      varint_loop_congr mem mem2 _ _ (s + 1) e (fun i hi hie => h i (by omega) hie)]
  · simp only [read_uint8_of_not_lt _ s e hlt]
    rw [varint_loop_null, varint_loop_null]
    rfl

/-! ## quic.h: the variable-length integer -/

/-- C4: on the RFC 9000 sample encoding `c2 19 7c 5e ff 14 e8 8c`, whose first
byte selects a length of 8 and which holds 8 bytes, `parse_variable_length_integer`
returns 151218163098593292, while the RFC 9000 section 16 value (low six bits of
the first byte, then all eight bits of each further byte) is 151288809941952652:
the loop adds `b & 0x3f` for the continuation bytes too. -/
theorem parse_variable_length_integer_sample :
    varint_len 0xc2 = 8 ∧
    parse_variable_length_integer example_varint8 (datum.of_buffer example_varint8) =
      (151218163098593292, some (8, 8)) ∧
    rfc9000_varint_value example_varint8 = 151288809941952652 := by
  decide

/-- C5: for every non-empty input whose first byte `b` has its two high bits equal
to 00, `parse_variable_length_integer` returns `b`, a value in `0..63`, and the
cursor has advanced by exactly one byte. -/
theorem parse_variable_length_integer_one_byte (mem : List uint8_t) (s e : Nat)
    (hne : s < e) (hb : (mem.getD s 0).val &&& 0xc0 = 0) :
    parse_variable_length_integer mem (some (s, e)) =
      (((mem.getD s 0).val : Int), some (s + 1, e)) ∧ (mem.getD s 0).val ≤ 63 := by
  obtain ⟨h1, h2, h3⟩ := varint_len_eq_one (mem.getD s 0) hb
  refine ⟨?_, h3⟩
  unfold parse_variable_length_integer
  simp only [read_uint8_of_lt mem s e hne, h1, h2, Nat.sub_self, varint_loop]
  rfl

theorem parse_variable_length_integer_one_byte_witness :
    (0 < 1 ∧ (([0x25] : List uint8_t).getD 0 0).val &&& 0xc0 = 0) ∧
    parse_variable_length_integer [0x25] (some (0, 1)) = (37, some (1, 1)) :=
  ⟨⟨by decide, by decide⟩,
    (parse_variable_length_integer_one_byte [0x25] 0 1 (by decide) (by decide)).1⟩

/-- C6: for every input view `[s, e)` of a buffer `mem`:
if the view is empty, or shorter than the encoded length selected by its first
byte, `parse_variable_length_integer` returns -1 and leaves the cursor null (and
so it does on a null cursor); if the view is long enough the result is
non-negative and the cursor has advanced past the encoding; and the result does
not depend on any byte of `mem` outside the view. -/
theorem parse_variable_length_integer_sentinel (mem : List uint8_t) (s e : Nat) :
    ((e ≤ s ∨ e - s < varint_len (mem.getD s 0)) →
      parse_variable_length_integer mem (some (s, e)) = (-1, none)) ∧
    parse_variable_length_integer mem none = (-1, none) ∧
    ((s < e ∧ varint_len (mem.getD s 0) ≤ e - s) →
      0 ≤ (parse_variable_length_integer mem (some (s, e))).1 ∧
      (parse_variable_length_integer mem (some (s, e))).2 =
        some (s + varint_len (mem.getD s 0), e)) ∧
    (∀ mem2 : List uint8_t, (∀ i, s ≤ i → i < e → mem2.getD i 0 = mem.getD i 0) →
      parse_variable_length_integer mem2 (some (s, e)) =
        parse_variable_length_integer mem (some (s, e))) :=
  ⟨parse_variable_length_integer_short mem s e,
    parse_variable_length_integer_null mem,
    fun h => parse_variable_length_integer_enough mem s e h.1 h.2,
    fun mem2 h => parse_variable_length_integer_congr mem mem2 s e h⟩

theorem parse_variable_length_integer_sentinel_witness :
    parse_variable_length_integer [0x40] (some (0, 1)) = (-1, none) ∧
    parse_variable_length_integer [] (some (0, 0)) = (-1, none) ∧
    0 ≤ (parse_variable_length_integer [0x40, 0x25] (some (0, 2))).1 ∧
    parse_variable_length_integer [0x40, 0xff] (some (0, 1)) =
      parse_variable_length_integer [0x40] (some (0, 1)) :=
  ⟨(parse_variable_length_integer_sentinel [0x40] 0 1).1 (Or.inr (by decide)),
    (parse_variable_length_integer_sentinel [] 0 0).1 (Or.inl (by decide)),
    ((parse_variable_length_integer_sentinel [0x40, 0x25] 0 2).2.2.1
      ⟨by decide, by decide⟩).1,
    (parse_variable_length_integer_sentinel [0x40] 0 1).2.2.2 [0x40, 0xff]
      (fun i h0 h1 => by
        have hi : i = 0 := by omega
        subst hi
        rfl)⟩

/-! ## quic.h: the Initial packet -/

theorem read_uint8_none (mem : List uint8_t) : datum.read_uint8 mem none = (0, none) := rfl

theorem read_uint16_none (mem : List uint8_t) : datum.read_uint16 mem none = (0, none) := rfl

theorem read_uint16_of_le (mem : List uint8_t) (s e : Nat) (h : 2 ≤ e - s) :
    datum.read_uint16 mem (some (s, e)) =
      (2 ^ 8 * (mem.getD s 0).val + (mem.getD (s + 1) 0).val, some (s + 2, e)) := by
  simp [datum.read_uint16, h]

theorem read_uint16_of_lt (mem : List uint8_t) (s e : Nat) (h : e - s < 2) :
    datum.read_uint16 mem (some (s, e)) = (0, none) := by
  have h2 : ¬ 2 ≤ e - s := by omega
  simp [datum.read_uint16, h2]

theorem parse_none (n : Nat) : datum.parse none n = (none, none) := by
  unfold datum.parse
  split <;> rfl

theorem parse_of_le (s e n : Nat) (h : n ≤ e - s) :
    datum.parse (some (s, e)) n = (some (s, s + n), some (s + n, e)) := by
  have h2 : ¬ e - s < n := by omega
  simp [datum.parse, datum.length, h2]

theorem parse_of_lt (s e n : Nat) (h : e - s < n) :
    datum.parse (some (s, e)) n = (none, none) := by
  simp [datum.parse, datum.length, h]

/-- The parse of a packet whose first byte has the bits `0x30` clear and whose
fields all fit: every view is the slice at the offsets the parser decodes, and `valid` is
decided by the payload length and the connection ID length alone. -/
theorem parse_of_fits (mem : List uint8_t) (s e : Nat)
    (hci : (mem.getD s 0).val &&& 0x30 = 0)
    (hfit : parsed_length_offset mem s e + 2 + parsed_payload_length mem s e ≤ e) :
    quic_initial_packet.parse mem (some (s, e)) =
      (⟨mem.getD s 0, some (s + 1, s + 5),
        some (s + 6, s + 6 + wire_dcid_length mem s),
        some (s + 7 + wire_dcid_length mem s, wire_token_length_offset mem s),
        some (parsed_token_offset mem s, parsed_length_offset mem s e),
        some (parsed_length_offset mem s e + 2,
          parsed_length_offset mem s e + 2 + parsed_payload_length mem s e),
        decide (32 ≤ parsed_payload_length mem s e ∧ 0 < wire_dcid_length mem s)⟩,
       some (parsed_length_offset mem s e + 2 + parsed_payload_length mem s e, e)) := by
  have hvl := varint_len_cases (mem.getD (wire_token_length_offset mem s) 0)
  have hlo : parsed_length_offset mem s e =
      wire_token_length_offset mem s +
        varint_len (mem.getD (wire_token_length_offset mem s) 0) + parsed_token_length mem s e := rfl
  have hto : wire_token_length_offset mem s =
      s + 7 + wire_dcid_length mem s + wire_scid_length mem s := rfl
  have h1 : s < e := by omega
  have h2 : 4 ≤ e - (s + 1) := by omega
  have h3 : s + 1 + 4 < e := by omega
  have e3 : s + 1 + 4 = s + 5 := by omega
  have hd : (mem.getD (s + 5) 0).val = wire_dcid_length mem s := rfl
  have h4 : wire_dcid_length mem s ≤ e - (s + 5 + 1) := by omega
  have e4 : s + 5 + 1 = s + 6 := by omega
  have h5 : s + 6 + wire_dcid_length mem s < e := by omega
  have hs : (mem.getD (s + 6 + wire_dcid_length mem s) 0).val = wire_scid_length mem s := rfl
  have e5 : s + 6 + wire_dcid_length mem s + 1 = s + 7 + wire_dcid_length mem s := by omega
  have h6 : wire_scid_length mem s ≤ e - (s + 7 + wire_dcid_length mem s) := by omega
  have h7 : wire_token_length_offset mem s < e := by omega
  have h8 : varint_len (mem.getD (wire_token_length_offset mem s) 0) ≤
      e - wire_token_length_offset mem s := by omega
  have hv := parse_variable_length_integer_enough mem (wire_token_length_offset mem s) e h7 h8
  have ht : size_t_of_ssize_t
      (parse_variable_length_integer mem (some (wire_token_length_offset mem s, e))).1 =
      parsed_token_length mem s e := rfl
  have hto2 : wire_token_length_offset mem s +
      varint_len (mem.getD (wire_token_length_offset mem s) 0) = parsed_token_offset mem s := rfl
  have hlo2 : parsed_token_offset mem s + parsed_token_length mem s e =
      parsed_length_offset mem s e := rfl
  have h9 : parsed_token_length mem s e ≤ e - parsed_token_offset mem s := by
    rw [← hto2]; omega
  have h10 : 2 ≤ e - parsed_length_offset mem s e := by omega
  have hp : (2 ^ 8 * (mem.getD (parsed_length_offset mem s e) 0).val +
      (mem.getD (parsed_length_offset mem s e + 1) 0).val) &&& 0x3FFF =
      parsed_payload_length mem s e := rfl
  have h11 : parsed_payload_length mem s e ≤ e - (parsed_length_offset mem s e + 2) := by omega
  unfold quic_initial_packet.parse
  simp only [read_uint8_of_lt mem s e h1, hci, ne_eq, not_true_eq_false, if_false,
    parse_of_le (s + 1) e 4 h2, e3, read_uint8_of_lt mem (s + 5) e (e3 ▸ h3), hd,
    parse_of_le (s + 5 + 1) e _ h4, e4, read_uint8_of_lt mem _ e h5, hs, e5,
    parse_of_le _ e _ h6, ← hto, hv.2, ht, hto2, parse_of_le _ e _ h9, hlo2,
    read_uint16_of_le mem _ e h10, hp, parse_of_le _ e _ h11]
  have hA : ∀ a n : Nat, datum.is_not_empty (some (a, a + n)) = false ↔ n = 0 := by
    intro a n
    simp [datum.is_not_empty]
  simp only [hA]
  by_cases hc : 32 ≤ parsed_payload_length mem s e ∧ 0 < wire_dcid_length mem s
  · rw [if_neg (by omega), decide_eq_true hc]
  · rw [if_pos (by omega), decide_eq_false hc]

theorem parse_null (mem : List uint8_t) :
    quic_initial_packet.parse mem none =
      (⟨0, none, none, none, none, none, false⟩, none) := by
  unfold quic_initial_packet.parse
  simp [read_uint8_none, parse_none, parse_variable_length_integer_null, read_uint16_none,
    datum.is_not_empty]

/-- A valid parse had the bits `0x30` of the first byte clear and found every
field inside the input. -/
theorem parse_fits_of_valid (mem : List uint8_t) (s e : Nat)
    (h : (quic_initial_packet.parse mem (some (s, e))).1.valid = true) :
    (mem.getD s 0).val &&& 0x30 = 0 ∧
      parsed_length_offset mem s e + 2 + parsed_payload_length mem s e ≤ e := by
  have hlo : parsed_length_offset mem s e =
      wire_token_length_offset mem s +
        varint_len (mem.getD (wire_token_length_offset mem s) 0) + parsed_token_length mem s e := rfl
  have hto : wire_token_length_offset mem s =
      s + 7 + wire_dcid_length mem s + wire_scid_length mem s := rfl
  have e3 : s + 1 + 4 = s + 5 := by omega
  have hd : (mem.getD (s + 5) 0).val = wire_dcid_length mem s := rfl
  have e4 : s + 5 + 1 = s + 6 := by omega
  have hs : (mem.getD (s + 6 + wire_dcid_length mem s) 0).val = wire_scid_length mem s := rfl
  have e5 : s + 6 + wire_dcid_length mem s + 1 = s + 7 + wire_dcid_length mem s := by omega
  have ht : size_t_of_ssize_t
      (parse_variable_length_integer mem (some (wire_token_length_offset mem s, e))).1 =
      parsed_token_length mem s e := rfl
  have hto2 : wire_token_length_offset mem s +
      varint_len (mem.getD (wire_token_length_offset mem s) 0) = parsed_token_offset mem s := rfl
  have hlo2 : parsed_token_offset mem s + parsed_token_length mem s e =
      parsed_length_offset mem s e := rfl
  have hp : (2 ^ 8 * (mem.getD (parsed_length_offset mem s e) 0).val +
      (mem.getD (parsed_length_offset mem s e + 1) 0).val) &&& 0x3FFF =
      parsed_payload_length mem s e := rfl
  unfold quic_initial_packet.parse at h
  by_cases h1 : s < e
  swap
  · simp [read_uint8_of_not_lt mem s e h1, read_uint8_none, parse_none, parse_variable_length_integer_null,
      read_uint16_none, datum.is_not_empty] at h
  simp only [read_uint8_of_lt mem s e h1] at h
  by_cases hci : (mem.getD s 0).val &&& 0x30 = 0
  swap
  · rw [if_pos hci] at h
    exact absurd h (by simp)
  refine ⟨hci, ?_⟩
  simp only [hci, ne_eq, not_true_eq_false, if_false] at h
  by_cases h2 : 4 ≤ e - (s + 1)
  swap
  · simp [parse_of_lt (s + 1) e 4 (by omega), read_uint8_none, parse_none, parse_variable_length_integer_null,
      read_uint16_none, datum.is_not_empty] at h
  simp only [parse_of_le (s + 1) e 4 h2, e3] at h
  by_cases h3 : s + 5 < e
  swap
  · simp [read_uint8_of_not_lt mem (s + 5) e h3, read_uint8_none, parse_none, parse_variable_length_integer_null,
      read_uint16_none, datum.is_not_empty] at h
  simp only [read_uint8_of_lt mem (s + 5) e h3, hd, e4] at h
  by_cases h4 : wire_dcid_length mem s ≤ e - (s + 6)
  swap
  · simp [parse_of_lt (s + 6) e _ (Nat.lt_of_not_le h4), read_uint8_none, parse_none, parse_variable_length_integer_null,
      read_uint16_none, datum.is_not_empty] at h
  simp only [parse_of_le (s + 6) e _ h4] at h
  by_cases h5 : s + 6 + wire_dcid_length mem s < e
  swap
  · simp [read_uint8_of_not_lt mem _ e h5, read_uint8_none, parse_none, parse_variable_length_integer_null,
      read_uint16_none, datum.is_not_empty] at h
  simp only [read_uint8_of_lt mem _ e h5, hs, e5] at h
  by_cases h6 : wire_scid_length mem s ≤ e - (s + 7 + wire_dcid_length mem s)
  swap
  · simp [parse_of_lt _ e _ (Nat.lt_of_not_le h6), read_uint8_none, parse_none, parse_variable_length_integer_null,
      read_uint16_none, datum.is_not_empty] at h
  simp only [parse_of_le _ e _ h6, ← hto] at h
  by_cases h7 : wire_token_length_offset mem s < e ∧
      varint_len (mem.getD (wire_token_length_offset mem s) 0) ≤
        e - wire_token_length_offset mem s
  swap
  · have hsh := parse_variable_length_integer_short mem (wire_token_length_offset mem s) e
      (by omega)
    simp [hsh, read_uint8_none, parse_none, read_uint16_none, datum.is_not_empty] at h
  have hv := parse_variable_length_integer_enough mem (wire_token_length_offset mem s) e
    h7.1 h7.2
  simp only [hv.2, ht, hto2] at h
  by_cases h9 : parsed_token_length mem s e ≤ e - parsed_token_offset mem s
  swap
  · simp [parse_of_lt _ e _ (Nat.lt_of_not_le h9), read_uint8_none, parse_none, parse_variable_length_integer_null,
      read_uint16_none, datum.is_not_empty] at h
  simp only [parse_of_le _ e _ h9, hlo2] at h
  by_cases h10 : 2 ≤ e - parsed_length_offset mem s e
  swap
  · simp [read_uint16_of_lt mem _ e (Nat.lt_of_not_le h10), read_uint8_none, parse_none, parse_variable_length_integer_null,
      read_uint16_none, datum.is_not_empty] at h
  simp only [read_uint16_of_le mem _ e h10, hp] at h
  by_cases h11 : parsed_payload_length mem s e ≤ e - (parsed_length_offset mem s e + 2)
  swap
  · simp [parse_of_lt _ e _ (Nat.lt_of_not_le h11), read_uint8_none, parse_none, parse_variable_length_integer_null,
      read_uint16_none, datum.is_not_empty] at h
  omega

theorem within_read_uint8 (mem : List uint8_t) (lo hi : Nat) (d : datum)
    (h : d.within lo hi) : (datum.read_uint8 mem d).2.within lo hi := by
  match d, h with
  | none, _ => trivial
  | some (a, b), h =>
    by_cases hlt : a < b
    · rw [read_uint8_of_lt mem a b hlt]
      simp only [datum.within] at h ⊢
      omega
    · rw [read_uint8_of_not_lt mem a b hlt]
      trivial

theorem within_read_uint16 (mem : List uint8_t) (lo hi : Nat) (d : datum)
    (h : d.within lo hi) : (datum.read_uint16 mem d).2.within lo hi := by
  match d, h with
  | none, _ => trivial
  | some (a, b), h =>
    by_cases hlt : 2 ≤ b - a
    · rw [read_uint16_of_le mem a b hlt]
      simp only [datum.within] at h ⊢
      omega
    · rw [read_uint16_of_lt mem a b (by omega)]
      trivial

theorem within_parse (lo hi : Nat) (r : datum) (n : Nat) (h : r.within lo hi) :
    (datum.parse r n).1.within lo hi ∧ (datum.parse r n).2.within lo hi := by
  match r, h with
  | none, _ => rw [parse_none]; exact ⟨trivial, trivial⟩
  | some (a, b), h =>
    by_cases hn : n ≤ b - a
    · rw [parse_of_le a b n hn]
      simp only [datum.within] at h ⊢
      omega
    · rw [parse_of_lt a b n (by omega)]
      exact ⟨trivial, trivial⟩

theorem within_varint_loop (mem : List uint8_t) (lo hi : Nat) (n : Nat) :
    ∀ (v : Int) (d : datum), d.within lo hi → (varint_loop mem n v d).2.within lo hi := by
  induction n with
  | zero => intro v d h; exact h
  | succ n ih =>
    intro v d h
    simp only [varint_loop]
    exact ih _ _ (within_read_uint8 mem lo hi d h)

theorem within_parse_variable_length_integer (mem : List uint8_t) (lo hi : Nat) (d : datum)
    (h : d.within lo hi) : (parse_variable_length_integer mem d).2.within lo hi := by
  have hl := within_varint_loop mem lo hi (varint_len (datum.read_uint8 mem d).1 - 1)
    ((((datum.read_uint8 mem d).1.val &&& 0x3f : Nat) : Int)) _
    (within_read_uint8 mem lo hi d h)
  unfold parse_variable_length_integer
  simp only []
  split
  · exact hl
  · exact hl

/-- Every view that `quic_initial_packet` holds after the parse, and the cursor
itself, lies inside the input. -/
theorem within_quic_initial_packet (mem : List uint8_t) (lo hi : Nat) (d : datum)
    (h : d.within lo hi) :
    (quic_initial_packet.parse mem d).1.version.within lo hi ∧
    (quic_initial_packet.parse mem d).1.dcid.within lo hi ∧
    (quic_initial_packet.parse mem d).1.scid.within lo hi ∧
    (quic_initial_packet.parse mem d).1.token.within lo hi ∧
    (quic_initial_packet.parse mem d).1.data.within lo hi ∧
    (quic_initial_packet.parse mem d).2.within lo hi := by
  have w0 := within_read_uint8 mem lo hi d h
  have w1 := within_parse lo hi _ 4 w0
  have w2 := within_read_uint8 mem lo hi _ w1.2
  have w3 := fun n => within_parse lo hi _ n w2
  have w4 := fun n => within_read_uint8 mem lo hi _ (w3 n).2
  have w5 := fun n m => within_parse lo hi _ m (w4 n)
  have w6 := fun n m => within_parse_variable_length_integer mem lo hi _ (w5 n m).2
  have w7 := fun n m k => within_parse lo hi _ k (w6 n m)
  have w8 := fun n m k => within_read_uint16 mem lo hi _ (w7 n m k).2
  have w9 := fun n m k l => within_parse lo hi _ l (w8 n m k)
  unfold quic_initial_packet.parse
  simp only []
  split
  · exact ⟨trivial, trivial, trivial, trivial, trivial, w0⟩
  · split
    · exact ⟨w1.1, (w3 _).1, (w5 _ _).1, (w7 _ _ _).1, (w9 _ _ _ _).1, (w9 _ _ _ _).2⟩
    · exact ⟨w1.1, (w3 _).1, (w5 _ _).1, (w7 _ _ _).1, (w9 _ _ _ _).1, (w9 _ _ _ _).2⟩

/-- The parser's layout and the declared layout agree when the token-length field
is a single byte (its first byte is below `0x40`) that lies inside the input. -/
theorem parsed_layout_eq_declared (mem : List uint8_t) (s e : Nat)
    (h1 : (mem.getD (wire_token_length_offset mem s) 0).val &&& 0xc0 = 0)
    (hin : wire_token_length_offset mem s < e) :
    parsed_token_length mem s e = declared_token_length mem s ∧
    parsed_token_offset mem s = declared_token_offset mem s ∧
    parsed_length_offset mem s e = declared_length_offset mem s ∧
    parsed_payload_length mem s e = declared_payload_length mem s := by
  obtain ⟨hv1, hmask, h63⟩ := varint_len_eq_one _ h1
  have hrl : rfc9000_varint_length (mem.getD (wire_token_length_offset mem s) 0) = 1 := by
    unfold rfc9000_varint_length
    rw [Nat.div_eq_of_lt (by omega)]
    rfl
  have ht : parsed_token_length mem s e = declared_token_length mem s := by
    unfold parsed_token_length declared_token_length parse_variable_length_integer
    rw [read_uint8_of_lt mem _ e hin, hrl]
    have hr1 : List.range 1 = [0] := rfl
    simp only [hv1, Nat.sub_self, varint_loop, datum.is_null, Option.isNone_some,
      Bool.false_eq_true, if_false, hmask, size_t_of_ssize_t]
    simp only [hr1, List.map_cons, List.map_nil, Nat.add_zero, rfc9000_varint_value,
      List.foldl_nil, hmask]
    omega
  have ho : parsed_token_offset mem s = declared_token_offset mem s := by
    unfold parsed_token_offset declared_token_offset
    rw [hv1, hrl]
  have hl : parsed_length_offset mem s e = declared_length_offset mem s := by
    unfold parsed_length_offset declared_length_offset
    rw [ht, ho]
  refine ⟨ht, ho, hl, ?_⟩
  unfold parsed_payload_length declared_payload_length
  rw [hl]

/-- The validity rule relative to the layout that the parser decodes: for every
input `[s, e)` whose first byte has the bits `0x30` clear, whose destination
connection ID is non-empty and in which the fields fit up to the end of the
payload as the parser locates it, `valid` is true exactly when the payload
length that the parser uses is at least 32. -/
theorem valid_iff_parsed_payload_length_ge_32 (mem : List uint8_t) (s e : Nat)
    (hci : (mem.getD s 0).val &&& 0x30 = 0)
    (hdcid : 0 < wire_dcid_length mem s)
    (hfit : parsed_length_offset mem s e + 2 + parsed_payload_length mem s e ≤ e) :
    (quic_initial_packet.parse mem (some (s, e))).1.valid = true ↔
      32 ≤ parsed_payload_length mem s e := by
  rw [parse_of_fits mem s e hci hfit]
  simp only [decide_eq_true_eq]
  constructor
  · intro h; exact h.1
  · intro h; exact ⟨h, hdcid⟩

/-- C7: the 115-byte packet `example_initial_token64_len5` is well formed: its
first byte has the bits `0x30` clear, its destination connection ID has 8
bytes, it declares a token of 64 bytes (token length `40 40`), and its length
field at offsets 81..82 declares a payload of 32 bytes, which ends with the
input.  The parse yields `valid == false`: the parser takes the token length to
be 0, reads the first two token bytes `00 05` as the length field and gets a
payload of 5 bytes. -/
theorem well_formed_payload_32_invalid :
    example_initial_token64_len5.length = 115 ∧
    (example_initial_token64_len5.getD 0 0).val &&& 0x30 = 0 ∧
    wire_dcid_length example_initial_token64_len5 0 = 8 ∧
    declared_token_length example_initial_token64_len5 0 = 64 ∧
    declared_length_offset example_initial_token64_len5 0 = 81 ∧
    declared_payload_length example_initial_token64_len5 0 = 32 ∧
    declared_packet_end example_initial_token64_len5 0 = 115 ∧
    quic_initial_packet.parse example_initial_token64_len5 (some (0, 115)) =
      (⟨0xc3, some (1, 5), some (6, 14), some (15, 15), some (17, 17), some (19, 24), false⟩,
        some (24, 115)) := by
  decide

/-- The invariant of a valid packet relative to the layout that the parser
decodes: the payload view has at least 32 bytes, it is the slice after the two
bytes that the parser reads as the length field, as long as those two bytes
say, and the `dcid` view is non-empty. -/
theorem valid_implies_parsed_payload_and_dcid (mem : List uint8_t) (s e : Nat)
    (h : (quic_initial_packet.parse mem (some (s, e))).1.valid = true) :
    32 ≤ (quic_initial_packet.parse mem (some (s, e))).1.data.length ∧
    (quic_initial_packet.parse mem (some (s, e))).1.data =
      some (parsed_length_offset mem s e + 2,
        parsed_length_offset mem s e + 2 + parsed_payload_length mem s e) ∧
    (quic_initial_packet.parse mem (some (s, e))).1.data.length =
      parsed_payload_length mem s e ∧
    (quic_initial_packet.parse mem (some (s, e))).1.dcid.is_not_empty = true := by
  obtain ⟨hci, hfit⟩ := parse_fits_of_valid mem s e h
  rw [parse_of_fits mem s e hci hfit] at h ⊢
  simp only [decide_eq_true_eq] at h
  simp only [datum.length, datum.is_not_empty, decide_eq_true_eq]
  exact ⟨by omega, trivial, by omega, by omega⟩

/-- C8: on the 115-byte packet `example_initial_token64_len40`, which declares a
token of 64 bytes and, in its length field at offsets 81..82, a payload of 32
bytes, the parse yields `valid == true` with the payload view at offsets 19..58:
its length is 40, not the declared length 32.  The parser takes the token
length to be 0 and reads the first two token bytes `00 28` as the length
field. -/
theorem valid_data_length_not_declared :
    declared_token_length example_initial_token64_len40 0 = 64 ∧
    declared_length_offset example_initial_token64_len40 0 = 81 ∧
    declared_payload_length example_initial_token64_len40 0 = 32 ∧
    declared_packet_end example_initial_token64_len40 0 = 115 ∧
    quic_initial_packet.parse example_initial_token64_len40 (some (0, 115)) =
      (⟨0xc3, some (1, 5), some (6, 14), some (15, 15), some (17, 17), some (19, 59), true⟩,
        some (59, 115)) ∧
    (quic_initial_packet.parse example_initial_token64_len40
      (some (0, 115))).1.data.length = 40 := by
  decide

/-- Truncation relative to the layout that the parser decodes, and the bounds of
the views: an input `[s, e)` that ends before the end of the payload as the
parser locates it, and in particular an input of fewer than 6 bytes, yields
`valid == false`; and for every input, each of the views `version`, `dcid`,
`scid`, `token`, `data` (and the cursor left behind) is null or covers bytes of
the input only. -/
theorem truncated_parsed_layout_invalid (mem : List uint8_t) (s e : Nat) :
    (e < parsed_length_offset mem s e + 2 + parsed_payload_length mem s e →
      (quic_initial_packet.parse mem (some (s, e))).1.valid = false) ∧
    (e - s < 6 → (quic_initial_packet.parse mem (some (s, e))).1.valid = false) ∧
    (s ≤ e →
      (quic_initial_packet.parse mem (some (s, e))).1.version.within s e ∧
      (quic_initial_packet.parse mem (some (s, e))).1.dcid.within s e ∧
      (quic_initial_packet.parse mem (some (s, e))).1.scid.within s e ∧
      (quic_initial_packet.parse mem (some (s, e))).1.token.within s e ∧
      (quic_initial_packet.parse mem (some (s, e))).1.data.within s e ∧
      (quic_initial_packet.parse mem (some (s, e))).2.within s e) := by
  have hlo : parsed_length_offset mem s e =
      wire_token_length_offset mem s +
        varint_len (mem.getD (wire_token_length_offset mem s) 0) +
          parsed_token_length mem s e := rfl
  have hto : wire_token_length_offset mem s =
      s + 7 + wire_dcid_length mem s + wire_scid_length mem s := rfl
  have key : e < parsed_length_offset mem s e + 2 + parsed_payload_length mem s e →
      (quic_initial_packet.parse mem (some (s, e))).1.valid = false := by
    intro ht
    cases hv : (quic_initial_packet.parse mem (some (s, e))).1.valid with
    | false => rfl
    | true =>
      have := (parse_fits_of_valid mem s e hv).2
      omega
  refine ⟨key, fun h6 => key (by omega), fun hse => ?_⟩
  exact within_quic_initial_packet mem s e (some (s, e)) ⟨Nat.le_refl s, hse, Nat.le_refl e⟩

/-- C9: the first 60 bytes of `example_initial_token64` are an input that ends
before a field the header declares: the token-length field `40 40` declares a
token of 64 bytes at offsets 17..80, and the input ends at offset 60, inside
it.  The parse yields `valid == true`, with an empty token view and the payload
view at offsets 19..50: the parser takes the token length to be 0, so none of
its reads runs past the end of the input. -/
theorem truncated_inside_token_valid :
    (example_initial_token64.take 60).length = 60 ∧
    declared_token_offset (example_initial_token64.take 60) 0 = 17 ∧
    declared_token_length (example_initial_token64.take 60) 0 = 64 ∧
    60 < declared_token_offset (example_initial_token64.take 60) 0 +
      declared_token_length (example_initial_token64.take 60) 0 ∧
    quic_initial_packet.parse (example_initial_token64.take 60) (some (0, 60)) =
      (⟨0xc3, some (1, 5), some (6, 14), some (15, 15), some (17, 17), some (19, 51), true⟩,
        some (51, 60)) := by
  decide

/-- C10: for every input whose first byte has any of the bits `0x30` set, the parse
stops after that byte: `valid` is false, the cursor has advanced by exactly one
byte, `connection_info` is that byte, and the views `version`, `dcid`, `scid`,
`token` and `data` are left null. -/
theorem parse_reserved_bits_set (mem : List uint8_t) (s e : Nat) (hne : s < e)
    (hci : (mem.getD s 0).val &&& 0x30 ≠ 0) :
    quic_initial_packet.parse mem (some (s, e)) =
      (⟨mem.getD s 0, none, none, none, none, none, false⟩, some (s + 1, e)) := by
  unfold quic_initial_packet.parse
  simp only [read_uint8_of_lt mem s e hne]
  rw [if_pos hci]

theorem parse_reserved_bits_set_witness :
    (0 < 3 ∧ (([0xd3, 0x01, 0x02] : List uint8_t).getD 0 0).val &&& 0x30 ≠ 0) ∧
    quic_initial_packet.parse [0xd3, 0x01, 0x02] (some (0, 3)) =
      (⟨0xd3, none, none, none, none, none, false⟩, some (1, 3)) :=
  ⟨⟨by decide, by decide⟩, parse_reserved_bits_set [0xd3, 0x01, 0x02] 0 3 (by decide) (by decide)⟩

/-! ## quic.h: the layout of the views -/

/-- C11: on the 115-byte Initial packet `example_initial_token64`, whose
token-length field at offsets 15..16 is `40 40` (RFC 9000 value 64), the parse is
valid, but the token view is empty (offsets 17..17) and the payload view is the
32 bytes at offsets 19..50, inside what RFC 9000 delimits as the token: the token
is not as many bytes as the RFC 9000 value of the token-length field. -/
theorem parse_token_length_sample :
    quic_initial_packet.parse example_initial_token64 (some (0, 115)) =
      (⟨0xc3, some (1, 5), some (6, 14), some (15, 15), some (17, 17), some (19, 51), true⟩,
        some (51, 115)) ∧
    example_initial_token64.length = 115 ∧
    (example_initial_token64.drop 15).take 2 = [0x40, 0x40] ∧
    rfc9000_varint_value [0x40, 0x40] = 64 := by
  decide

theorem ends_at_read_uint8 (mem : List uint8_t) (e : Nat) (d : datum)
    (h : d.ends_at e) : (datum.read_uint8 mem d).2.ends_at e := by
  match d, h with
  | none, _ => trivial
  | some (a, b), h =>
    by_cases hlt : a < b
    · rw [read_uint8_of_lt mem a b hlt]
      exact h
    · rw [read_uint8_of_not_lt mem a b hlt]
      trivial

theorem ends_at_parse (e : Nat) (r : datum) (n : Nat) (h : r.ends_at e) :
    (datum.parse r n).2.ends_at e := by
  match r, h with
  | none, _ => rw [parse_none]; trivial
  | some (a, b), h =>
    by_cases hn : n ≤ b - a
    · rw [parse_of_le a b n hn]
      exact h
    · rw [parse_of_lt a b n (by omega)]
      trivial

theorem ends_at_varint_loop (mem : List uint8_t) (e : Nat) (n : Nat) :
    ∀ (v : Int) (d : datum), d.ends_at e → (varint_loop mem n v d).2.ends_at e := by
  induction n with
  | zero => intro v d h; exact h
  | succ n ih =>
    intro v d h
    simp only [varint_loop]
    exact ih _ _ (ends_at_read_uint8 mem e d h)

theorem ends_at_parse_variable_length_integer (mem : List uint8_t) (e : Nat) (d : datum)
    (h : d.ends_at e) : (parse_variable_length_integer mem d).2.ends_at e := by
  have hl := ends_at_varint_loop mem e (varint_len (datum.read_uint8 mem d).1 - 1)
    ((((datum.read_uint8 mem d).1.val &&& 0x3f : Nat) : Int)) _
    (ends_at_read_uint8 mem e d h)
  unfold parse_variable_length_integer
  simp only []
  split
  · exact hl
  · exact hl

/-- A successful `view.parse(r, n)`: the view starts where `r` stood, holds `n`
bytes, and `r` has advanced past it. -/
theorem parse_fst_some (r : datum) (n a b : Nat) (h : (datum.parse r n).1 = some (a, b)) :
    ∃ c, r = some (a, c) ∧ b = a + n ∧ n ≤ c - a ∧
      datum.parse r n = (some (a, b), some (b, c)) := by
  match r, h with
  | none, h => rw [parse_none] at h; exact absurd h (by simp)
  | some (x, c), h =>
    by_cases hn : n ≤ c - x
    · rw [parse_of_le x c n hn] at h ⊢
      simp only [Option.some.injEq, Prod.mk.injEq] at h
      obtain ⟨hx, hb⟩ := h
      subst hx
      subst hb
      exact ⟨c, rfl, rfl, hn, rfl⟩
    · rw [parse_of_lt x c n (by omega)] at h
      exact absurd h (by simp)

theorem land_3fff (b0 b1 : uint8_t) :
    (2 ^ 8 * b0.val + b1.val) &&& 0x3FFF = 2 ^ 8 * (b0.val &&& 0x3f) + b1.val := by
  have h := land_mul_add 8 b0.val b1.val 0x3f 0xff b1.isLt (by decide)
  have hb : b1.val &&& 0xff = b1.val := by
    have := Nat.and_pow_two_sub_one_of_lt_two_pow (n := 8) b1.isLt
    simpa using this
  rw [hb] at h
  exact h

/-- C12: for every input `[s, e)` on which the parse reached the token (the token
view is `[ts, te)`) and two more bytes follow it, the payload length used by
`parse` is the big-endian value of the two bytes `b0 b1` at `te`, `te + 1` masked
to its low 14 bits, that is `256 * (b0 & 0x3f) + b1` whatever the two high bits
of `b0` are; and the payload view is exactly that many bytes following the
field when the input holds them (it is null when the input ends earlier). -/
theorem payload_length_is_14_bit_field (mem : List uint8_t) (s e ts te : Nat)
    (htok : (quic_initial_packet.parse mem (some (s, e))).1.token = some (ts, te))
    (h2 : te + 2 ≤ e) :
    quic_initial_packet.parse_data_length mem (some (s, e)) =
      (2 ^ 8 * (mem.getD te 0).val + (mem.getD (te + 1) 0).val) &&& 0x3FFF ∧
    quic_initial_packet.parse_data_length mem (some (s, e)) =
      2 ^ 8 * ((mem.getD te 0).val &&& 0x3f) + (mem.getD (te + 1) 0).val ∧
    (te + 2 + quic_initial_packet.parse_data_length mem (some (s, e)) ≤ e →
      (quic_initial_packet.parse mem (some (s, e))).1.data =
        some (te + 2, te + 2 + quic_initial_packet.parse_data_length mem (some (s, e)))) ∧
    (e < te + 2 + quic_initial_packet.parse_data_length mem (some (s, e)) →
      (quic_initial_packet.parse mem (some (s, e))).1.data = none) := by
  have w0 := ends_at_read_uint8 mem e (some (s, e)) rfl
  have w1 := ends_at_parse e _ 4 w0
  have w2 := ends_at_read_uint8 mem e _ w1
  have w3 := fun n => ends_at_parse e _ n w2
  have w4 := fun n => ends_at_read_uint8 mem e _ (w3 n)
  have w5 := fun n m => ends_at_parse e _ m (w4 n)
  have w6 := fun n m => ends_at_parse_variable_length_integer mem e _ (w5 n m)
  unfold quic_initial_packet.parse at htok ⊢
  unfold quic_initial_packet.parse_data_length
  simp only [] at htok ⊢
  split at htok
  · exact absurd htok (by simp)
  · rename_i hci
    rw [if_neg hci]
    split at htok
    all_goals
      simp only [] at htok
      obtain ⟨c, hr, hb, hn, hp⟩ := parse_fst_some _ _ ts te htok
      have hce : datum.ends_at e (some (ts, c)) := by
        rw [← hr]
        exact w6 _ _
      simp only [datum.ends_at] at hce
      subst hce
      simp only [hp]
      rw [read_uint16_of_le mem te c (by omega)]
      simp only []
      refine ⟨trivial, land_3fff _ _, ?_, ?_⟩
      · intro hfit
        rw [parse_of_le (te + 2) c _ (by omega)]
        split <;> rfl
      · intro hshort
        rw [parse_of_lt (te + 2) c _ (by omega)]
        split <;> rfl

theorem payload_length_is_14_bit_field_witness :
    ((quic_initial_packet.parse example_initial_32 (some (0, 50))).1.token = some (16, 16) ∧
      16 + 2 ≤ 50) ∧
    quic_initial_packet.parse_data_length example_initial_32 (some (0, 50)) = 32 ∧
    (quic_initial_packet.parse example_initial_32 (some (0, 50))).1.data = some (18, 50) :=
  ⟨⟨by decide, by decide⟩,
    (payload_length_is_14_bit_field example_initial_32 0 50 16 16 (by decide) (by decide)).1.trans
      (by decide),
    ((payload_length_is_14_bit_field example_initial_32 0 50 16 16 (by decide)
      (by decide)).2.2.1 (by decide)).trans (by decide)⟩

/-! ## quic.h: `quic_parameters` -/

theorem lookup_cons_ne (v k : Nat) (x : List uint8_t) (es : List (Nat × List uint8_t))
    (h : v ≠ k) : List.lookup v ((k, x) :: es) = List.lookup v es := by
  have hb : (v == k) = false := by simpa using h
  simp only [List.lookup, hb]

theorem get_initial_salt_eq (version : Nat) :
    get_initial_salt version =
      (if version = 0xff000016 then some salt_d22
       else if 0xff000017 ≤ version ∧ version ≤ 0xff00001c then some salt_d23_d28
       else if 0xff00001d ≤ version ∧ version ≤ 0xff000020 then some salt_d29_d32
       else if version = 0xff000021 ∨ version = 0xff000022 ∨ version = 0x00000001 then
         some salt_d33_v1
       else none) := by
  have hcases : version = 4278190102 ∨ version = 4278190103 ∨ version = 4278190104 ∨
      version = 4278190105 ∨ version = 4278190106 ∨ version = 4278190107 ∨
      version = 4278190108 ∨ version = 4278190109 ∨ version = 4278190110 ∨
      version = 4278190111 ∨ version = 4278190112 ∨ version = 4278190113 ∨
      version = 4278190114 ∨ version = 1 ∨
      (version ≠ 4278190102 ∧ version ≠ 4278190103 ∧ version ≠ 4278190104 ∧
        version ≠ 4278190105 ∧ version ≠ 4278190106 ∧ version ≠ 4278190107 ∧
        version ≠ 4278190108 ∧ version ≠ 4278190109 ∧ version ≠ 4278190110 ∧
        version ≠ 4278190111 ∧ version ≠ 4278190112 ∧ version ≠ 4278190113 ∧
        version ≠ 4278190114 ∧ version ≠ 1) := by omega
  rcases hcases with h | h | h | h | h | h | h | h | h | h | h | h | h | h | h
  case inr.inr.inr.inr.inr.inr.inr.inr.inr.inr.inr.inr.inr.inr =>
    obtain ⟨h1, h2, h3, h4, h5, h6, h7, h8, h9, h10, h11, h12, h13, h14⟩ := h
    unfold get_initial_salt quic_initial_salt
    rw [lookup_cons_ne _ _ _ _ h1, lookup_cons_ne _ _ _ _ h2, lookup_cons_ne _ _ _ _ h3,
      lookup_cons_ne _ _ _ _ h4, lookup_cons_ne _ _ _ _ h5, lookup_cons_ne _ _ _ _ h6,
      lookup_cons_ne _ _ _ _ h7, lookup_cons_ne _ _ _ _ h8, lookup_cons_ne _ _ _ _ h9,
      lookup_cons_ne _ _ _ _ h10, lookup_cons_ne _ _ _ _ h11, lookup_cons_ne _ _ _ _ h12,
      lookup_cons_ne _ _ _ _ h13, lookup_cons_ne _ _ _ _ h14]
    rw [if_neg (by omega), if_neg (by omega), if_neg (by omega), if_neg (by omega)]
    rfl
  all_goals
    subst h
    decide

theorem get_initial_salt_length (version : Nat) (salt : List uint8_t)
    (h : get_initial_salt version = some salt) : salt.length = 20 := by
  rw [get_initial_salt_eq] at h
  split at h
  · cases h; rfl
  · split at h
    · cases h; rfl
    · split at h
      · cases h; rfl
      · split at h
        · cases h; rfl
        · exact absurd h (by simp)

/-- C16: `get_initial_salt` maps `0xff000016` to the draft-22 salt,
`0xff000017..0xff00001c` to the draft-23..28 salt, `0xff00001d..0xff000020` to
the draft-29..32 salt, `0xff000021`, `0xff000022` and `0x00000001` to the
draft-33/version-1 salt, and every other version to null; each of the four
salts is 20 bytes long and begins and ends with the bytes the claim quotes. -/
theorem get_initial_salt_table (version : Nat) :
    get_initial_salt version =
      (if version = 0xff000016 then some salt_d22
       else if 0xff000017 ≤ version ∧ version ≤ 0xff00001c then some salt_d23_d28
       else if 0xff00001d ≤ version ∧ version ≤ 0xff000020 then some salt_d29_d32
       else if version = 0xff000021 ∨ version = 0xff000022 ∨ version = 0x00000001 then
         some salt_d33_v1
       else none) ∧
    (salt_d22.length = 20 ∧ salt_d22.take 4 = [0x7f, 0xbc, 0xdb, 0x0e] ∧
      salt_d22.drop 16 = [0x7a, 0x02, 0x64, 0x4a]) ∧
    (salt_d23_d28.length = 20 ∧ salt_d23_d28.take 4 = [0xc3, 0xee, 0xf7, 0x12] ∧
      salt_d23_d28.drop 16 = [0xbe, 0xf9, 0xf5, 0x02]) ∧
    (salt_d29_d32.length = 20 ∧ salt_d29_d32.take 4 = [0xaf, 0xbf, 0xec, 0x28] ∧
      salt_d29_d32.drop 16 = [0x43, 0x90, 0xa8, 0x99]) ∧
    (salt_d33_v1.length = 20 ∧ salt_d33_v1.take 4 = [0x38, 0x76, 0x2c, 0xf7] ∧
      salt_d33_v1.drop 16 = [0xcc, 0xbb, 0x7f, 0x0a]) :=
  ⟨get_initial_salt_eq version, by decide, by decide, by decide, by decide⟩

/-! ## quic.h: `kdf_tls13` -/

theorem read_range_of_le (a : List uint8_t) (n : Nat) :
    ∀ i, i + n ≤ a.length → read_range a i n = some ((a.drop i).take n) := by
  induction n with
  | zero => intro i _; simp [read_range]
  | succ n ih =>
    intro i h
    have hi : i < a.length := by omega
    have hd : a.drop i = a[i] :: a.drop (i + 1) := by
      rw [List.drop_eq_getElem_cons hi]
    simp only [read_range, ih (i + 1) (by omega), List.get?_eq_getElem?,
      List.getElem?_eq_getElem hi, hd, List.take_succ_cons]

theorem read_range_none (a : List uint8_t) (n : Nat) :
    ∀ i, 0 < n → a.length < i + n → read_range a i n = none := by
  induction n with
  | zero => intro i h; omega
  | succ n ih =>
    intro i _ h
    by_cases hi : i < a.length
    · have hn : 0 < n := by omega
      simp only [read_range, ih (i + 1) hn (by omega)]
      split <;> simp_all
    · have hget : a.get? i = none := List.get?_eq_none.mpr (by omega)
      simp only [read_range, hget]

theorem kdf_copy_enough (m : Nat) :
    ∀ (md A B : List uint8_t), m + 1 ≤ md.length → m + 1 ≤ B.length →
      kdf_copy (A.length + m + 1) md (A ++ B) A.length =
        .ok (A ++ md.take (m + 1) ++ B.drop (m + 1), A.length + m + 1, true) := by
  induction m with
  | zero =>
    intro md A B hmd hB
    match md, B, hmd, hB with
    | b :: bs, c :: B2, _, _ =>
      have hlt : A.length < (A ++ c :: B2).length := by simp
      simp only [kdf_copy, hlt, if_true, Nat.add_zero, Nat.le_refl]
      simp
  | succ m ih =>
    intro md A B hmd hB
    match md, B, hmd, hB with
    | b :: bs, c :: B2, hmd, hB =>
      have hlt : A.length < (A ++ c :: B2).length := by simp
      have hnot : ¬ A.length + (m + 1) + 1 ≤ A.length + 1 := by omega
      simp only [kdf_copy, hlt, if_true, hnot, if_false]
      have hset : (A ++ c :: B2).set A.length b = (A ++ [b]) ++ B2 := by simp
      rw [hset]
      have hl : A.length + 1 = (A ++ [b]).length := by simp
      have hL : A.length + (m + 1) + 1 = (A ++ [b]).length + m + 1 := by simp; omega
      rw [hl, hL, ih bs (A ++ [b]) B2 (by simpa using hmd) (by simpa using hB)]
      simp

theorem kdf_copy_short (length : Nat) (md : List uint8_t) :
    ∀ (out_ : List uint8_t) (k : Nat), k + md.length < length →
      kdf_copy length md out_ k = .error .out_of_bounds ∨
        ∃ out2, kdf_copy length md out_ k = .ok (out2, k + md.length, false) := by
  induction md with
  | nil => intro out_ k _; exact Or.inr ⟨out_, by simp [kdf_copy]⟩
  | cons b bs ih =>
    intro out_ k h
    simp only [List.length_cons] at h
    by_cases hk : k < out_.length
    · have hnot : ¬ length ≤ k + 1 := by omega
      simp only [kdf_copy, hk, if_true, hnot, if_false]
      rcases ih (out_.set k b) (k + 1) (by omega) with h1 | ⟨o, h1⟩
      · exact Or.inl h1
      · refine Or.inr ⟨o, ?_⟩
        rw [h1]
        simp only [List.length_cons]
        congr 3
        omega
    · simp only [kdf_copy, hk, if_false]
      exact Or.inl trivial

theorem kdf_new_label_length (label : List uint8_t) (length : uint8_t) :
    (kdf_new_label label length).length = label.length + 4 := by
  simp [kdf_new_label]

/-- One block is enough: for `1 ≤ length ≤ 32` and `*out_len == 0` on entry,
`kdf_tls13` performs a single HMAC over `new_label || 0x01`, writes its first
`length` bytes to the start of `out_` and sets `*out_len` to `length`. -/
theorem kdf_tls13_one_block (H : hmac_api) (secret label : List uint8_t) (length : uint8_t)
    (out_ : List uint8_t) (h1 : 1 ≤ length.val) (h32 : length.val ≤ 32)
    (hout : length.val ≤ out_.length) (hlabel : label.length + 5 ≤ 512) :
    kdf_tls13 H secret label length out_ 0 =
      .ok ((H.HMAC secret (kdf_new_label label length ++ [1])).take length.val ++
        out_.drop length.val, length.val) := by
  obtain ⟨m, hm⟩ : ∃ m, length.val = m + 1 := ⟨length.val - 1, by omega⟩
  have hr := read_range_of_le (kdf_new_label label length) (label.length + 4) 0
    (by rw [kdf_new_label_length]; omega)
  have hfull : ((kdf_new_label label length).drop 0).take (label.length + 4) =
      kdf_new_label label length := by
    rw [List.drop_zero, ← kdf_new_label_length label length, List.take_length]
  rw [hfull] at hr
  have hmd := H.md_len secret (kdf_new_label label length ++ [1])
  have hc := kdf_copy_enough m (H.HMAC secret (kdf_new_label label length ++ [1])) [] out_
    (by omega) (by omega)
  simp only [List.length_nil, Nat.zero_add, List.nil_append] at hc
  unfold kdf_tls13
  rw [hm]
  simp only [kdf_tls13_loop, Nat.zero_lt_succ, if_true, List.length_nil, Nat.zero_add]
  rw [if_neg (by omega), hr]
  simp only [List.nil_append]
  have hone : (Fin.ofNat ((0 + 1) % 256) : uint8_t) = 1 := by decide
  rw [hone, hc]

theorem kdf_tls13_zero (H : hmac_api) (secret label : List uint8_t) (length : uint8_t)
    (out_ : List uint8_t) (out_len : Nat) (h : length.val ≤ out_len) :
    kdf_tls13 H secret label length out_ out_len = .ok (out_, out_len) := by
  unfold kdf_tls13
  simp only [kdf_tls13_loop]
  rw [if_neg (by omega)]

/-- More than one block is never produced: for `length > 32` the second iteration
of the loop reads `new_label[i]` for `i = 32 .. 32 + label_len + 3`, beyond the
`4 + label_len` bytes of `new_label` (or an earlier array access is already out
of bounds). -/
theorem kdf_tls13_two_blocks (H : hmac_api) (secret label : List uint8_t) (length : uint8_t)
    (out_ : List uint8_t) (h : 32 < length.val) :
    kdf_tls13 H secret label length out_ 0 = .error .out_of_bounds := by
  obtain ⟨f, hf⟩ : ∃ f, length.val + 1 = f + 2 := ⟨length.val - 1, by omega⟩
  unfold kdf_tls13
  rw [hf]
  have hpos : 0 < length.val := by omega
  simp only [kdf_tls13_loop, hpos, if_true, List.length_nil, Nat.zero_add]
  by_cases hg : 512 < label.length + 5
  · rw [if_pos hg]
  rw [if_neg hg]
  have hr := read_range_of_le (kdf_new_label label length) (label.length + 4) 0
    (by rw [kdf_new_label_length]; omega)
  rw [hr]
  simp only []
  have hmd := H.md_len secret ([] ++ List.take (label.length + 4)
    (List.drop 0 (kdf_new_label label length)) ++ [Fin.ofNat ((0 + 1) % 256)])
  rcases kdf_copy_short length.val _ out_ 0 (by rw [hmd]; omega) with h1 | ⟨o, h1⟩
  · rw [h1]
  · rw [h1]
    simp only [hmd, Nat.zero_add]
    have h32 : 32 < length.val := h
    simp only [h32, if_true]
    by_cases hg2 : 512 < 32 + label.length + 5
    · rw [if_pos hg2]
    rw [if_neg hg2]
    rw [read_range_none (kdf_new_label label length) (label.length + 4) 32 (by omega)
      (by rw [kdf_new_label_length]; omega)]

/-! ## quic.h: the key schedule -/

theorem fin_ofNat_val (a : uint8_t) : (Fin.ofNat a.val : uint8_t) = a :=
  Fin.ext (Nat.mod_eq_of_lt a.isLt)

theorem kdf_new_label_eq (label : List uint8_t) (length : uint8_t) :
    kdf_new_label label length = hkdf_label_struct label length.val := by
  unfold kdf_new_label hkdf_label_struct
  rw [fin_ofNat_val]

theorem hkdf_expand_label_one_block (H : hmac_api) (secret label : List uint8_t) (L : Nat)
    (h1 : 1 ≤ L) (h32 : L ≤ 32) :
    hkdf_expand_label H secret label L =
      (H.HMAC secret (hkdf_label_struct label L ++ [1])).take L := by
  have hn : (L + 31) / 32 = 1 := by omega
  unfold hkdf_expand_label
  rw [hn]
  have hone : (Fin.ofNat 1 : uint8_t) = 1 := rfl
  simp [List.range_succ, hkdf_T, hone]

/-- For a requested length of 1 to 32 bytes `kdf_tls13` is HKDF-Expand-Label. -/
theorem kdf_tls13_eq_hkdf (H : hmac_api) (secret label : List uint8_t) (length : uint8_t)
    (out_ : List uint8_t) (h1 : 1 ≤ length.val) (h32 : length.val ≤ 32)
    (hout : length.val ≤ out_.length) (hlabel : label.length + 5 ≤ 512) :
    kdf_tls13 H secret label length out_ 0 =
      .ok (hkdf_expand_label H secret label length.val ++ out_.drop length.val,
        length.val) := by
  rw [kdf_tls13_one_block H secret label length out_ h1 h32 hout hlabel,
    hkdf_expand_label_one_block H secret label length.val h1 h32, kdf_new_label_eq]

theorem hkdf_expand_label_32 (H : hmac_api) (secret label : List uint8_t) :
    (hkdf_expand_label H secret label 32).length = 32 := by
  rw [hkdf_expand_label_one_block H secret label 32 (by omega) (by omega)]
  simp [H.md_len]

/-- The key derivation of the constructor yields the key material of the
specification, for a salt of 20 bytes. -/
theorem key_schedule_eq (H : hmac_api) (salt dcid : List uint8_t) (hs : salt.length = 20) :
    key_schedule H salt dcid = .ok (hkdf_key_material H salt dcid) := by
  have ht : salt.take 20 = salt := by rw [← hs, List.take_length]
  have h32 := hkdf_expand_label_32 H (H.HMAC salt dcid) client_in_label
  have hsec : (hkdf_expand_label H (H.HMAC salt dcid) client_in_label 32 ++
      List.drop 32 (List.replicate EVP_MAX_MD_SIZE 0)).take 32 =
      hkdf_expand_label H (H.HMAC salt dcid) client_in_label 32 := by
    rw [List.take_append_of_le_length (by omega)]
    exact List.take_of_length_le (by omega)
  unfold key_schedule
  rw [ht, kdf_tls13_eq_hkdf H _ client_in_label 32 _ (by decide) (by decide) (by decide)
    (by decide)]
  simp only []
  have e32 : ((32 : uint8_t)).val = 32 := rfl
  rw [e32, hsec,
    kdf_tls13_eq_hkdf H _ quic_key_label 16 _ (by decide) (by decide) (by decide) (by decide),
    kdf_tls13_eq_hkdf H _ quic_iv_label 12 _ (by decide) (by decide) (by decide) (by decide),
    kdf_tls13_eq_hkdf H _ quic_hp_label 16 _ (by decide) (by decide) (by decide) (by decide)]
  rfl

/-- The constructor on a valid packet whose version has a salt: the key material
is the one of the specification, the packet-number length and the nonce come
from the header-protection mask, and `valid` is set. -/
theorem crypto_new_of_valid (H : hmac_api)
    (AES_encrypt : List uint8_t → List uint8_t → List uint8_t) (mem : List uint8_t)
    (s e : Nat) (salt : List uint8_t)
    (hvalid : (quic_initial_packet.parse mem (some (s, e))).1.valid = true)
    (hsalt : get_initial_salt (load_u32 true (mem.getD (s + 1) 0) (mem.getD (s + 2) 0)
      (mem.getD (s + 3) 0) (mem.getD (s + 4) 0)) = some salt) :
    quic_initial_packet_crypto.new H AES_encrypt mem
        (quic_initial_packet.parse mem (some (s, e))).1 =
      .ok ⟨true,
        (hkdf_key_material H salt (read_bytes mem (s + 6) (wire_dcid_length mem s))).quic_key.1,
        16,
        unmask_iv
          (hkdf_key_material H salt (read_bytes mem (s + 6) (wire_dcid_length mem s))).quic_iv.1
          12
          (pn_length_of (mem.getD s 0)
            (header_protection_mask AES_encrypt
              (hkdf_key_material H salt
                (read_bytes mem (s + 6) (wire_dcid_length mem s))).quic_hp.1
              mem (parsed_length_offset mem s e + 2)))
          (header_protection_mask AES_encrypt
            (hkdf_key_material H salt
              (read_bytes mem (s + 6) (wire_dcid_length mem s))).quic_hp.1
            mem (parsed_length_offset mem s e + 2))
          mem (parsed_length_offset mem s e + 2),
        12,
        (hkdf_key_material H salt (read_bytes mem (s + 6) (wire_dcid_length mem s))).quic_hp.1,
        16,
        pn_length_of (mem.getD s 0)
          (header_protection_mask AES_encrypt
            (hkdf_key_material H salt
              (read_bytes mem (s + 6) (wire_dcid_length mem s))).quic_hp.1
            mem (parsed_length_offset mem s e + 2)),
        List.replicate 1024 0, 0⟩ := by
  obtain ⟨hci, hfit⟩ := parse_fits_of_valid mem s e hvalid
  rw [parse_of_fits mem s e hci hfit] at hvalid ⊢
  simp only [] at hvalid
  have hlen := get_initial_salt_length _ salt hsalt
  have hbytes : datum.bytes mem (some (s + 6, s + 6 + wire_dcid_length mem s)) =
      read_bytes mem (s + 6) (wire_dcid_length mem s) := by
    simp only [datum.bytes]
    congr 1
    omega
  unfold quic_initial_packet_crypto.new
  simp only [hvalid, Bool.true_eq_false, if_false]
  rw [show s + 1 + 1 = s + 2 by omega, show s + 1 + 2 = s + 3 by omega,
    show s + 1 + 3 = s + 4 by omega, hsalt]
  simp only [hbytes, key_schedule_eq H salt _ hlen]
  rfl

theorem hkdf_expand_label_length (H : hmac_api) (secret label : List uint8_t) (L : Nat)
    (h1 : 1 ≤ L) (h32 : L ≤ 32) : (hkdf_expand_label H secret label L).length = L := by
  rw [hkdf_expand_label_one_block H secret label L h1 h32]
  simp [H.md_len]
  omega

/-- C13: for every valid Initial packet whose version has a salt in the table,
the key schedule of the constructor computes
`initial_secret = HMAC(key = salt, data = dcid)`,
`client_initial_secret = HKDF-Expand-Label(initial_secret, "tls13 client in", 32)`,
`key = HKDF-Expand-Label(client_initial_secret, "tls13 quic key", 16)`,
`iv = HKDF-Expand-Label(client_initial_secret, "tls13 quic iv", 12)` and
`hp = HKDF-Expand-Label(client_initial_secret, "tls13 quic hp", 16)`; the labels
are 15, 14, 13 and 13 bytes long (no terminator) and the salt is 20 bytes long.
The constructor keeps `key` and `hp` with the lengths 16 and 16, and the length
12 of `iv`. -/
theorem key_schedule_is_hkdf_expand_label (H : hmac_api)
    (AES_encrypt : List uint8_t → List uint8_t → List uint8_t) (mem : List uint8_t)
    (s e : Nat) (salt : List uint8_t)
    (hvalid : (quic_initial_packet.parse mem (some (s, e))).1.valid = true)
    (hsalt : get_initial_salt (load_u32 true (mem.getD (s + 1) 0) (mem.getD (s + 2) 0)
      (mem.getD (s + 3) 0) (mem.getD (s + 4) 0)) = some salt) :
    salt.length = 20 ∧
    (client_in_label.length = 15 ∧ quic_key_label.length = 14 ∧ quic_iv_label.length = 13 ∧
      quic_hp_label.length = 13) ∧
    datum.bytes mem (quic_initial_packet.parse mem (some (s, e))).1.dcid =
      read_bytes mem (s + 6) (wire_dcid_length mem s) ∧
    key_schedule H salt (read_bytes mem (s + 6) (wire_dcid_length mem s)) =
      .ok (hkdf_key_material H salt (read_bytes mem (s + 6) (wire_dcid_length mem s))) ∧
    ∃ c, quic_initial_packet_crypto.new H AES_encrypt mem
        (quic_initial_packet.parse mem (some (s, e))).1 = .ok c ∧
      c.valid = true ∧
      (c.quic_key_len = 16 ∧ c.quic_key.take 16 =
        hkdf_expand_label H
          (hkdf_expand_label H
            (H.HMAC salt (read_bytes mem (s + 6) (wire_dcid_length mem s)))
            client_in_label 32)
          quic_key_label 16) ∧
      (c.quic_hp_len = 16 ∧ c.quic_hp.take 16 =
        hkdf_expand_label H
          (hkdf_expand_label H
            (H.HMAC salt (read_bytes mem (s + 6) (wire_dcid_length mem s)))
            client_in_label 32)
          quic_hp_label 16) ∧
      c.quic_iv_len = 12 := by
  have hlen := get_initial_salt_length _ salt hsalt
  obtain ⟨hci, hfit⟩ := parse_fits_of_valid mem s e hvalid
  refine ⟨hlen, by decide, ?_, key_schedule_eq H salt _ hlen, ?_⟩
  · rw [parse_of_fits mem s e hci hfit]
    simp only [datum.bytes]
    congr 1
    omega
  · refine ⟨_, crypto_new_of_valid H AES_encrypt mem s e salt hvalid hsalt, rfl, ?_, ?_, rfl⟩
    · refine ⟨rfl, ?_⟩
      simp only [hkdf_key_material]
      rw [List.take_append_of_le_length
        (by rw [hkdf_expand_label_length H _ _ 16 (by omega) (by omega)])]
      exact List.take_of_length_le
        (by rw [hkdf_expand_label_length H _ _ 16 (by omega) (by omega)])
    · refine ⟨rfl, ?_⟩
      simp only [hkdf_key_material]
      rw [List.take_append_of_le_length
        (by rw [hkdf_expand_label_length H _ _ 16 (by omega) (by omega)])]
      exact List.take_of_length_le
        (by rw [hkdf_expand_label_length H _ _ 16 (by omega) (by omega)])

set_option maxRecDepth 100000 in
theorem key_schedule_is_hkdf_expand_label_witness :
    ((quic_initial_packet.parse example_initial_32 (some (0, 50))).1.valid = true ∧
      get_initial_salt (load_u32 true (example_initial_32.getD (0 + 1) 0)
        (example_initial_32.getD (0 + 2) 0) (example_initial_32.getD (0 + 3) 0)
        (example_initial_32.getD (0 + 4) 0)) = some salt_d29_d32) ∧
    key_schedule hmac_sha256 salt_d29_d32
        (read_bytes example_initial_32 (0 + 6) (wire_dcid_length example_initial_32 0)) =
      .ok (hkdf_key_material hmac_sha256 salt_d29_d32
        (read_bytes example_initial_32 (0 + 6) (wire_dcid_length example_initial_32 0))) :=
  ⟨⟨by decide, by decide⟩,
    (key_schedule_is_hkdf_expand_label hmac_sha256 example_block_cipher example_initial_32
      0 50 salt_d29_d32 (by decide) (by decide)).2.2.2.1⟩

/-! ## quic.h: failure of the key derivation -/

/-- C17: for every packet whose header parse is invalid, and for every valid packet
whose version (the four version bytes read big-endian) has no entry in the salt
table, the constructor `quic_initial_packet_crypto` ends with `valid == false`
and the members as initialised (`quic_key_len`, `quic_iv_len`, `quic_hp_len` and
`pn_length` are 0), and `quic_init` calls neither `decrypt` nor `hello.parse`. -/
theorem crypto_invalid_or_unsupported (H : hmac_api)
    (AES_encrypt : List uint8_t → List uint8_t → List uint8_t) (E : evp_api)
    (mem : List uint8_t) (s e : Nat)
    (h : (quic_initial_packet.parse mem (some (s, e))).1.valid = false ∨
      ((quic_initial_packet.parse mem (some (s, e))).1.valid = true ∧
        get_initial_salt (load_u32 true (mem.getD (s + 1) 0) (mem.getD (s + 2) 0)
          (mem.getD (s + 3) 0) (mem.getD (s + 4) 0)) = none)) :
    quic_initial_packet_crypto.new H AES_encrypt mem
        (quic_initial_packet.parse mem (some (s, e))).1 =
      .ok quic_initial_packet_crypto.init ∧
    (quic_initial_packet_crypto.init.valid = false ∧
      quic_initial_packet_crypto.init.quic_key_len = 0 ∧
      quic_initial_packet_crypto.init.quic_iv_len = 0 ∧
      quic_initial_packet_crypto.init.quic_hp_len = 0 ∧
      quic_initial_packet_crypto.init.pn_length = 0) ∧
    quic_init.new H AES_encrypt E mem (some (s, e)) =
      .ok ⟨(quic_initial_packet.parse mem (some (s, e))).1,
        quic_initial_packet_crypto.init, none, none⟩ := by
  have hnew : quic_initial_packet_crypto.new H AES_encrypt mem
      (quic_initial_packet.parse mem (some (s, e))).1 =
      .ok quic_initial_packet_crypto.init := by
    rcases h with h | ⟨hvalid, hsalt⟩
    · unfold quic_initial_packet_crypto.new
      rw [if_pos h]
    · obtain ⟨hci, hfit⟩ := parse_fits_of_valid mem s e hvalid
      rw [parse_of_fits mem s e hci hfit] at hvalid ⊢
      simp only [] at hvalid
      unfold quic_initial_packet_crypto.new
      simp only [hvalid, Bool.true_eq_false, if_false]
      rw [show s + 1 + 1 = s + 2 by omega, show s + 1 + 2 = s + 3 by omega,
        show s + 1 + 3 = s + 4 by omega, hsalt]
  refine ⟨hnew, ⟨rfl, rfl, rfl, rfl, rfl⟩, ?_⟩
  unfold quic_init.new
  rw [hnew]
  rfl

theorem crypto_invalid_or_unsupported_witness :
    ((quic_initial_packet.parse example_initial_31 (some (0, 49))).1.valid = false ∧
      (quic_initial_packet.parse example_initial_unsupported (some (0, 50))).1.valid = true ∧
      get_initial_salt (load_u32 true (example_initial_unsupported.getD (0 + 1) 0)
        (example_initial_unsupported.getD (0 + 2) 0)
        (example_initial_unsupported.getD (0 + 3) 0)
        (example_initial_unsupported.getD (0 + 4) 0)) = none) ∧
    quic_initial_packet_crypto.new hmac_sha256 example_block_cipher example_initial_31
        (quic_initial_packet.parse example_initial_31 (some (0, 49))).1 =
      .ok quic_initial_packet_crypto.init ∧
    quic_initial_packet_crypto.new hmac_sha256 example_block_cipher
        example_initial_unsupported
        (quic_initial_packet.parse example_initial_unsupported (some (0, 50))).1 =
      .ok quic_initial_packet_crypto.init :=
  ⟨⟨by decide, by decide, by decide⟩,
    (crypto_invalid_or_unsupported hmac_sha256 example_block_cipher example_evp
      example_initial_31 0 49 (Or.inl (by decide))).1,
    (crypto_invalid_or_unsupported hmac_sha256 example_block_cipher example_evp
      example_initial_unsupported 0 50 (Or.inr ⟨by decide, by decide⟩)).1⟩

/-! ## quic.h: header protection -/

theorem header_protection_mask_zero (AES_encrypt : List uint8_t → List uint8_t → List uint8_t)
    (quic_hp mem : List uint8_t) (data : Nat) :
    (header_protection_mask AES_encrypt quic_hp mem data).getD 0 0 =
      (AES_encrypt (quic_hp.take 16) (read_bytes mem (data + 4) 16)).getD 0 0 := by
  unfold header_protection_mask
  cases AES_encrypt (quic_hp.take 16) (read_bytes mem (data + 4) 16) with
  | nil => rfl
  | cons x xs => rfl

theorem pn_length_of_range (ci : uint8_t) (mask : List uint8_t) :
    1 ≤ pn_length_of ci mask ∧ pn_length_of ci mask ≤ 4 := by
  unfold pn_length_of
  have h : (ci.val ^^^ ((mask.getD 0 0).val &&& 0x0f)) &&& 0x03 ≤ 3 := Nat.and_le_right
  omega

/-- C18: for every valid packet with a supported version, the constructor sets
`pn_length = ((connection_info XOR (mask[0] & 0x0f)) & 0x03) + 1`, where `mask[0]`
is the first byte of the AES encryption, under the first 16 bytes of `quic_hp`,
of the 16 payload bytes at offsets 4..19; and for every `connection_info` byte
and every mask this value is in `1..4`. -/
theorem pn_length_formula (H : hmac_api)
    (AES_encrypt : List uint8_t → List uint8_t → List uint8_t) (mem : List uint8_t)
    (s e : Nat) (salt : List uint8_t)
    (hvalid : (quic_initial_packet.parse mem (some (s, e))).1.valid = true)
    (hsalt : get_initial_salt (load_u32 true (mem.getD (s + 1) 0) (mem.getD (s + 2) 0)
      (mem.getD (s + 3) 0) (mem.getD (s + 4) 0)) = some salt) :
    (∀ (ci : uint8_t) (mask : List uint8_t),
      pn_length_of ci mask = ((ci.val ^^^ ((mask.getD 0 0).val &&& 0x0f)) &&& 0x03) + 1 ∧
      1 ≤ pn_length_of ci mask ∧ pn_length_of ci mask ≤ 4) ∧
    ∃ c data data_end,
      quic_initial_packet_crypto.new H AES_encrypt mem
        (quic_initial_packet.parse mem (some (s, e))).1 = .ok c ∧
      (quic_initial_packet.parse mem (some (s, e))).1.data = some (data, data_end) ∧
      c.quic_hp_len = 16 ∧
      c.pn_length =
        (((quic_initial_packet.parse mem (some (s, e))).1.connection_info.val ^^^
          (((AES_encrypt (c.quic_hp.take 16) (read_bytes mem (data + 4) 16)).getD 0 0).val &&&
            0x0f)) &&& 0x03) + 1 ∧
      1 ≤ c.pn_length ∧ c.pn_length ≤ 4 := by
  refine ⟨fun ci mask => ⟨rfl, pn_length_of_range ci mask⟩, ?_⟩
  obtain ⟨hci, hfit⟩ := parse_fits_of_valid mem s e hvalid
  refine ⟨_, parsed_length_offset mem s e + 2,
    parsed_length_offset mem s e + 2 + parsed_payload_length mem s e,
    crypto_new_of_valid H AES_encrypt mem s e salt hvalid hsalt, ?_, rfl, ?_, ?_⟩
  · rw [parse_of_fits mem s e hci hfit]
  · rw [parse_of_fits mem s e hci hfit]
    simp only [pn_length_of, header_protection_mask_zero]
  · exact pn_length_of_range _ _

set_option maxRecDepth 100000 in
theorem pn_length_formula_witness :
    ((quic_initial_packet.parse example_initial_32 (some (0, 50))).1.valid = true ∧
      get_initial_salt (load_u32 true (example_initial_32.getD (0 + 1) 0)
        (example_initial_32.getD (0 + 2) 0) (example_initial_32.getD (0 + 3) 0)
        (example_initial_32.getD (0 + 4) 0)) = some salt_d29_d32) ∧
    pn_length_of 0xc3 [0x5e] = 2 ∧
    (1 ≤ pn_length_of 0xc3 [0x5e] ∧ pn_length_of 0xc3 [0x5e] ≤ 4) :=
  ⟨⟨by decide, by decide⟩,
    ((pn_length_formula hmac_sha256 example_block_cipher example_initial_32 0 50 salt_d29_d32
      (by decide) (by decide)).1 0xc3 [0x5e]).1.trans (by decide),
    ((pn_length_formula hmac_sha256 example_block_cipher example_initial_32 0 50 salt_d29_d32
      (by decide) (by decide)).1 0xc3 [0x5e]).2⟩

theorem getD_set_eq (l : List uint8_t) (i : Nat) (a : uint8_t) (h : i < l.length) :
    (l.set i a).getD i 0 = a := by
  simp [List.getD_eq_getElem?_getD, List.getElem?_set, h]

theorem getD_set_ne (l : List uint8_t) (i j : Nat) (a : uint8_t) (h : i ≠ j) :
    (l.set i a).getD j 0 = l.getD j 0 := by
  simp [List.getD_eq_getElem?_getD, List.getElem?_set, h]

/-- The effect of the unmasking loop on each byte of `quic_iv`. -/
theorem unmask_iv_loop_getD (base : Nat) (buf mem : List uint8_t) (data : Nat) (n : Nat) :
    ∀ (i : Nat) (quic_iv : List uint8_t), i + n ≤ quic_iv.length →
      (unmask_iv_loop base buf mem data n i quic_iv).length = quic_iv.length ∧
      ∀ j, (unmask_iv_loop base buf mem data n i quic_iv).getD j 0 =
        if i ≤ j ∧ j < i + n then
          quic_iv.getD j 0 ^^^ (buf.getD (j - base + 1) 0 ^^^ mem.getD (data + (j - base)) 0)
        else quic_iv.getD j 0 := by
  induction n with
  | zero =>
    intro i quic_iv _
    refine ⟨rfl, fun j => ?_⟩
    rw [if_neg (by omega)]
    rfl
  | succ n ih =>
    intro i quic_iv h
    simp only [unmask_iv_loop]
    have hlen : (quic_iv.set i (quic_iv.getD i 0 ^^^
        (buf.getD (i - base + 1) 0 ^^^ mem.getD (data + (i - base)) 0))).length =
        quic_iv.length := by simp
    obtain ⟨h1, h2⟩ := ih (i + 1) _ (by rw [hlen]; omega)
    refine ⟨by rw [h1, hlen], fun j => ?_⟩
    rw [h2 j]
    by_cases hj : j = i
    · subst hj
      rw [if_neg (by omega), if_pos (by omega), getD_set_eq _ _ _ (by omega)]
    · rw [getD_set_ne _ _ _ _ (fun h => hj h.symm)]
      by_cases hr : i + 1 ≤ j ∧ j < i + 1 + n
      · rw [if_pos hr, if_pos (by omega)]
      · rw [if_neg hr, if_neg (by omega)]

theorem uint8_xor_val (a b : uint8_t) : (a ^^^ b).val = a.val ^^^ b.val := by
  obtain ⟨x, hx⟩ := a
  obtain ⟨y, hy⟩ := b
  have h : x ^^^ y < 256 := Nat.xor_lt_two_pow (n := 8) hx hy
  show (x ^^^ y) % 256 = x ^^^ y
  exact Nat.mod_eq_of_lt h

theorem uint8_xor_assoc (a b c : uint8_t) : a ^^^ (b ^^^ c) = a ^^^ b ^^^ c := by
  apply Fin.ext
  rw [uint8_xor_val, uint8_xor_val, uint8_xor_val, uint8_xor_val, Nat.xor_assoc]

/-- C19: for every base iv held in an array of at least 12 bytes, every mask `buf`,
payload (at offset `data` of `mem`) and `pn_length` in `1..4`, the unmasking loop
with `quic_iv_len = 12` leaves `nonce[j] = iv[j]` for every `j < 12 - pn_length`
(and for `j ≥ 12`), and sets
`nonce[12 - pn_length + k] = iv[12 - pn_length + k] XOR buf[1 + k] XOR payload[k]`
for every `k` in `0..pn_length-1`. -/
theorem unmask_iv_nonce (quic_iv buf mem : List uint8_t) (data pn_length : Nat)
    (h1 : 1 ≤ pn_length) (h4 : pn_length ≤ 4) (hlen : 12 ≤ quic_iv.length) :
    (unmask_iv quic_iv 12 pn_length buf mem data).length = quic_iv.length ∧
    (∀ j, j < 12 - pn_length →
      (unmask_iv quic_iv 12 pn_length buf mem data).getD j 0 = quic_iv.getD j 0) ∧
    (∀ j, 12 ≤ j →
      (unmask_iv quic_iv 12 pn_length buf mem data).getD j 0 = quic_iv.getD j 0) ∧
    (∀ k, k < pn_length →
      (unmask_iv quic_iv 12 pn_length buf mem data).getD (12 - pn_length + k) 0 =
        quic_iv.getD (12 - pn_length + k) 0 ^^^ buf.getD (1 + k) 0 ^^^
          mem.getD (data + k) 0) := by
  have hn : 12 - (12 - pn_length) = pn_length := by omega
  obtain ⟨hl, hg⟩ := unmask_iv_loop_getD (12 - pn_length) buf mem data pn_length
    (12 - pn_length) quic_iv (by omega)
  unfold unmask_iv
  rw [hn]
  refine ⟨hl, fun j hj => ?_, fun j hj => ?_, fun k hk => ?_⟩
  · rw [hg j, if_neg (by omega)]
  · rw [hg j, if_neg (by omega)]
  · rw [hg (12 - pn_length + k), if_pos (by omega), ← uint8_xor_assoc,
      show 12 - pn_length + k - (12 - pn_length) = k by omega, Nat.add_comm k 1]

theorem unmask_iv_nonce_witness :
    (1 ≤ 2 ∧ 2 ≤ 4 ∧ 12 ≤ ([1, 2, 3, 4, 5, 6, 7, 8, 9, 10, 11, 12] : List uint8_t).length) ∧
    unmask_iv [1, 2, 3, 4, 5, 6, 7, 8, 9, 10, 11, 12] 12 2 [0xff, 0x10, 0x20, 0x30]
        [0xaa, 0x01, 0x02] 1 =
      [1, 2, 3, 4, 5, 6, 7, 8, 9, 10, 11 ^^^ 0x10 ^^^ 0x01, 12 ^^^ 0x20 ^^^ 0x02] ∧
    (unmask_iv [1, 2, 3, 4, 5, 6, 7, 8, 9, 10, 11, 12] 12 2 [0xff, 0x10, 0x20, 0x30]
        [0xaa, 0x01, 0x02] 1).getD (12 - 2 + 1) 0 =
      ([1, 2, 3, 4, 5, 6, 7, 8, 9, 10, 11, 12] : List uint8_t).getD (12 - 2 + 1) 0 ^^^
        ([0xff, 0x10, 0x20, 0x30] : List uint8_t).getD (1 + 1) 0 ^^^
        ([0xaa, 0x01, 0x02] : List uint8_t).getD (1 + 1) 0 :=
  ⟨⟨by decide, by decide, by decide⟩, by decide,
    (unmask_iv_nonce [1, 2, 3, 4, 5, 6, 7, 8, 9, 10, 11, 12] [0xff, 0x10, 0x20, 0x30]
      [0xaa, 0x01, 0x02] 1 2 (by decide) (by decide) (by decide)).2.2.2 1 (by decide)⟩

/-! ## quic.h: `decrypt` -/

theorem read_bytes_length (mem : List uint8_t) (off len : Nat) :
    (read_bytes mem off len).length = len := by
  simp [read_bytes]

/-- The plaintext array keeps its size through `gcm_decrypt` when the ciphertext
is not longer than the array: no byte is written outside it. -/
theorem gcm_decrypt_in_bounds (E : evp_api) (ciphertext key iv plaintext : List uint8_t)
    (h : ciphertext.length ≤ plaintext.length) :
    ∃ r, gcm_decrypt E ciphertext key iv plaintext = .ok r ∧
      r.2.length = plaintext.length := by
  unfold gcm_decrypt
  by_cases h1 : E.ctx_new = false
  · rw [if_pos h1]; exact ⟨_, rfl, rfl⟩
  rw [if_neg h1]
  by_cases h2 : E.init_cipher = false
  · rw [if_pos h2]; exact ⟨_, rfl, rfl⟩
  rw [if_neg h2]
  by_cases h3 : E.init_key_iv key iv = false
  · rw [if_pos h3]; exact ⟨_, rfl, rfl⟩
  rw [if_neg h3]
  cases hu : E.update key iv ciphertext with
  | none => exact ⟨_, rfl, rfl⟩
  | some p =>
    have hp := E.update_len key iv ciphertext p hu
    simp only []
    rw [if_neg (by omega)]
    refine ⟨_, rfl, ?_⟩
    simp only [List.length_append, List.length_drop]
    omega

/-- C20: for every payload of length `n` with `32 ≤ n` (and `n` an `unsigned int`),
at offset `data` of `mem`, and every `pn_length` in `1..4`: the subtraction
`length - pn_length` does not wrap, `decrypt` hands `gcm_decrypt` the ciphertext
that starts at payload offset `pn_length` and has length `min(n - pn_length, 1024)`,
with `quic_key` as key and `quic_iv` as nonce; this length is at most 1024, so the
update step writes at most 1024 bytes and `decrypt` completes with the 1024-byte
plaintext array intact in size, whatever the OpenSSL calls return. -/
theorem decrypt_gcm_arguments (c : quic_initial_packet_crypto) (data n : Nat)
    (h1 : 1 ≤ c.pn_length) (h4 : c.pn_length ≤ 4) (hn : 32 ≤ n) (hn32 : n < 2 ^ 32)
    (hpt : c.plaintext.length = 1024) :
    (n + 2 ^ 32 - c.pn_length) % 2 ^ 32 = n - c.pn_length ∧
    c.gcm_arguments data n =
      (data + c.pn_length, min (n - c.pn_length) 1024, c.quic_key, c.quic_iv) ∧
    min (n - c.pn_length) 1024 ≤ 1024 ∧
    ∀ (E : evp_api) (mem : List uint8_t),
      (∀ p, E.update c.quic_key c.quic_iv
          (read_bytes mem (data + c.pn_length) (min (n - c.pn_length) 1024)) = some p →
        p.length ≤ 1024) ∧
      (∃ r, gcm_decrypt E (read_bytes mem (data + c.pn_length) (min (n - c.pn_length) 1024))
          c.quic_key c.quic_iv c.plaintext = .ok r ∧ r.2.length = 1024) ∧
      ∃ c2, c.decrypt E mem data n = .ok c2 ∧ c2.plaintext.length = 1024 := by
  have hsub : (n + 2 ^ 32 - c.pn_length) % 2 ^ 32 = n - c.pn_length := by omega
  have hcl : c.cipher_len n = min (n - c.pn_length) 1024 := by
    unfold quic_initial_packet_crypto.cipher_len
    rw [hsub]
    by_cases hlt : n - c.pn_length < 1024
    · rw [if_pos hlt, Nat.min_eq_left (by omega)]
      omega
    · rw [if_neg hlt, Nat.min_eq_right (by omega)]
      rfl
  have hargs : c.gcm_arguments data n =
      (data + c.pn_length, min (n - c.pn_length) 1024, c.quic_key, c.quic_iv) := by
    unfold quic_initial_packet_crypto.gcm_arguments
    rw [hcl]
  refine ⟨hsub, hargs, Nat.min_le_right _ _, fun E mem => ?_⟩
  have hct : (read_bytes mem (data + c.pn_length) (min (n - c.pn_length) 1024)).length ≤
      c.plaintext.length := by
    rw [read_bytes_length, hpt]
    exact Nat.min_le_right _ _
  obtain ⟨r, hr, hrl⟩ := gcm_decrypt_in_bounds E _ c.quic_key c.quic_iv c.plaintext hct
  refine ⟨fun p hp => ?_, ⟨r, hr, by rw [hrl, hpt]⟩, ?_⟩
  · rw [E.update_len _ _ _ p hp, read_bytes_length]
    exact Nat.min_le_right _ _
  · unfold quic_initial_packet_crypto.decrypt
    rw [hargs]
    simp only [hr]
    split
    · exact ⟨_, rfl, by rw [hrl, hpt]⟩
    · split
      · exact ⟨_, rfl, by rw [hrl, hpt]⟩
      · exact ⟨_, rfl, by rw [hrl, hpt]⟩

theorem decrypt_gcm_arguments_witness :
    (1 ≤ example_crypto.pn_length ∧ example_crypto.pn_length ≤ 4 ∧ 32 ≤ 32 ∧
      32 < 2 ^ 32 ∧ example_crypto.plaintext.length = 1024) ∧
    example_crypto.gcm_arguments 18 32 =
      (20, 30, example_crypto.quic_key, example_crypto.quic_iv) :=
  ⟨⟨by decide, by decide, by decide, by decide, List.length_replicate _ _⟩,
    (decrypt_gcm_arguments example_crypto 18 32 (by decide) (by decide) (by decide)
      (by decide) (List.length_replicate _ _)).2.1⟩

/-! ## quic.h: `kdf_tls13` beyond one block, and the golden vector -/

theorem flatMap_length_32 (f : Nat → List uint8_t) (hf : ∀ i, (f i).length = 32)
    (l : List Nat) : (l.flatMap f).length = 32 * l.length := by
  induction l with
  | nil => rfl
  | cons x xs ih =>
    simp only [List.flatMap_cons, List.length_append, List.length_cons, hf, ih]
    omega

/-- The specification's HKDF-Expand-Label yields `L` bytes for every `L`. -/
theorem hkdf_expand_label_length_any (H : hmac_api) (secret label : List uint8_t) (L : Nat) :
    (hkdf_expand_label H secret label L).length = L := by
  unfold hkdf_expand_label
  rw [List.length_take, flatMap_length_32 _ (fun i => by simp [hkdf_T, H.md_len]),
    List.length_range]
  omega

/-- C14: for every secret, label and requested length `L > 32` (with `*out_len`
initially 0), `kdf_tls13` does not produce the first `L` bytes of
`T(1) || T(2) || ...`: in its second iteration the loop reads `new_label[i]`
for `i = 32 .. 32 + label_len + 3`, outside the `4 + label_len` bytes of
`new_label`, which is undefined behaviour; the specification's
HKDF-Expand-Label has `L` bytes of output for these lengths. -/
theorem kdf_tls13_not_generic (H : hmac_api) (secret label : List uint8_t) (length : uint8_t)
    (out_ : List uint8_t) (h : 32 < length.val) :
    kdf_tls13 H secret label length out_ 0 = .error .out_of_bounds ∧
      (hkdf_expand_label H secret label length.val).length = length.val :=
  ⟨kdf_tls13_two_blocks H secret label length out_ h,
    hkdf_expand_label_length_any H secret label length.val⟩

theorem kdf_tls13_not_generic_witness :
    (32 < ((33 : uint8_t)).val) ∧
    kdf_tls13 hmac_sha256 example_dcid quic_key_label 33 (List.replicate 64 0) 0 =
      .error .out_of_bounds :=
  ⟨by decide,
    (kdf_tls13_not_generic hmac_sha256 example_dcid quic_key_label 33 (List.replicate 64 0)
      (by decide)).1⟩

set_option maxRecDepth 100000 in
/-- C15: golden vector of draft-ietf-quic-tls-29, Appendix A: version `ff00001d`
selects the draft-29 salt, and with HMAC-SHA256 the key schedule of the
constructor derives, from that salt and the destination connection ID
`83 94 c8 f0 3e 51 57 08`, `key = 175257a31eb09dea9366d8bb79ad80ba`,
`iv = 6b26114b9cba2b63a9e8dd4f` and `hp = 9ddd12c994c0698b89374a9c077a3077`
(each at the start of its zeroed array, with the lengths 16, 12 and 16). -/
theorem key_schedule_draft29_vector :
    get_initial_salt (load_u32 true 0xff 0x00 0x00 0x1d) = some salt_d29_d32 ∧
    key_schedule hmac_sha256 salt_d29_d32 example_dcid =
      .ok ⟨([0x17, 0x52, 0x57, 0xa3, 0x1e, 0xb0, 0x9d, 0xea, 0x93, 0x66, 0xd8, 0xbb, 0x79,
              0xad, 0x80, 0xba] ++ List.replicate 48 0, 16),
           ([0x6b, 0x26, 0x11, 0x4b, 0x9c, 0xba, 0x2b, 0x63, 0xa9, 0xe8, 0xdd, 0x4f] ++
              List.replicate 52 0, 12),
           ([0x9d, 0xdd, 0x12, 0xc9, 0x94, 0xc0, 0x69, 0x8b, 0x89, 0x37, 0x4a, 0x9c, 0x07,
              0x7a, 0x30, 0x77] ++ List.replicate 48 0, 16)⟩ := by
  decide!

/-! ## The library primitive HMAC-SHA256: known answers -/

set_option maxRecDepth 100000 in
/-- The model of SHA-256 reproduces the constants and the one-block test vector
of FIPS 180-4: 64 round constants, the first `428a2f98` and the last `c67178f2`,
the initial hash value, and the digest of `abc`. -/
theorem sha256_known_answers :
    sha256_K.length = 64 ∧ sha256_K.head? = some 0x428a2f98 ∧
    sha256_K.getLast? = some 0xc67178f2 ∧
    (sha256_H0.a = 0x6a09e667 ∧ sha256_H0.h = 0x5be0cd19) ∧
    sha256 [0x61, 0x62, 0x63] =
      [0xba, 0x78, 0x16, 0xbf, 0x8f, 0x01, 0xcf, 0xea, 0x41, 0x41, 0x40, 0xde, 0x5d, 0xae,
       0x22, 0x23, 0xb0, 0x03, 0x61, 0xa3, 0x96, 0x17, 0x7a, 0x9c, 0xb4, 0x10, 0xff, 0x61,
       0xf2, 0x00, 0x15, 0xad] := by
  decide!

/-! ## quic.h: the outcome of `decrypt` and `quic_init` -/

/-- When the context creation, both initialisations and the update step succeed,
`gcm_decrypt` returns the sum of the two values of `len`, whatever the result of
the final step is. -/
theorem gcm_decrypt_of_update (E : evp_api) (ciphertext key iv plaintext p : List uint8_t)
    (h1 : E.ctx_new = true) (h2 : E.init_cipher = true) (h3 : E.init_key_iv key iv = true)
    (hu : E.update key iv ciphertext = some p) (hp : p.length ≤ plaintext.length) :
    gcm_decrypt E ciphertext key iv plaintext =
      .ok ((p.length : Int) + ((E.final key iv ciphertext p.length).2 : Int),
        p ++ plaintext.drop p.length) := by
  unfold gcm_decrypt
  rw [if_neg (by simp [h1]), if_neg (by simp [h2]), if_neg (by simp [h3]), hu]
  simp only []
  rw [if_neg (by omega)]

set_option maxRecDepth 100000 in
/-- C21: with OpenSSL calls of which only the final step fails (its result is 0,
the tag is not verified) and an update step that yields a plaintext with bytes
4, 8, 9 equal to `01`, `03`, `03`, `gcm_decrypt` returns 30, not -1, and `decrypt`
leaves `valid == true`: the result of `EVP_DecryptFinal_ex` is not looked at. -/
theorem gcm_decrypt_ignores_final :
    (example_evp_final_fails.final example_crypto.quic_key example_crypto.quic_iv
      example_ciphertext 30).1 = false ∧
    gcm_decrypt example_evp_final_fails example_ciphertext example_crypto.quic_key
        example_crypto.quic_iv example_crypto.plaintext =
      .ok (30, example_ciphertext ++ List.replicate 994 0) ∧
    example_crypto.valid = true ∧
    (example_crypto.decrypt example_evp_final_fails ([0x00, 0x00] ++ example_ciphertext)
        0 32).map (fun c => (c.valid, c.plaintext_len)) = .ok (true, 30) := by
  decide!

/-- C22: for every call of `decrypt` (in which the `int` that `gcm_decrypt` returns
fits the `int16_t` member `plaintext_len`): if `gcm_decrypt` returns -1, `valid`
becomes false regardless of the plaintext bytes; otherwise `valid` is true
afterwards exactly when it was true before and `plaintext[4] == 0x01`,
`plaintext[8] == 0x03` and `plaintext[9] == 0x03`. -/
theorem decrypt_valid_iff_sanity (E : evp_api) (mem : List uint8_t)
    (c : quic_initial_packet_crypto) (data length : Nat) (r : Int × List uint8_t)
    (hg : gcm_decrypt E
      (read_bytes mem (c.gcm_arguments data length).1 (c.gcm_arguments data length).2.1)
      (c.gcm_arguments data length).2.2.1 (c.gcm_arguments data length).2.2.2
      c.plaintext = .ok r)
    (hfit : -2 ^ 15 ≤ r.1 ∧ r.1 < 2 ^ 15) :
    ∃ c2, c.decrypt E mem data length = .ok c2 ∧ c2.plaintext = r.2 ∧
      c2.plaintext_len = r.1 ∧
      (r.1 = -1 → c2.valid = false) ∧
      (r.1 ≠ -1 → (c2.valid = true ↔
        (c.valid = true ∧ r.2.getD 4 0 = 0x01 ∧ r.2.getD 8 0 = 0x03 ∧
          r.2.getD 9 0 = 0x03))) := by
  have hi : int16_of_int r.1 = r.1 := by
    unfold int16_of_int
    omega
  unfold quic_initial_packet_crypto.decrypt
  rw [hg]
  simp only [hi]
  by_cases hm : r.1 = -1
  · rw [if_pos hm]
    exact ⟨_, rfl, rfl, rfl, fun _ => rfl, fun h => absurd hm h⟩
  · rw [if_neg hm]
    by_cases hs : r.2.getD 4 0 ≠ 0x01 ∨ r.2.getD 8 0 ≠ 0x03 ∨ r.2.getD 9 0 ≠ 0x03
    · rw [if_pos hs]
      refine ⟨_, rfl, rfl, rfl, fun h => absurd h hm, fun _ => ?_⟩
      constructor
      · intro h
        exact absurd h (by simp)
      · intro h
        rcases hs with hs | hs | hs
        · exact absurd h.2.1 hs
        · exact absurd h.2.2.1 hs
        · exact absurd h.2.2.2 hs
    · rw [if_neg hs]
      refine ⟨_, rfl, rfl, rfl, fun h => absurd h hm, fun _ => ?_⟩
      have h4 : r.2.getD 4 0 = 0x01 := by
        by_contra hx
        exact hs (Or.inl hx)
      have h8 : r.2.getD 8 0 = 0x03 := by
        by_contra hx
        exact hs (Or.inr (Or.inl hx))
      have h9 : r.2.getD 9 0 = 0x03 := by
        by_contra hx
        exact hs (Or.inr (Or.inr hx))
      constructor
      · intro h
        exact ⟨h, h4, h8, h9⟩
      · intro h
        exact h.1

set_option maxRecDepth 100000 in
theorem decrypt_valid_iff_sanity_witness :
    (gcm_decrypt example_evp
        (read_bytes ([0x00, 0x00] ++ example_ciphertext)
          (example_crypto.gcm_arguments 0 32).1 (example_crypto.gcm_arguments 0 32).2.1)
        (example_crypto.gcm_arguments 0 32).2.2.1 (example_crypto.gcm_arguments 0 32).2.2.2
        example_crypto.plaintext = .ok (30, example_ciphertext ++ List.replicate 994 0) ∧
      ((-2 ^ 15 : Int) ≤ 30 ∧ (30 : Int) < 2 ^ 15)) ∧
    ∃ c2, example_crypto.decrypt example_evp ([0x00, 0x00] ++ example_ciphertext) 0 32 =
        .ok c2 ∧ c2.valid = true :=
  have hg : gcm_decrypt example_evp
      (read_bytes ([0x00, 0x00] ++ example_ciphertext)
        (example_crypto.gcm_arguments 0 32).1 (example_crypto.gcm_arguments 0 32).2.1)
      (example_crypto.gcm_arguments 0 32).2.2.1 (example_crypto.gcm_arguments 0 32).2.2.2
      example_crypto.plaintext = .ok (30, example_ciphertext ++ List.replicate 994 0) := by
    decide!
  have hfit : ((-2 ^ 15 : Int) ≤ 30 ∧ (30 : Int) < 2 ^ 15) := by decide
  ⟨⟨hg, hfit⟩,
    match decrypt_valid_iff_sanity example_evp ([0x00, 0x00] ++ example_ciphertext)
      example_crypto 0 32 (30, example_ciphertext ++ List.replicate 994 0) hg hfit with
    | ⟨c2, h1, _, _, _, h5⟩ =>
      ⟨c2, h1, (h5 (by decide)).2 ⟨rfl, by decide, by decide, by decide⟩⟩⟩

set_option maxRecDepth 100000 in
/-- C24: on the packet `example_initial_32` (valid header, supported version
`ff00001d`), with OpenSSL calls that all succeed and an update step that yields
the bytes `aa ..`, `decrypt` ends with `valid == false` (`plaintext[4] != 0x01`),
and the constructor `quic_init` still calls `get_plaintext` and `hello.parse`:
the parser receives the view `{plaintext+8, plaintext+31}`. -/
theorem quic_init_parses_after_failed_decrypt :
    (quic_init.new hmac_sha256 example_block_cipher example_evp example_initial_32
        (some (0, 50))).map
      (fun q => (q.quic_pkt_crypto.valid, q.decrypt_call, q.hello)) =
    .ok (false, some (18, 32), some (8, 31)) ∧
    (quic_initial_packet.parse example_initial_32 (some (0, 50))).1.valid = true := by
  decide!

set_option maxRecDepth 100000 in
/-- C25: on the packet `example_initial_32`, with an update step of OpenSSL that
fails, `gcm_decrypt` returns -1, `plaintext_len` is -1, and the constructor
`quic_init` calls `get_plaintext`, which returns the view
`{plaintext+8, plaintext-1}`: its end lies before its start, which lies before
the array. -/
theorem get_plaintext_after_failed_gcm :
    (quic_init.new hmac_sha256 example_block_cipher example_evp_update_fails
        example_initial_32 (some (0, 50))).map
      (fun q => (q.quic_pkt_crypto.plaintext_len, q.quic_pkt_crypto.get_plaintext,
        q.hello, decide (q.quic_pkt_crypto.get_plaintext.1 ≤ q.quic_pkt_crypto.get_plaintext.2))) =
    .ok (-1, (8, -1), some (8, -1), false) := by
  decide!

/-! ## proto_identify.h: the constructor of `traffic_selector` -/

/-- The constructor throws when `set_config` returns false. -/
theorem traffic_selector_new_error (M : protocol_matchers)
    (set_config : protocol_map → List uint8_t → Bool × protocol_map)
    (config_string : Option (List uint8_t))
    (h : set_config_result set_config config_string = false) :
    traffic_selector.new M set_config config_string = .error .runtime_error := by
  unfold set_config_result at h
  cases config_string with
  | none =>
    simp only [Option.getD_none] at h
    simp only [traffic_selector.new, h, if_true]
  | some s =>
    simp only [Option.getD_some] at h
    simp only [traffic_selector.new, h, if_true]

/-- What the constructor builds from a string that `set_config` accepts. -/
theorem traffic_selector_new_some (M : protocol_matchers)
    (set_config : protocol_map → List uint8_t → Bool × protocol_map)
    (s : List uint8_t)
    (h : (set_config (fun _ => false) s).1 = true) :
    ∃ sel, traffic_selector.new M set_config (some s) = .ok sel ∧
      sel.tcp.short_matchers =
        (if effective_protocols set_config (some s) .tls = true ∨
            effective_protocols set_config (some s) .all = true then
          [⟨M.tls_client_hello, tcp_msg_type_tls_client_hello⟩,
            ⟨M.tls_server_hello, tcp_msg_type_tls_server_hello⟩]
        else []) ++
        (if effective_protocols set_config (some s) .http = true ∨
            effective_protocols set_config (some s) .all = true then
          [⟨M.http_request_get, tcp_msg_type_http_request⟩,
            ⟨M.http_request_post, tcp_msg_type_http_request⟩,
            ⟨M.http_request_connect, tcp_msg_type_http_request⟩,
            ⟨M.http_request_put, tcp_msg_type_http_request⟩,
            ⟨M.http_request_head, tcp_msg_type_http_request⟩,
            ⟨M.http_response, tcp_msg_type_http_response⟩]
        else []) ++
        (if effective_protocols set_config (some s) .ssh = true ∨
            effective_protocols set_config (some s) .all = true then
          [⟨M.ssh_init_packet, tcp_msg_type_ssh⟩, ⟨M.ssh_kex_init, tcp_msg_type_ssh_kex⟩]
        else []) ++
        (if effective_protocols set_config (some s) .smtp = true ∨
            effective_protocols set_config (some s) .all = true then
          [⟨M.smtp_client, tcp_msg_type_smtp_client⟩,
            ⟨M.smtp_server, tcp_msg_type_smtp_server⟩]
        else []) ∧
      sel.udp.short_matchers =
        (if effective_protocols set_config (some s) .dns = true then
          [⟨M.dns_packet, udp_msg_type_dns⟩]
        else []) := by
  simp only [traffic_selector.new, h, Bool.true_eq_false, if_false, effective_protocols,
    set_config_protocols, Option.getD_some, protocol_identifier.compile]
  refine ⟨_, rfl, ?_, ?_⟩
  · by_cases hn : (set_config (fun _ => false) s).2 .none = true
    · simp only [hn, if_true, Bool.false_eq_true, or_self, if_false, List.append_nil]
      rfl
    · simp only [hn, Bool.false_eq_true, if_false]
      by_cases h1 : (set_config (fun _ => false) s).2 .tls = true ∨
          (set_config (fun _ => false) s).2 .all = true <;>
        by_cases h2 : (set_config (fun _ => false) s).2 .http = true ∨
            (set_config (fun _ => false) s).2 .all = true <;>
          by_cases h3 : (set_config (fun _ => false) s).2 .ssh = true ∨
              (set_config (fun _ => false) s).2 .all = true <;>
            by_cases h4 : (set_config (fun _ => false) s).2 .smtp = true ∨
                (set_config (fun _ => false) s).2 .all = true <;>
              simp only [h1, h2, h3, h4, if_true, if_false, protocol_identifier.add_protocol,
                protocol_identifier.new, List.nil_append, List.append_nil, List.cons_append,
                List.append_assoc]
  · by_cases hn : (set_config (fun _ => false) s).2 .none = true
    · simp only [hn, if_true, Bool.false_eq_true, if_false]
      rfl
    · simp only [hn, Bool.false_eq_true, if_false]
      by_cases h1 : (set_config (fun _ => false) s).2 .dns = true <;>
        simp only [h1, Bool.false_eq_true, if_true, if_false,
          protocol_identifier.add_protocol, protocol_identifier.new, List.nil_append]

/-- What the constructor builds when `set_config` returns true, in terms of the
flags it decides with. -/
theorem traffic_selector_new_ok (M : protocol_matchers)
    (set_config : protocol_map → List uint8_t → Bool × protocol_map)
    (config_string : Option (List uint8_t))
    (h : set_config_result set_config config_string = true) :
    ∃ sel, traffic_selector.new M set_config config_string = .ok sel ∧
      sel.tcp.short_matchers =
        (if effective_protocols set_config config_string .tls = true ∨
            effective_protocols set_config config_string .all = true then
          [⟨M.tls_client_hello, tcp_msg_type_tls_client_hello⟩,
            ⟨M.tls_server_hello, tcp_msg_type_tls_server_hello⟩]
        else []) ++
        (if effective_protocols set_config config_string .http = true ∨
            effective_protocols set_config config_string .all = true then
          [⟨M.http_request_get, tcp_msg_type_http_request⟩,
            ⟨M.http_request_post, tcp_msg_type_http_request⟩,
            ⟨M.http_request_connect, tcp_msg_type_http_request⟩,
            ⟨M.http_request_put, tcp_msg_type_http_request⟩,
            ⟨M.http_request_head, tcp_msg_type_http_request⟩,
            ⟨M.http_response, tcp_msg_type_http_response⟩]
        else []) ++
        (if effective_protocols set_config config_string .ssh = true ∨
            effective_protocols set_config config_string .all = true then
          [⟨M.ssh_init_packet, tcp_msg_type_ssh⟩, ⟨M.ssh_kex_init, tcp_msg_type_ssh_kex⟩]
        else []) ++
        (if effective_protocols set_config config_string .smtp = true ∨
            effective_protocols set_config config_string .all = true then
          [⟨M.smtp_client, tcp_msg_type_smtp_client⟩,
            ⟨M.smtp_server, tcp_msg_type_smtp_server⟩]
        else []) ∧
      sel.udp.short_matchers =
        (if effective_protocols set_config config_string .dns = true then
          [⟨M.dns_packet, udp_msg_type_dns⟩]
        else []) := by
  cases config_string with
  | none => exact traffic_selector_new_some M set_config all_string h
  | some s => exact traffic_selector_new_some M set_config s h

/-- An identifier without matchers answers 0 for every buffer and length. -/
theorem get_msg_type_no_matcher (big_endian : Bool) (I : protocol_identifier)
    (h : I.short_matchers = []) (data : List uint8_t) (len : Nat) :
    I.get_msg_type big_endian data len = some 0 := by
  unfold protocol_identifier.get_msg_type protocol_identifier.get_msg_type_traced
  rw [h]
  split <;> rfl

/-- A selector is determined by the entries of its two identifiers. -/
theorem traffic_selector_ext (a b : traffic_selector)
    (ht : a.tcp.short_matchers = b.tcp.short_matchers)
    (hu : a.udp.short_matchers = b.udp.short_matchers) : a = b := by
  obtain ⟨⟨at_⟩, ⟨au⟩⟩ := a
  obtain ⟨⟨bt⟩, ⟨bu⟩⟩ := b
  simp only at ht hu
  rw [ht, hu]

/-- C26: for every configuration that `set_config` accepts and after which the
flag `none` is set, whatever the other flags are, the constructor registers no
matcher in the TCP identifier and none in the UDP identifier, so
`get_tcp_msg_type` (and a lookup in the UDP identifier) returns 0, unknown, for
every buffer and length. -/
theorem none_registers_nothing (M : protocol_matchers)
    (set_config : protocol_map → List uint8_t → Bool × protocol_map)
    (config_string : Option (List uint8_t))
    (h1 : set_config_result set_config config_string = true)
    (h2 : set_config_protocols set_config config_string .none = true) :
    ∃ sel, traffic_selector.new M set_config config_string = .ok sel ∧
      sel.tcp.short_matchers = [] ∧ sel.udp.short_matchers = [] ∧
      ∀ (big_endian : Bool) (data : List uint8_t) (len : Nat),
        sel.get_tcp_msg_type big_endian data len = some tcp_msg_type_unknown ∧
        sel.udp.get_msg_type big_endian data len = some udp_msg_type_unknown := by
  obtain ⟨sel, hs, ht, hu⟩ := traffic_selector_new_ok M set_config config_string h1
  have he : effective_protocols set_config config_string = fun _ => false := by
    unfold effective_protocols
    rw [if_pos h2]
  rw [he] at ht hu
  simp only [Bool.false_eq_true, or_self, if_false, List.append_nil] at ht hu
  exact ⟨sel, hs, ht, hu, fun big_endian data len =>
    ⟨get_msg_type_no_matcher big_endian sel.tcp ht data len,
      get_msg_type_no_matcher big_endian sel.udp hu data len⟩⟩

theorem none_registers_nothing_witness :
    (set_config_result example_set_config (some none_string) = true ∧
      set_config_protocols example_set_config (some none_string) .none = true) ∧
    ∃ sel, traffic_selector.new example_matchers example_set_config (some none_string) =
        .ok sel ∧
      sel.get_tcp_msg_type false example_get_request 8 = some 0 :=
  ⟨⟨by decide, by decide⟩,
    match none_registers_nothing example_matchers example_set_config (some none_string)
      (by decide) (by decide) with
    | ⟨sel, hs, _, _, hg⟩ => ⟨sel, hs, (hg false example_get_request 8).1⟩⟩

/-- C27: `traffic_selector(nullptr)` and `traffic_selector("all")` give the same
result: both throw, or both build the same TCP and UDP identifiers, and then
`get_tcp_msg_type` returns the same for every buffer and length. -/
theorem null_config_string_is_all (M : protocol_matchers)
    (set_config : protocol_map → List uint8_t → Bool × protocol_map) :
    traffic_selector.new M set_config none =
      traffic_selector.new M set_config (some all_string) ∧
    ∀ (big_endian : Bool) (data : List uint8_t) (len : Nat),
      (traffic_selector.new M set_config none).map
          (fun sel => sel.get_tcp_msg_type big_endian data len) =
        (traffic_selector.new M set_config (some all_string)).map
          (fun sel => sel.get_tcp_msg_type big_endian data len) := by
  have h : traffic_selector.new M set_config none =
      traffic_selector.new M set_config (some all_string) := rfl
  exact ⟨h, fun big_endian data len => by rw [h]⟩

/-- C28: the constructor throws `std::runtime_error` exactly when `set_config`
returns false, and it produces a selector exactly when `set_config` returns
true; it never does both. -/
theorem construction_fails_iff_set_config_fails (M : protocol_matchers)
    (set_config : protocol_map → List uint8_t → Bool × protocol_map)
    (config_string : Option (List uint8_t)) :
    (traffic_selector.new M set_config config_string = .error .runtime_error ↔
      set_config_result set_config config_string = false) ∧
    ((∃ sel, traffic_selector.new M set_config config_string = .ok sel) ↔
      set_config_result set_config config_string = true) := by
  cases h : set_config_result set_config config_string
  · have he := traffic_selector_new_error M set_config config_string h
    refine ⟨⟨fun _ => rfl, fun _ => he⟩, ⟨fun hx => ?_, fun hx => absurd hx (by simp)⟩⟩
    obtain ⟨sel, hs⟩ := hx
    rw [he] at hs
    exact absurd hs (by simp)
  · obtain ⟨sel, hs, _⟩ := traffic_selector_new_ok M set_config config_string h
    refine ⟨⟨fun hx => ?_, fun hx => absurd hx (by simp)⟩, ⟨fun _ => rfl, fun _ => ⟨sel, hs⟩⟩⟩
    rw [hs] at hx
    exact absurd hx (by simp)

theorem construction_fails_iff_set_config_fails_witness :
    traffic_selector.new example_matchers example_set_config (some example_get_request) =
      .error .runtime_error ∧
    ∃ sel, traffic_selector.new example_matchers example_set_config (some dns_string) =
      .ok sel :=
  ⟨(construction_fails_iff_set_config_fails example_matchers example_set_config
      (some example_get_request)).1.2 (by decide),
    (construction_fails_iff_set_config_fails example_matchers example_set_config
      (some dns_string)).2.2 (by decide)⟩

/-- C29: with a `set_config` that accepts the string `all` and sets only the flag
`all`, the constructor registers 12 TCP entries (2 for TLS, 6 for HTTP, 2 for
SSH, 2 for SMTP), not 10. -/
theorem all_registers_twelve_entries :
    set_config_result example_set_config (some all_string) = true ∧
    set_config_protocols example_set_config (some all_string) .none = false ∧
    (traffic_selector.new example_matchers example_set_config (some all_string)).map
      (fun sel => sel.tcp.short_matchers.length) = .ok 12 ∧
    (traffic_selector.new example_matchers example_set_config (some all_string)).map
      (fun sel => sel.tcp.short_matchers.length) ≠ .ok 10 := by
  decide

/-- C29: for every accepted configuration with `none` unset, the entries of the
TCP identifier are, in this order: the TLS client-hello and server-hello
matchers if `tls` or `all` is set; then the HTTP GET, POST, CONNECT, PUT, HEAD
matchers (each typed `http_request`) and the HTTP response matcher if `http` or
`all` is set; then the SSH init and SSH KEX matchers if `ssh` or `all` is set;
then the SMTP client and server matchers if `smtp` or `all` is set; and nothing
else; so `all` registers exactly 12 TCP entries. -/
theorem tcp_entries_in_order (M : protocol_matchers)
    (set_config : protocol_map → List uint8_t → Bool × protocol_map)
    (config_string : Option (List uint8_t))
    (h1 : set_config_result set_config config_string = true)
    (h2 : set_config_protocols set_config config_string .none = false) :
    ∃ sel, traffic_selector.new M set_config config_string = .ok sel ∧
      sel.tcp.short_matchers =
        (if set_config_protocols set_config config_string .tls = true ∨
            set_config_protocols set_config config_string .all = true then
          [⟨M.tls_client_hello, tcp_msg_type_tls_client_hello⟩,
            ⟨M.tls_server_hello, tcp_msg_type_tls_server_hello⟩]
        else []) ++
        (if set_config_protocols set_config config_string .http = true ∨
            set_config_protocols set_config config_string .all = true then
          [⟨M.http_request_get, tcp_msg_type_http_request⟩,
            ⟨M.http_request_post, tcp_msg_type_http_request⟩,
            ⟨M.http_request_connect, tcp_msg_type_http_request⟩,
            ⟨M.http_request_put, tcp_msg_type_http_request⟩,
            ⟨M.http_request_head, tcp_msg_type_http_request⟩,
            ⟨M.http_response, tcp_msg_type_http_response⟩]
        else []) ++
        (if set_config_protocols set_config config_string .ssh = true ∨
            set_config_protocols set_config config_string .all = true then
          [⟨M.ssh_init_packet, tcp_msg_type_ssh⟩, ⟨M.ssh_kex_init, tcp_msg_type_ssh_kex⟩]
        else []) ++
        (if set_config_protocols set_config config_string .smtp = true ∨
            set_config_protocols set_config config_string .all = true then
          [⟨M.smtp_client, tcp_msg_type_smtp_client⟩,
            ⟨M.smtp_server, tcp_msg_type_smtp_server⟩]
        else []) ∧
      (set_config_protocols set_config config_string .all = true →
        sel.tcp.short_matchers.length = 12) := by
  obtain ⟨sel, hs, ht, _⟩ := traffic_selector_new_ok M set_config config_string h1
  have he : effective_protocols set_config config_string =
      set_config_protocols set_config config_string := by
    unfold effective_protocols
    rw [if_neg (by simp [h2])]
  rw [he] at ht
  refine ⟨sel, hs, ht, fun hall => ?_⟩
  rw [ht]
  simp [hall]

theorem tcp_entries_in_order_witness :
    (set_config_result example_set_config (some all_string) = true ∧
      set_config_protocols example_set_config (some all_string) .none = false) ∧
    ∃ sel, traffic_selector.new example_matchers example_set_config (some all_string) =
        .ok sel ∧
      sel.tcp.short_matchers.length = 12 :=
  ⟨⟨by decide, by decide⟩,
    match tcp_entries_in_order example_matchers example_set_config (some all_string)
      (by decide) (by decide) with
    | ⟨sel, hs, _, hl⟩ => ⟨sel, hs, hl (by decide)⟩⟩

/-- C30: for every accepted configuration, the UDP identifier holds the DNS
matcher, typed `udp_msg_type_dns`, when the flag `dns` is set and `none` is not,
and it is empty otherwise, so also when only `all` is set; and the flags `dhcp`,
`dtls`, `wireguard`, `quic`, `tcp` and `tcp.message` register nothing: an
accepted configuration that differs in these six flags only builds the same
selector. -/
theorem udp_entries_dns_only (M : protocol_matchers)
    (set_config : protocol_map → List uint8_t → Bool × protocol_map)
    (config_string : Option (List uint8_t))
    (h1 : set_config_result set_config config_string = true) :
    ∃ sel, traffic_selector.new M set_config config_string = .ok sel ∧
      sel.udp.short_matchers =
        (if set_config_protocols set_config config_string .dns = true ∧
            set_config_protocols set_config config_string .none = false then
          [⟨M.dns_packet, udp_msg_type_dns⟩]
        else []) ∧
      (set_config_protocols set_config config_string .dns = false →
        sel.udp.short_matchers = []) ∧
      ∀ (set_config2 : protocol_map → List uint8_t → Bool × protocol_map)
        (config_string2 : Option (List uint8_t)),
        set_config_result set_config2 config_string2 = true →
        (∀ n : protocol_name, n ≠ .dhcp → n ≠ .dtls → n ≠ .wireguard → n ≠ .quic →
          n ≠ .tcp → n ≠ .tcp_message →
          set_config_protocols set_config2 config_string2 n =
            set_config_protocols set_config config_string n) →
        traffic_selector.new M set_config2 config_string2 = .ok sel := by
  obtain ⟨sel, hs, ht, hu⟩ := traffic_selector_new_ok M set_config config_string h1
  have hudp : sel.udp.short_matchers =
      (if set_config_protocols set_config config_string .dns = true ∧
          set_config_protocols set_config config_string .none = false then
        [⟨M.dns_packet, udp_msg_type_dns⟩]
      else []) := by
    rw [hu]
    unfold effective_protocols
    cases hn : set_config_protocols set_config config_string .none <;>
      cases hd : set_config_protocols set_config config_string .dns <;> simp [hn, hd]
  refine ⟨sel, hs, hudp, fun hd => ?_, fun set_config2 config_string2 h3 hagree => ?_⟩
  · rw [hudp, if_neg (by simp [hd])]
  · obtain ⟨sel2, hs2, ht2, hu2⟩ := traffic_selector_new_ok M set_config2 config_string2 h3
    have he : ∀ n : protocol_name, n ≠ .dhcp → n ≠ .dtls → n ≠ .wireguard → n ≠ .quic →
        n ≠ .tcp → n ≠ .tcp_message →
        effective_protocols set_config2 config_string2 n =
          effective_protocols set_config config_string n := by
      intro n a b c d e f
      unfold effective_protocols
      rw [hagree .none (by decide) (by decide) (by decide) (by decide) (by decide) (by decide)]
      split
      · rfl
      · exact hagree n a b c d e f
    rw [he .tls (by decide) (by decide) (by decide) (by decide) (by decide) (by decide),
      he .all (by decide) (by decide) (by decide) (by decide) (by decide) (by decide),
      he .http (by decide) (by decide) (by decide) (by decide) (by decide) (by decide),
      he .ssh (by decide) (by decide) (by decide) (by decide) (by decide) (by decide),
      he .smtp (by decide) (by decide) (by decide) (by decide) (by decide) (by decide),
      ← ht] at ht2
    rw [he .dns (by decide) (by decide) (by decide) (by decide) (by decide) (by decide),
      ← hu] at hu2
    rw [hs2, traffic_selector_ext sel2 sel ht2 hu2]

theorem udp_entries_dns_only_witness :
    set_config_result example_set_config (some dns_quic_string) = true ∧
    ∃ sel, traffic_selector.new example_matchers example_set_config (some dns_quic_string) =
        .ok sel ∧
      sel.udp.short_matchers = [⟨example_matchers.dns_packet, udp_msg_type_dns⟩] ∧
      traffic_selector.new example_matchers example_set_config (some dns_string) = .ok sel :=
  ⟨by decide,
    match udp_entries_dns_only example_matchers example_set_config (some dns_quic_string)
      (by decide) with
    | ⟨sel, hs, hu, _, hsame⟩ =>
      ⟨sel, hs, by rw [hu, if_pos (by decide)],
        hsame example_set_config (some dns_string) (by decide)
          (fun n _ _ _ d _ _ => by
            cases n <;> first | rfl | exact absurd rfl d)⟩⟩

/-! ## match.h: the all-zero mask -/

/-- C31: the matcher with an all-zero mask and the value `01 00 00 00 00 00 00 00`
does not match the buffer `GET / HT`, on either host byte order: with an
all-zero mask `b & mask` is zero, which is not the value. -/
theorem zero_mask_nonzero_value_no_match :
    (mask_and_value.mk ![0x00, 0x00, 0x00, 0x00, 0x00, 0x00, 0x00, 0x00]
        ![0x01, 0x00, 0x00, 0x00, 0x00, 0x00, 0x00, 0x00]).matches true example_get_request =
      some false ∧
    (mask_and_value.mk ![0x00, 0x00, 0x00, 0x00, 0x00, 0x00, 0x00, 0x00]
        ![0x01, 0x00, 0x00, 0x00, 0x00, 0x00, 0x00, 0x00]).matches false example_get_request =
      some false := by
  decide

/-- C31: a matcher whose mask is all-zero matches an 8-byte buffer exactly when
its value is all-zero too: for every value and every buffer `b` of 8 bytes,
`mask_and_value<8>(all-zero mask, value).matches(b)` is true when every byte of
the value is zero, and false when some byte of the value is not zero. -/
theorem zero_mask_matches_iff_zero_value (big_endian : Bool) (value : Fin 8 → uint8_t)
    (b : List uint8_t) (hb : b.length = 8) :
    (mask_and_value.mk (fun _ => 0) value).matches big_endian b =
      some (decide (∀ i : Fin 8, value i = 0)) ∧
    ((∀ i : Fin 8, value i = 0) →
      (mask_and_value.mk (fun _ => 0) value).matches big_endian b = some true) ∧
    ((∃ i : Fin 8, value i ≠ 0) →
      (mask_and_value.mk (fun _ => 0) value).matches big_endian b = some false) := by
  have hiff : (∀ i : Fin 8, (b.getD i.val 0).val &&& ((fun _ => 0 : Fin 8 → uint8_t) i).val =
      (value i).val) ↔ ∀ i : Fin 8, value i = 0 := by
    constructor
    · intro h i
      have hi := h i
      simp only [Fin.val_zero, Nat.and_zero] at hi
      exact Fin.ext hi.symm
    · intro h i
      rw [h i]
      simp
  have hm : (mask_and_value.mk (fun _ => 0) value).matches big_endian b =
      some (decide (∀ i : Fin 8, value i = 0)) := by
    rw [matches_eq_decide big_endian _ b (by omega)]
    simp only [hiff]
  refine ⟨hm, fun h => ?_, fun h => ?_⟩
  · rw [hm, decide_eq_true h]
  · rw [hm, decide_eq_false]
    obtain ⟨i, hi⟩ := h
    exact fun hall => hi (hall i)

theorem zero_mask_matches_iff_zero_value_witness :
    example_get_request.length = 8 ∧
    (mask_and_value.mk (fun _ => 0) (fun _ => 0)).matches true example_get_request =
      some true :=
  ⟨rfl, (zero_mask_matches_iff_zero_value true (fun _ => 0) example_get_request rfl).2.1
    (fun _ => rfl)⟩

/-! ## proto_identify.h: `add_protocol` -/

/-- The loop of `get_msg_type` over a list that ends with one more entry: a match
among the first entries decides, otherwise the last entry does. -/
theorem loop_append_one (be : Bool) (data : List uint8_t) (h8 : 8 ≤ data.length)
    (q : matcher_and_type) :
    ∀ ps : List matcher_and_type,
      ((∃ p ∈ ps, p.mv.matches be data = some true) →
        (protocol_identifier.loop be data (ps ++ [q])).1 =
          (protocol_identifier.loop be data ps).1) ∧
      ((∀ p ∈ ps, p.mv.matches be data = some false) →
        (protocol_identifier.loop be data (ps ++ [q])).1 =
          some (if q.mv.matches be data = some true then q.type else 0)) := by
  intro ps
  induction ps with
  | nil =>
    refine ⟨fun h => ?_, fun _ => ?_⟩
    · obtain ⟨p, hp, _⟩ := h
      simp at hp
    · have hq := matches_eq_decide be q.mv data h8
      cases hd : decide (∀ i : Fin 8, (data.getD i.val 0).val &&& (q.mv.mask i).val =
          (q.mv.value i).val) <;> rw [hd] at hq <;>
        simp [protocol_identifier.loop, hq]
  | cons p ps ih =>
    have hp := matches_eq_decide be p.mv data h8
    by_cases hc : ∀ i : Fin 8, (data.getD i.val 0).val &&& (p.mv.mask i).val =
        (p.mv.value i).val
    · rw [decide_eq_true hc] at hp
      refine ⟨fun _ => ?_, fun h => ?_⟩
      · simp [protocol_identifier.loop, hp]
      · have := h p (by simp)
        rw [hp] at this
        simp at this
    · rw [decide_eq_false hc] at hp
      refine ⟨fun h => ?_, fun h => ?_⟩
      · obtain ⟨x, hx, hxm⟩ := h
        have hx2 : x ∈ ps := by
          rcases List.mem_cons.mp hx with rfl | hx2
          · rw [hp] at hxm
            simp at hxm
          · exact hx2
        have := ih.1 ⟨x, hx2, hxm⟩
        simp [protocol_identifier.loop, hp, this]
      · have := ih.2 (fun x hx => h x (by simp [hx]))
        simp [protocol_identifier.loop, hp, this]

/-- C32: for every identifier `I`, matcher `m`, type `t` and buffer of `len >= 8`
bytes: `add_protocol(m, t)` leaves the entries already present and their order
unchanged and puts the new entry after them; if some entry of `I` matches the
buffer, `get_msg_type` is the same after the call as before it; if no entry of
`I` matches, the result after the call is `t` when `m` matches the buffer and 0
otherwise. -/
theorem add_protocol_lowest_priority (big_endian : Bool) (I : protocol_identifier)
    (m : mask_and_value) (t : Nat) (data : List uint8_t) (len : Nat)
    (hlen : 8 ≤ len) (hbuf : len ≤ data.length) :
    (I.add_protocol m t).short_matchers = I.short_matchers ++ [⟨m, t⟩] ∧
    ((∃ p ∈ I.short_matchers, p.mv.matches big_endian data = some true) →
      (I.add_protocol m t).get_msg_type big_endian data len =
        I.get_msg_type big_endian data len) ∧
    ((∀ p ∈ I.short_matchers, p.mv.matches big_endian data = some false) →
      (I.add_protocol m t).get_msg_type big_endian data len =
        some (if m.matches big_endian data = some true then t else 0)) := by
  have hn : ¬ len < 8 := by omega
  have h := loop_append_one big_endian data (by omega) ⟨m, t⟩ I.short_matchers
  refine ⟨rfl, fun hex => ?_, fun hno => ?_⟩
  · unfold protocol_identifier.get_msg_type protocol_identifier.get_msg_type_traced
    rw [if_neg hn, if_neg hn]
    exact h.1 hex
  · unfold protocol_identifier.get_msg_type protocol_identifier.get_msg_type_traced
    rw [if_neg hn]
    exact h.2 hno

theorem add_protocol_lowest_priority_witness :
    (8 ≤ 8 ∧ 8 ≤ example_get_request.length) ∧
    ((protocol_identifier.build example_calls).add_protocol (example_matcher 0x47)
        77).get_msg_type true example_get_request 8 =
      (protocol_identifier.build example_calls).get_msg_type true example_get_request 8 ∧
    (protocol_identifier.new.add_protocol (example_matcher 0x47) 77).get_msg_type true
        example_get_request 8 = some 77 :=
  ⟨⟨by decide, by decide⟩,
    (add_protocol_lowest_priority true (protocol_identifier.build example_calls)
      (example_matcher 0x47) 77 example_get_request 8 (by decide) (by decide)).2.1
      ⟨⟨⟨![0xff, 0xff, 0xff, 0xff, 0x00, 0x00, 0x00, 0x00],
        ![0x47, 0x45, 0x54, 0x20, 0x00, 0x00, 0x00, 0x00]⟩, 1⟩, by
          rw [build_short_matchers]
          simp [example_calls], by decide⟩,
    (add_protocol_lowest_priority true protocol_identifier.new
      (example_matcher 0x47) 77 example_get_request 8 (by decide) (by decide)).2.2
      (fun p hp => by simp [protocol_identifier.new] at hp)⟩
/-! ## quic.h: `kdf_tls13` within one block -/

/-- For `1 ≤ length ≤ 32` and `*out_len == 0` on entry the loop of `kdf_tls13`
reaches its `HMAC` call once. -/
theorem kdf_tls13_hmac_calls_one_block (H : hmac_api) (secret label : List uint8_t)
    (length : uint8_t) (out_ : List uint8_t) (h1 : 1 ≤ length.val) (h32 : length.val ≤ 32)
    (hout : length.val ≤ out_.length) (hlabel : label.length + 5 ≤ 512) :
    kdf_tls13_hmac_calls H secret label length out_ 0 = 1 := by
  obtain ⟨m, hm⟩ : ∃ m, length.val = m + 1 := ⟨length.val - 1, by omega⟩
  have hr := read_range_of_le (kdf_new_label label length) (label.length + 4) 0
    (by rw [kdf_new_label_length]; omega)
  have hfull : ((kdf_new_label label length).drop 0).take (label.length + 4) =
      kdf_new_label label length := by
    rw [List.drop_zero, ← kdf_new_label_length label length, List.take_length]
  rw [hfull] at hr
  have hmd := H.md_len secret (kdf_new_label label length ++ [1])
  have hc := kdf_copy_enough m (H.HMAC secret (kdf_new_label label length ++ [1])) [] out_
    (by omega) (by omega)
  simp only [List.length_nil, Nat.zero_add, List.nil_append] at hc
  unfold kdf_tls13_hmac_calls
  rw [hm]
  simp only [kdf_tls13_loop_hmac_calls, Nat.zero_lt_succ, if_true, List.length_nil,
    Nat.zero_add]
  rw [if_neg (by omega), hr]
  simp only [List.nil_append]
  have hone : (Fin.ofNat ((0 + 1) % 256) : uint8_t) = 1 := by decide
  rw [hone, hc]

/-- C33: for every secret, label (`label_len` is one byte of the HMAC input, so
the label has at most 255 bytes) and requested length `L` with `1 <= L <= 32`,
called with `*out_len` initially 0 on an array `out_` that holds the `L` bytes,
`kdf_tls13` performs exactly one HMAC and writes exactly `L` bytes, the first
`L` bytes of `HMAC-SHA256(secret, 0x00 || L || label_len || label || 0x00 || 0x01)`,
and sets `*out_len` to `L`; hence after the key derivation of the constructor,
on a valid packet with a supported version, `quic_key_len == 16`,
`quic_iv_len == 12` and `quic_hp_len == 16`. -/
theorem kdf_tls13_single_hmac (H : hmac_api) (secret label : List uint8_t)
    (length : uint8_t) (out_ : List uint8_t) (h1 : 1 ≤ length.val) (h32 : length.val ≤ 32)
    (hout : length.val ≤ out_.length) (hlabel : label.length ≤ 255) :
    kdf_tls13 H secret label length out_ 0 =
      .ok ((H.HMAC secret
          ([0x00, length, Fin.ofNat label.length] ++ label ++ [0x00, 0x01])).take length.val ++
        out_.drop length.val, length.val) ∧
    (Fin.ofNat label.length : uint8_t).val = label.length ∧
    kdf_tls13_hmac_calls H secret label length out_ 0 = 1 ∧
    ∀ (AES_encrypt : List uint8_t → List uint8_t → List uint8_t) (mem : List uint8_t)
      (s e : Nat) (salt : List uint8_t),
      (quic_initial_packet.parse mem (some (s, e))).1.valid = true →
      get_initial_salt (load_u32 true (mem.getD (s + 1) 0) (mem.getD (s + 2) 0)
        (mem.getD (s + 3) 0) (mem.getD (s + 4) 0)) = some salt →
      ∃ c, quic_initial_packet_crypto.new H AES_encrypt mem
          (quic_initial_packet.parse mem (some (s, e))).1 = .ok c ∧
        c.quic_key_len = 16 ∧ c.quic_iv_len = 12 ∧ c.quic_hp_len = 16 := by
  have hl : kdf_new_label label length ++ [1] =
      [0x00, length, Fin.ofNat label.length] ++ label ++ [0x00, 0x01] := by
    simp [kdf_new_label]
  have hval : (Fin.ofNat label.length : uint8_t).val = label.length := by
    show label.length % 256 = label.length
    omega
  refine ⟨?_, hval, kdf_tls13_hmac_calls_one_block H secret label length out_ h1 h32 hout
    (by omega), fun AES_encrypt mem s e salt hvalid hsalt => ?_⟩
  · rw [kdf_tls13_one_block H secret label length out_ h1 h32 hout (by omega), hl]
  · exact ⟨_, crypto_new_of_valid H AES_encrypt mem s e salt hvalid hsalt, rfl, rfl, rfl⟩

theorem kdf_tls13_single_hmac_witness :
    ((1 ≤ (16 : uint8_t).val ∧ (16 : uint8_t).val ≤ 32 ∧
      (16 : uint8_t).val ≤ (List.replicate EVP_MAX_MD_SIZE (0 : uint8_t)).length ∧
      quic_key_label.length ≤ 255)) ∧
    kdf_tls13_hmac_calls hmac_sha256 example_dcid quic_key_label 16
      (List.replicate EVP_MAX_MD_SIZE 0) 0 = 1 :=
  ⟨⟨by decide, by decide, by decide, by decide⟩,
    (kdf_tls13_single_hmac hmac_sha256 example_dcid quic_key_label 16
      (List.replicate EVP_MAX_MD_SIZE 0) (by decide) (by decide) (by decide) (by decide)).2.2.1⟩

/-! ## quic.h: the accesses of the header-protection step -/

/-- The array `buf` has 32 elements. -/
theorem header_protection_mask_length
    (AES_encrypt : List uint8_t → List uint8_t → List uint8_t) (quic_hp mem : List uint8_t)
    (data : Nat) : (header_protection_mask AES_encrypt quic_hp mem data).length = 32 := by
  unfold header_protection_mask
  simp only [List.length_take, List.length_append, List.length_replicate]
  omega

/-- The indices that the last loop of the constructor uses, started at
`i ≥ base` and run `n` times. -/
theorem unmask_iv_loop_accesses_range (base : Nat) (n : Nat) :
    ∀ (i : Nat), base ≤ i → ∀ a ∈ unmask_iv_loop_accesses base n i,
      (a.1 = hp_array.quic_iv ∧ i ≤ a.2 ∧ a.2 < i + n) ∨
      (a.1 = hp_array.buf ∧ 1 ≤ a.2 ∧ a.2 < i - base + n + 1) ∨
      (a.1 = hp_array.payload ∧ a.2 < i - base + n) := by
  induction n with
  | zero =>
    intro i _ a ha
    simp [unmask_iv_loop_accesses] at ha
  | succ n ih =>
    intro i hi a ha
    simp only [unmask_iv_loop_accesses, List.mem_append, List.mem_cons, List.mem_singleton,
      List.not_mem_nil, or_false] at ha
    rcases ha with (rfl | rfl | rfl) | ha
    · exact Or.inl ⟨rfl, by simp, by simp⟩
    · exact Or.inr (Or.inl ⟨rfl, by simp, by simp⟩)
    · exact Or.inr (Or.inr ⟨rfl, by simp⟩)
    · rcases ih (i + 1) (by omega) a ha with ⟨h1, h2, h3⟩ | ⟨h1, h2, h3⟩ | ⟨h1, h2⟩
      · exact Or.inl ⟨h1, by omega, by omega⟩
      · exact Or.inr (Or.inl ⟨h1, h2, by omega⟩)
      · exact Or.inr (Or.inr ⟨h1, by omega⟩)

/-- With `quic_iv_len = 12`, `pn_length` in `1..4` and a payload of at least 32
bytes, every element that the header-protection step touches exists. -/
theorem header_protection_accesses_in_bounds (pn_length payload_length : Nat)
    (h1 : 1 ≤ pn_length) (h4 : pn_length ≤ 4) (hp : 32 ≤ payload_length) :
    ∀ a ∈ header_protection_accesses 12 pn_length, access_in_bounds payload_length 32 12 a := by
  intro a ha
  unfold header_protection_accesses at ha
  simp only [List.mem_append, List.mem_map, List.mem_range, List.mem_singleton] at ha
  rcases ha with ((⟨k, hk, rfl⟩ | ⟨k, hk, rfl⟩) | rfl) | ha
  · show 4 + k < payload_length
    omega
  · show k < 32
    omega
  · show 0 < 32
    omega
  · obtain ⟨x, i⟩ := a
    rcases unmask_iv_loop_accesses_range (12 - pn_length) _ (12 - pn_length) (Nat.le_refl _)
      (x, i) ha with ⟨hx, _, h3⟩ | ⟨hx, _, h3⟩ | ⟨hx, h3⟩
    · simp only at hx h3
      subst hx
      show i < 12
      omega
    · simp only at hx h3
      subst hx
      show i < 32
      omega
    · simp only at hx h3
      subst hx
      show i < payload_length
      omega

/-- C34: for every valid `quic_initial_packet` with a supported version, the
constructor `quic_initial_packet_crypto` completes, and every byte its
header-protection step reads or writes is in bounds: the payload lies inside
the input and has at least 32 bytes, so the 16-byte sample at payload offsets
4..19 and the `pn_length` packet-number bytes at payload offsets
0..`pn_length`-1 lie inside it; the mask indices 1..`pn_length` lie inside the
32 bytes of `buf`; and the IV indices 12-`pn_length`..11 lie inside the 12
derived bytes of `quic_iv`, an array of 64 bytes. -/
theorem header_protection_in_bounds (H : hmac_api)
    (AES_encrypt : List uint8_t → List uint8_t → List uint8_t) (mem : List uint8_t)
    (s e : Nat) (salt : List uint8_t)
    (hvalid : (quic_initial_packet.parse mem (some (s, e))).1.valid = true)
    (hsalt : get_initial_salt (load_u32 true (mem.getD (s + 1) 0) (mem.getD (s + 2) 0)
      (mem.getD (s + 3) 0) (mem.getD (s + 4) 0)) = some salt) :
    ∃ c data data_end,
      quic_initial_packet_crypto.new H AES_encrypt mem
        (quic_initial_packet.parse mem (some (s, e))).1 = .ok c ∧
      (quic_initial_packet.parse mem (some (s, e))).1.data = some (data, data_end) ∧
      (s ≤ data ∧ data_end ≤ e ∧ 32 ≤ data_end - data) ∧
      (1 ≤ c.pn_length ∧ c.pn_length ≤ 4) ∧
      (c.quic_iv_len = 12 ∧ c.quic_iv.length = 64) ∧
      (header_protection_mask AES_encrypt c.quic_hp mem data).length = 32 ∧
      (∀ a ∈ header_protection_accesses c.quic_iv_len c.pn_length,
        access_in_bounds (data_end - data) 32 c.quic_iv_len a) ∧
      (∀ k, k < 16 → data + 4 + k < data_end) ∧
      (∀ k, k < c.pn_length →
        data + k < data_end ∧ 1 + k < 32 ∧
          c.quic_iv_len - c.pn_length + k < c.quic_iv_len) := by
  obtain ⟨hci, hfit⟩ := parse_fits_of_valid mem s e hvalid
  have hnew := crypto_new_of_valid H AES_encrypt mem s e salt hvalid hsalt
  have hdata : (quic_initial_packet.parse mem (some (s, e))).1.data =
      some (parsed_length_offset mem s e + 2,
        parsed_length_offset mem s e + 2 + parsed_payload_length mem s e) := by
    rw [parse_of_fits mem s e hci hfit]
  have h32 : 32 ≤ parsed_payload_length mem s e := by
    rw [parse_of_fits mem s e hci hfit] at hvalid
    simp only [decide_eq_true_eq] at hvalid
    exact hvalid.1
  have hlo : s ≤ parsed_length_offset mem s e + 2 := by
    unfold parsed_length_offset parsed_token_offset wire_token_length_offset
    omega
  have hpn := pn_length_of_range (mem.getD s 0)
    (header_protection_mask AES_encrypt
      (hkdf_key_material H salt (read_bytes mem (s + 6) (wire_dcid_length mem s))).quic_hp.1
      mem (parsed_length_offset mem s e + 2))
  have hiv : (hkdf_key_material H salt
      (read_bytes mem (s + 6) (wire_dcid_length mem s))).quic_iv.1.length = 64 := by
    simp only [hkdf_key_material, List.length_append, List.length_replicate,
      hkdf_expand_label_length H _ quic_iv_label 12 (by omega) (by omega)]
  refine ⟨_, parsed_length_offset mem s e + 2,
    parsed_length_offset mem s e + 2 + parsed_payload_length mem s e, hnew, hdata,
    ⟨hlo, hfit, by omega⟩, hpn, ⟨rfl, ?_⟩, header_protection_mask_length _ _ _ _, ?_,
    fun k hk => by omega, fun k hk => ?_⟩
  · show (unmask_iv _ 12 _ _ mem _).length = 64
    unfold unmask_iv
    rw [(unmask_iv_loop_getD _ _ mem _ _ _ _ (by rw [hiv]; omega)).1, hiv]
  · exact header_protection_accesses_in_bounds _ _ hpn.1 hpn.2 (by omega)
  · have hk2 : k < pn_length_of (mem.getD s 0)
        (header_protection_mask AES_encrypt
          (hkdf_key_material H salt (read_bytes mem (s + 6) (wire_dcid_length mem s))).quic_hp.1
          mem (parsed_length_offset mem s e + 2)) := hk
    refine ⟨by omega, by omega, ?_⟩
    show 12 - pn_length_of _ _ + k < 12
    omega

set_option maxRecDepth 100000 in
theorem header_protection_in_bounds_witness :
    ((quic_initial_packet.parse example_initial_32 (some (0, 50))).1.valid = true ∧
      get_initial_salt (load_u32 true (example_initial_32.getD (0 + 1) 0)
        (example_initial_32.getD (0 + 2) 0) (example_initial_32.getD (0 + 3) 0)
        (example_initial_32.getD (0 + 4) 0)) = some salt_d29_d32) ∧
    ∃ c data data_end,
      quic_initial_packet_crypto.new hmac_sha256 example_block_cipher example_initial_32
        (quic_initial_packet.parse example_initial_32 (some (0, 50))).1 = .ok c ∧
      (quic_initial_packet.parse example_initial_32 (some (0, 50))).1.data =
        some (data, data_end) ∧
      ∀ a ∈ header_protection_accesses c.quic_iv_len c.pn_length,
        access_in_bounds (data_end - data) 32 c.quic_iv_len a :=
  have hv : (quic_initial_packet.parse example_initial_32 (some (0, 50))).1.valid = true := by
    decide
  have hs : get_initial_salt (load_u32 true (example_initial_32.getD (0 + 1) 0)
      (example_initial_32.getD (0 + 2) 0) (example_initial_32.getD (0 + 3) 0)
      (example_initial_32.getD (0 + 4) 0)) = some salt_d29_d32 := by decide
  ⟨⟨hv, hs⟩,
    match header_protection_in_bounds hmac_sha256 example_block_cipher example_initial_32
      0 50 salt_d29_d32 hv hs with
    | ⟨c, data, data_end, h1, h2, _, _, _, _, h7, _⟩ => ⟨c, data, data_end, h1, h2, h7⟩⟩
/-! ## quic.h: `quic_version_negotiation` -/

/-- A valid Version Negotiation packet has the bit `0x80` of its first byte set,
a non-empty `dcid` and a non-empty `version_list`. -/
theorem version_negotiation_valid (mem : List uint8_t) (d : datum)
    (h : (quic_version_negotiation.parse mem d).1.valid = true) :
    (quic_version_negotiation.parse mem d).1.connection_info.val &&& 0x80 = 0x80 ∧
    (quic_version_negotiation.parse mem d).1.dcid.is_not_empty = true ∧
    (quic_version_negotiation.parse mem d).1.version_list.is_not_empty = true := by
  unfold quic_version_negotiation.parse at h ⊢
  simp only [] at h ⊢
  split at h
  · exact absurd h (by simp)
  · rename_i hci
    rw [if_neg hci]
    split at h
    · exact absurd h (by simp)
    · rename_i hne
      rw [if_neg hne]
      simp only [not_or, Bool.not_eq_false] at hne
      exact ⟨by simpa using hci, hne.2, hne.1⟩

/-- The body of the loop leaves `tmp` as it is and prints a null view. -/
theorem write_json_body_eq (tmp : datum) (out : List negotiation_event) :
    quic_version_negotiation.write_json_body tmp out = (tmp, out ++ [.version none]) := rfl

/-- With a non-empty `tmp` the loop of `write_json` is still running after any
number of iterations. -/
theorem write_json_loop_never_ends :
    ∀ (fuel : Nat) (tmp : datum) (out : List negotiation_event), tmp.is_not_empty = true →
      quic_version_negotiation.write_json_loop fuel tmp out = .error .out_of_fuel := by
  intro fuel
  induction fuel with
  | zero =>
    intro tmp out h
    simp only [quic_version_negotiation.write_json_loop, h, if_true]
  | succ n ih =>
    intro tmp out h
    simp only [quic_version_negotiation.write_json_loop, h, if_true, write_json_body_eq]
    exact ih tmp _ h

/-- C35: for every valid `quic_version_negotiation` packet (the first byte has the
bit `0x80` set, `dcid` and the version list are non-empty), every iteration of
the loop of `write_json` parses the fresh null view `version` from itself,
prints that null view and leaves `tmp` unchanged, so the loop condition
`tmp.is_not_empty()` holds for ever: for every number of iterations allowed,
`write_json` has not returned. -/
theorem version_negotiation_write_json_never_returns (mem : List uint8_t) (d : datum)
    (h : (quic_version_negotiation.parse mem d).1.valid = true) :
    ((quic_version_negotiation.parse mem d).1.connection_info.val &&& 0x80 = 0x80 ∧
      (quic_version_negotiation.parse mem d).1.dcid.is_not_empty = true ∧
      (quic_version_negotiation.parse mem d).1.version_list.is_not_empty = true) ∧
    (∀ (tmp : datum) (out : List negotiation_event),
      quic_version_negotiation.write_json_body tmp out = (tmp, out ++ [.version none])) ∧
    ∀ fuel : Nat,
      (quic_version_negotiation.parse mem d).1.write_json fuel = .error .out_of_fuel := by
  have hv := version_negotiation_valid mem d h
  refine ⟨hv, write_json_body_eq, fun fuel => ?_⟩
  unfold quic_version_negotiation.write_json
  rw [if_neg (by simp [h]), write_json_loop_never_ends fuel _ _ hv.2.2]

theorem version_negotiation_write_json_never_returns_witness :
    (quic_version_negotiation.parse example_version_negotiation (some (0, 16))).1.valid =
      true ∧
    (quic_version_negotiation.parse example_version_negotiation (some (0, 16))).1.version_list =
      some (8, 16) ∧
    (quic_version_negotiation.parse example_version_negotiation
      (some (0, 16))).1.write_json 1000 = .error .out_of_fuel :=
  ⟨by decide, by decide,
    (version_negotiation_write_json_never_returns example_version_negotiation (some (0, 16))
      (by decide)).2.2 1000⟩
/-! ## quic.h: `uint8_bitfield` -/

/-- The eight iterations of the loop of `uint8_bitfield::operator()`: `x` takes
the values `0x80, 0x40, ..., 0x01` and the loop ends when `x` is 0. -/
theorem uint8_bitfield_operator_eq (value : uint8_t) :
    uint8_bitfield.operator value =
      [if 0x80 &&& value.val ≠ 0 then '1' else '0',
        if 0x40 &&& value.val ≠ 0 then '1' else '0',
        if 0x20 &&& value.val ≠ 0 then '1' else '0',
        if 0x10 &&& value.val ≠ 0 then '1' else '0',
        if 0x08 &&& value.val ≠ 0 then '1' else '0',
        if 0x04 &&& value.val ≠ 0 then '1' else '0',
        if 0x02 &&& value.val ≠ 0 then '1' else '0',
        if 0x01 &&& value.val ≠ 0 then '1' else '0'] := by
  have step : ∀ x, 0 < x → uint8_bitfield.loop value x =
      (if x &&& value.val ≠ 0 then '1' else '0') :: uint8_bitfield.loop value (x >>> 1) := by
    intro x hx
    rw [uint8_bitfield.loop, if_pos hx]
  have stop : uint8_bitfield.loop value 0 = [] := by
    rw [uint8_bitfield.loop, if_neg (by decide)]
  unfold uint8_bitfield.operator
  rw [step 0x80 (by decide), show 0x80 >>> 1 = 0x40 from rfl,
    step 0x40 (by decide), show 0x40 >>> 1 = 0x20 from rfl,
    step 0x20 (by decide), show 0x20 >>> 1 = 0x10 from rfl,
    step 0x10 (by decide), show 0x10 >>> 1 = 0x08 from rfl,
    step 0x08 (by decide), show 0x08 >>> 1 = 0x04 from rfl,
    step 0x04 (by decide), show 0x04 >>> 1 = 0x02 from rfl,
    step 0x02 (by decide), show 0x02 >>> 1 = 0x01 from rfl,
    step 0x01 (by decide), show 0x01 >>> 1 = 0 from rfl, stop]

set_option maxRecDepth 100000 in
/-- The properties of the eight characters, checked for each of the 256 bytes. -/
theorem bitfield_characters : ∀ x : uint8_t,
    ([if 0x80 &&& x.val ≠ 0 then '1' else '0',
      if 0x40 &&& x.val ≠ 0 then '1' else '0',
      if 0x20 &&& x.val ≠ 0 then '1' else '0',
      if 0x10 &&& x.val ≠ 0 then '1' else '0',
      if 0x08 &&& x.val ≠ 0 then '1' else '0',
      if 0x04 &&& x.val ≠ 0 then '1' else '0',
      if 0x02 &&& x.val ≠ 0 then '1' else '0',
      if 0x01 &&& x.val ≠ 0 then '1' else '0'] : List Char) =
      (List.range 8).map (fun i => if x.val.testBit (7 - i) then '1' else '0') ∧
    binary_numeral ((List.range 8).map (fun i => if x.val.testBit (7 - i) then '1' else '0')) =
      x.val := by
  decide

/-- C36: for every byte `x`, `uint8_bitfield(x)` writes exactly 8 characters, each
`'0'` or `'1'`; the character at position `i` (0-based) is `'1'` exactly when
bit `7 - i` of `x` is set; and the output read as a binary numeral is `x`. -/
theorem uint8_bitfield_msb_first (x : uint8_t) :
    (uint8_bitfield.operator x).length = 8 ∧
    (∀ c ∈ uint8_bitfield.operator x, c = '0' ∨ c = '1') ∧
    (∀ i, i < 8 →
      ((uint8_bitfield.operator x).getD i 'x' = '1' ↔ x.val.testBit (7 - i) = true)) ∧
    binary_numeral (uint8_bitfield.operator x) = x.val := by
  have h := bitfield_characters x
  rw [uint8_bitfield_operator_eq, h.1]
  refine ⟨by simp, fun c hc => ?_, fun i hi => ?_, h.2⟩
  · obtain ⟨i, _, rfl⟩ := List.mem_map.mp hc
    split
    · exact Or.inr rfl
    · exact Or.inl rfl
  · rw [List.getD_eq_getElem?_getD, List.getElem?_map, List.getElem?_range hi]
    simp only [Option.map_some', Option.getD_some]
    split
    · simp_all
    · simp_all

end Mercury
